import Mathlib

/-!
# Verification development for the content aggregation search engine

Shallow embedding of the aggregation core of the repository:

* `infra/provider/circuit_breaker.go` : the per-provider circuit breaker,
* `app/search/service.go`             : cache key, filter, sort, paginate, `Search`,
* `domain/scoring/scorer.go`          : the ranking function.

Go `int`, `int64` and `time.Duration` are 64-bit two's-complement integers.
They are embedded as `Int` with an explicit wrap (`wrap64`) at every arithmetic
operation of the source that can leave the range.
-/

namespace SearchEngine

/-! ## Machine integers and time -/

/-- Largest value of a Go `int` / `int64` (64-bit platform). -/
def maxInt64 : Int := 9223372036854775807

/-- Smallest value of a Go `int` / `int64`. -/
def minInt64 : Int := -9223372036854775808

/-- Two's-complement wrap-around of a mathematical integer into the int64 range:
the value Go computes for `+`, `-`, `*`, `++` on `int`. -/
def wrap64 (x : Int) : Int :=
  (x + 9223372036854775808) % 18446744073709551616 - 9223372036854775808

/-- Membership in the range of a Go `int`. -/
def inInt64 (x : Int) : Prop := minInt64 ≤ x ∧ x ≤ maxInt64

instance (x : Int) : Decidable (inInt64 x) := by
  unfold inInt64; infer_instance

/-- A Go `time.Time`, as an instant counted in nanoseconds from the Unix epoch. -/
abbrev Time := Int

/-- A Go `time.Duration`: a signed 64-bit count of nanoseconds. -/
abbrev Duration := Int

/-- The zero value of `time.Time` (January 1, year 1, 00:00:00 UTC). -/
def zeroTime : Time := -62135596800000000000

/-- Saturation of `Time.Sub`: a difference outside the `Duration` range is
replaced by the nearest bound. -/
def satDuration (x : Int) : Duration :=
  if x > maxInt64 then maxInt64 else if x < minInt64 then minInt64 else x

/-- The value of `time.Since(t)` when the clock reads `now`. -/
def timeSince (now t : Time) : Duration := satDuration (now - t)

/-! ## Errors -/

/-- A non-nil Go `error` value. `ErrCircuitOpen` is the package-level sentinel of
`circuit_breaker.go`; every other error is kept by its message. The nil error
is `none : Option GoError`. -/
inductive GoError where
  | ErrCircuitOpen
  | other (msg : String)
  deriving DecidableEq, Repr

/-! ## Circuit breaker (`infra/provider/circuit_breaker.go`) -/

/-- The `CircuitState` enumeration. Only these three constants are ever assigned
to a breaker, so the `default` branches of the source are not represented. -/
inductive CircuitState where
  | StateClosed
  | StateOpen
  | StateHalfOpen
  deriving DecidableEq, Repr

open CircuitState

/-- Go `CircuitState.String`. -/
def CircuitState.String : CircuitState → String
  | StateClosed => "closed"
  | StateOpen => "open"
  | StateHalfOpen => "half-open"

/-- The fields of the `CircuitBreaker` struct (the mutex apart). -/
structure CircuitBreaker where
  state : CircuitState
  failureCount : Int
  successCount : Int
  lastFailureTime : Time
  threshold : Int
  timeout : Duration
  deriving DecidableEq, Repr

/-- Go `NewCircuitBreaker`: every field not named in the literal has its zero value. -/
def NewCircuitBreaker (threshold : Int) (timeout : Duration) : CircuitBreaker :=
  { state := StateClosed
    failureCount := 0
    successCount := 0
    lastFailureTime := zeroTime
    threshold := threshold
    timeout := timeout }

/-- Go `CircuitBreaker.canExecute`, with the clock reading `now` used by `time.Since`.
Returns the breaker after the call and the boolean answer. -/
def canExecute (cb : CircuitBreaker) (now : Time) : CircuitBreaker × Bool :=
  match cb.state with
  | StateClosed => (cb, true)
  | StateOpen =>
    if timeSince now cb.lastFailureTime > cb.timeout then
      ({ cb with state := StateHalfOpen, successCount := 0 }, true)
    else
      (cb, false)
  | StateHalfOpen => (cb, true)

/-- Go `CircuitBreaker.recordFailure`, with the clock reading `now` of `time.Now()`. -/
def recordFailure (cb : CircuitBreaker) (now : Time) : CircuitBreaker :=
  let cb1 := { cb with failureCount := wrap64 (cb.failureCount + 1), lastFailureTime := now }
  if cb1.state = StateHalfOpen then
    { cb1 with state := StateOpen }
  else if cb1.failureCount ≥ cb1.threshold then
    { cb1 with state := StateOpen }
  else
    cb1

/-- Go `CircuitBreaker.recordSuccess`. -/
def recordSuccess (cb : CircuitBreaker) : CircuitBreaker :=
  if cb.state = StateHalfOpen then
    let cb1 := { cb with successCount := wrap64 (cb.successCount + 1) }
    if cb1.successCount > 0 then
      { cb1 with state := StateClosed, failureCount := 0 }
    else
      cb1
  else if cb.state = StateClosed then
    { cb with failureCount := 0 }
  else
    cb

/-- Go `CircuitBreaker.State`. -/
def CircuitBreaker.State (cb : CircuitBreaker) : CircuitState := cb.state

/-- Go `CircuitBreaker.Execute`. The wrapped operation `fn` acts on an arbitrary
world `W` (whatever the closure reads and writes) and yields its error result;
`tCheck` is the clock reading inside `canExecute`, `tRecord` the one inside
`recordFailure`. The result is the breaker afterwards, the returned error and
the world afterwards: the world is untouched exactly when `fn` was not called. -/
def Execute {W : Type} (cb : CircuitBreaker) (tCheck tRecord : Time)
    (fn : W → Option GoError × W) (w : W) : CircuitBreaker × Option GoError × W :=
  match canExecute cb tCheck with
  | (cb1, false) => (cb1, some GoError.ErrCircuitOpen, w)
  | (cb1, true) =>
    match fn w with
    | (some err, w1) => (recordFailure cb1 tRecord, some err, w1)
    | (none, w1) => (recordSuccess cb1, none, w1)

/-- One call of `Execute` in a sequence: its two clock readings and its operation. -/
structure Call (W : Type) where
  tCheck : Time
  tRecord : Time
  fn : W → Option GoError × W

/-- Sequential `Execute` calls on one breaker, in list order. -/
def ExecuteAll {W : Type} (cb : CircuitBreaker) (w : W) : List (Call W) → CircuitBreaker × W
  | [] => (cb, w)
  | c :: cs =>
    let r := Execute cb c.tCheck c.tRecord c.fn w
    ExecuteAll r.1 r.2.2 cs

/-- The breaker values that can exist: built by `NewCircuitBreaker` from a Go `int`
threshold and changed only by the three critical sections of the source, in any
interleaving and at any clock readings. -/
inductive Reachable : CircuitBreaker → Prop where
  | new (threshold : Int) (timeout : Duration) (h : inInt64 threshold) :
      Reachable (NewCircuitBreaker threshold timeout)
  | check (cb : CircuitBreaker) (now : Time) :
      Reachable cb → Reachable (canExecute cb now).1
  | failure (cb : CircuitBreaker) (now : Time) :
      Reachable cb → Reachable (recordFailure cb now)
  | success (cb : CircuitBreaker) :
      Reachable cb → Reachable (recordSuccess cb)

/-- An operation on a counter world that always fails: used to instantiate the
breaker theorems. -/
def failingOp : Nat → Option GoError × Nat :=
  fun k => (some (GoError.other "upstream unavailable"), k + 1)

/-- An operation on a counter world that always succeeds. -/
def succeedingOp : Nat → Option GoError × Nat :=
  fun k => (none, k + 1)


/-- An open breaker (threshold 3, cooldown 500 ns) whose last failure was at time 1000. -/
def openBreaker : CircuitBreaker :=
  { state := StateOpen, failureCount := 3, successCount := 0,
    lastFailureTime := 1000, threshold := 3, timeout := 500 }

/-- A half-open breaker (threshold 3, cooldown 500 ns) whose last failure was at time 1000. -/
def halfOpenBreaker : CircuitBreaker :=
  { state := StateHalfOpen, failureCount := 3, successCount := 0,
    lastFailureTime := 1000, threshold := 3, timeout := 500 }

/-! ## IEEE-754 binary64 arithmetic

Go's `float64` is IEEE-754 binary64 with round-to-nearest, ties-to-even, every
operation rounded on its own (no fused multiply-add, as on amd64). A finite
`float64` value is embedded as the rational number it denotes, and an operation
is the exact rational operation followed by the rounding `fl`. Negative zero
is identified with zero (they compare equal in Go). Infinities and NaN are not
represented: the scorer divides only behind a non-zero guard and, on 64-bit
integer inputs, every intermediate value has magnitude below `2^70`, far from
the overflow threshold `2^1024`. -/

/-- A finite `float64` value, as the rational number it denotes. -/
abbrev F64 := ℚ

/-- The rational `2^e` for an integer exponent. -/
def pow2 (e : Int) : ℚ :=
  if 0 ≤ e then ((2 ^ e.toNat : Nat) : ℚ) else 1 / ((2 ^ (-e).toNat : Nat) : ℚ)

/-- Floor of the binary logarithm of a natural number, by halving at most `fuel` times. -/
def log2Fuel : Nat → Nat → Nat
  | 0, _ => 0
  | fuel + 1, n => if n < 2 then 0 else log2Fuel fuel (n / 2) + 1

/-- Floor of the binary logarithm of a positive natural number (`0` for `0`). -/
def natLog2 (n : Nat) : Nat := log2Fuel n n

/-- Floor of the binary logarithm of a positive rational: the `e` with
`2^e ≤ q < 2^(e+1)`. -/
def ilog2 (q : ℚ) : Int :=
  let e0 : Int := (natLog2 q.num.natAbs : Int) - (natLog2 q.den : Int)
  if pow2 e0 ≤ q then e0 else e0 - 1

/-- Nearest integer to a non-negative rational, ties to the even integer. -/
def roundHalfEven (q : ℚ) : Int :=
  let f := ⌊q⌋
  let r := q - f
  if r < 1 / 2 then f else if 1 / 2 < r then f + 1 else if f % 2 = 0 then f else f + 1

/-- Exponent of the unit in the last place of the binade of a positive rational:
53 significant bits, smallest normal exponent `-1022` (below it the spacing is
the subnormal spacing `2^-1074`). -/
def ulpExp (q : ℚ) : Int := max (ilog2 q) (-1022) - 52

/-- Binary64 rounding of a positive rational. -/
def flPos (q : ℚ) : ℚ := roundHalfEven (q / pow2 (ulpExp q)) * pow2 (ulpExp q)

/-- Binary64 rounding (round to nearest, ties to even) of a rational. -/
def fl (q : ℚ) : F64 :=
  if 0 < q then flPos q else if q < 0 then -flPos (-q) else 0

/-- The `float64` sum. -/
def fadd (a b : F64) : F64 := fl (a + b)

/-- The `float64` product. -/
def fmul (a b : F64) : F64 := fl (a * b)

/-- The `float64` quotient, for a non-zero divisor. -/
def fdiv (a b : F64) : F64 := fl (a / b)

/-- The conversion `float64(n)` of a Go `int`. -/
def ofInt (n : Int) : F64 := fl (n : ℚ)

/-- Go's `math.Round`: nearest integer, halves away from zero. -/
def mathRound (x : F64) : F64 :=
  if 0 ≤ x then ((⌊x + 1 / 2⌋ : Int) : ℚ) else -((⌊-x + 1 / 2⌋ : Int) : ℚ)

/-- The constant `time.Hour`, in nanoseconds. -/
def Hour : Duration := 3600000000000

/-- Go `Duration.Hours` of the Go standard library:
`float64(d / Hour) + float64(d % Hour) / (60 * 60 * 1e9)`, with Go's truncating
integer division. -/
def Duration.Hours (d : Duration) : F64 :=
  let hour := Int.tdiv d Hour
  let nsec := Int.tmod d Hour
  fadd (ofInt hour) (fdiv (ofInt nsec) 3600000000000)

/-! ## Content records (`domain/content.go`) -/

/-- The `domain.ProviderContent` struct. -/
structure ProviderContent where
  ExternalID : String
  Title : String
  /-- The `Type` field of the source (`Type` is reserved in Lean). -/
  Kind : String
  PublishedAt : Time
  Views : Int
  Likes : Int
  ReadingTime : Int
  Reactions : Int
  Tags : List String
  RawData : List Nat
  deriving DecidableEq, Repr

/-! ## Scorer (`domain/scoring/scorer.go`) -/

/-- Go `Scorer.calculateBaseScore`. -/
def calculateBaseScore (content : ProviderContent) : F64 :=
  if content.Kind = "video" then
    fadd (fdiv (ofInt content.Views) 1000) (fdiv (ofInt content.Likes) 100)
  else if content.Kind = "text" then
    fadd (ofInt content.ReadingTime) (fdiv (ofInt content.Reactions) 50)
  else
    0

/-- Go `Scorer.getTypeMultiplier`. -/
def getTypeMultiplier (contentType : String) : F64 :=
  if contentType = "video" then 3 / 2
  else if contentType = "text" then 1
  else 1

/-- Go `Scorer.calculateFreshnessScore`, with the clock reading `now` of `time.Since`. -/
def calculateFreshnessScore (publishedAt : Time) (now : Time) : F64 :=
  let daysSincePublished := fdiv (Duration.Hours (timeSince now publishedAt)) 24
  if daysSincePublished ≤ 7 then 5
  else if daysSincePublished ≤ 30 then 3
  else if daysSincePublished ≤ 90 then 1
  else 0

/-- Go `Scorer.calculateEngagementScore`. -/
def calculateEngagementScore (content : ProviderContent) : F64 :=
  if content.Kind = "video" then
    if content.Views = 0 then 0
    else fmul (fdiv (ofInt content.Likes) (ofInt content.Views)) 10
  else if content.Kind = "text" then
    if content.ReadingTime = 0 then 0
    else fmul (fdiv (ofInt content.Reactions) (ofInt content.ReadingTime)) 5
  else
    0

/-- Go `roundTo2Decimals`: `math.Round(val*100) / 100`. -/
def roundTo2Decimals (val : F64) : F64 := fdiv (mathRound (fmul val 100)) 100

/-- Go `Scorer.CalculateScore`, with the clock reading `now`. -/
def CalculateScore (content : ProviderContent) (now : Time) : F64 :=
  let baseScore := calculateBaseScore content
  let typeMultiplier := getTypeMultiplier content.Kind
  let freshnessScore := calculateFreshnessScore content.PublishedAt now
  let engagementScore := calculateEngagementScore content
  let finalScore := fadd (fadd (fmul baseScore typeMultiplier) freshnessScore) engagementScore
  roundTo2Decimals finalScore

/-! ## MD5 (`crypto/md5` of the Go standard library, RFC 1321) -/

/-- The per-round additive constants `floor(2^32 * |sin(i + 1)|)`. -/
def md5K : List Nat :=
  [ 3614090360, 3905402710, 606105819, 3250441966,
    4118548399, 1200080426, 2821735955, 4249261313,
    1770035416, 2336552879, 4294925233, 2304563134,
    1804603682, 4254626195, 2792965006, 1236535329,
    4129170786, 3225465664, 643717713, 3921069994,
    3593408605, 38016083, 3634488961, 3889429448,
    568446438, 3275163606, 4107603335, 1163531501,
    2850285829, 4243563512, 1735328473, 2368359562,
    4294588738, 2272392833, 1839030562, 4259657740,
    2763975236, 1272893353, 4139469664, 3200236656,
    681279174, 3936430074, 3572445317, 76029189,
    3654602809, 3873151461, 530742520, 3299628645,
    4096336452, 1126891415, 2878612391, 4237533241,
    1700485571, 2399980690, 4293915773, 2240044497,
    1873313359, 4264355552, 2734768916, 1309151649,
    4149444226, 3174756917, 718787259, 3951481745 ]

/-- The per-round left-rotation amounts. -/
def md5S : List Nat :=
  [ 7, 12, 17, 22, 7, 12, 17, 22, 7, 12, 17, 22, 7, 12, 17, 22,
    5, 9, 14, 20, 5, 9, 14, 20, 5, 9, 14, 20, 5, 9, 14, 20,
    4, 11, 16, 23, 4, 11, 16, 23, 4, 11, 16, 23, 4, 11, 16, 23,
    6, 10, 15, 21, 6, 10, 15, 21, 6, 10, 15, 21, 6, 10, 15, 21 ]

/-- Reduction to a 32-bit word. -/
def w32 (x : Nat) : Nat := x % 4294967296

/-- Left rotation of a 32-bit word. -/
def rotl32 (x s : Nat) : Nat := w32 (x <<< s) ||| (x >>> (32 - s))

/-- Bitwise complement of a 32-bit word. -/
def not32 (x : Nat) : Nat := 4294967295 - x

/-- The bytes `n`, least significant first, of a `k`-byte little-endian number. -/
def leBytes : Nat → Nat → List Nat
  | 0, _ => []
  | k + 1, n => n % 256 :: leBytes k (n / 256)

/-- The number denoted by little-endian bytes. -/
def leWord : List Nat → Nat
  | [] => 0
  | b :: bs => b + 256 * leWord bs

/-- RFC 1321 padding: a `0x80` byte, zero bytes up to 56 modulo 64, then the bit
length as a 64-bit little-endian number. -/
def md5Pad (msg : List Nat) : List Nat :=
  let zeros := (55 + 64 - msg.length % 64) % 64
  msg ++ [128] ++ List.replicate zeros 0 ++ leBytes 8 ((8 * msg.length) % 18446744073709551616)

/-- Consecutive chunks of `k + 1` elements, in at most `fuel` steps. -/
def chunksOf {α : Type} (k : Nat) : Nat → List α → List (List α)
  | 0, _ => []
  | fuel + 1, xs => if xs.isEmpty then [] else xs.take (k + 1) :: chunksOf k fuel (xs.drop (k + 1))

/-- The chaining state `(A, B, C, D)`. -/
abbrev Md5State := Nat × Nat × Nat × Nat

/-- One of the 64 operations of the compression function on message words `m`. -/
def md5Step (m : List Nat) (st : Md5State) (i : Nat) : Md5State :=
  let (a, b, c, d) := st
  let f :=
    if i < 16 then (b &&& c) ||| (not32 b &&& d)
    else if i < 32 then (d &&& b) ||| (not32 d &&& c)
    else if i < 48 then b ^^^ c ^^^ d
    else c ^^^ (b ||| not32 d)
  let g :=
    if i < 16 then i
    else if i < 32 then (5 * i + 1) % 16
    else if i < 48 then (3 * i + 5) % 16
    else (7 * i) % 16
  let f1 := w32 (f + a + md5K.getD i 0 + m.getD g 0)
  (d, w32 (b + rotl32 f1 (md5S.getD i 0)), b, c)

/-- The compression function on one 64-byte block. -/
def md5Block (st : Md5State) (block : List Nat) : Md5State :=
  let m := (chunksOf 3 16 block).map leWord
  let (a, b, c, d) := (List.range 64).foldl (md5Step m) st
  (w32 (st.1 + a), w32 (st.2.1 + b), w32 (st.2.2.1 + c), w32 (st.2.2.2 + d))

/-- Go `md5.Sum`: the 16 digest bytes of a byte sequence. -/
def md5Sum (msg : List Nat) : List Nat :=
  let padded := md5Pad msg
  let (a, b, c, d) :=
    (chunksOf 63 (padded.length / 64) padded).foldl md5Block
      (1732584193, 4023233417, 2562383102, 271733878)
  leBytes 4 a ++ leBytes 4 b ++ leBytes 4 c ++ leBytes 4 d

/-- The bytes of a Go string (UTF-8). -/
def stringBytes (s : String) : List Nat :=
  s.toList.flatMap (fun c => (String.utf8EncodeChar c).map UInt8.toNat)

/-- A lower-case hexadecimal digit. -/
def hexDigit (n : Nat) : Char := "0123456789abcdef".toList.getD n '0'

/-- The verb `%x` on a byte array: two lower-case hexadecimal digits per byte. -/
def hexBytes (bs : List Nat) : String :=
  String.mk (bs.flatMap (fun b => [hexDigit (b / 16), hexDigit (b % 16)]))

/-! ## Search service (`app/search/service.go`) -/

/-- The `SearchParams` struct. -/
structure SearchParams where
  Query : String
  Tags : List String
  ContentTypes : List String
  SortBy : String
  Page : Int
  PerPage : Int
  deriving DecidableEq, Repr

/-- The verb `%v` on a `[]string`: the elements separated by one space, in
square brackets. -/
def fmtStrings (xs : List String) : String := "[" ++ " ".intercalate xs ++ "]"

/-- The string hashed by `generateCacheKey`:
`fmt.Sprintf("q=%s&tags=%v&types=%v&sort=%s&page=%d&per_page=%d", ...)`. -/
def keyData (params : SearchParams) : String :=
  "q=" ++ params.Query ++ "&tags=" ++ fmtStrings params.Tags ++
  "&types=" ++ fmtStrings params.ContentTypes ++ "&sort=" ++ params.SortBy ++
  "&page=" ++ toString params.Page ++ "&per_page=" ++ toString params.PerPage

/-- Go `Service.generateCacheKey`. -/
def generateCacheKey (params : SearchParams) : String :=
  "search:" ++ hexBytes (md5Sum (stringBytes (keyData params)))

/-- A `uuid.UUID`, as the 128-bit number it holds. -/
abbrev UUID := Nat

/-- The `domain.Content` struct (`Kind` is the `Type` field, a `ContentType` string). -/
structure Content where
  ID : UUID
  ExternalID : String
  Provider : String
  Title : String
  Kind : String
  PublishedAt : Time
  RawData : List Nat
  Views : Int
  Likes : Int
  Reactions : Int
  ReadingTime : Int
  Tags : List String
  Score : F64
  CreatedAt : Time
  UpdatedAt : Time
  deriving DecidableEq, Repr

/-- The `SearchResult` struct. -/
structure SearchResult where
  Items : List Content
  Total : Int
  Page : Int
  PerPage : Int
  TotalPages : Int
  deriving DecidableEq, Repr

/-- The `provider.ProviderResult` struct: `Error = none` is the nil error. -/
structure ProviderResult where
  Provider : String
  Contents : List ProviderContent
  Error : Option GoError
  Duration : Duration
  deriving DecidableEq, Repr

/-- The collaborators of `Service.Search` and the library routines it calls, as
the answers they give during one request. -/
structure Env where
  /-- Whether `s.cache != nil`. -/
  hasCache : Bool
  /-- Go `RedisCache.Get` under a key: the decoded value, or an error (miss or failure). -/
  cacheGet : String → Except GoError SearchResult
  /-- Go `RedisCache.Set` of a value under a key: the error it returns, if any. -/
  cacheSet : String → SearchResult → Option GoError
  /-- Go `Manager.SearchAllWithPagination` for a query, page and page size: the
  outcomes in the order they were collected. -/
  SearchAllWithPagination : String → Int → Int → List ProviderResult
  /-- Go `Repository.SearchByProvider` for a provider, query, page and page size. -/
  SearchByProvider : String → String → Int → Int → Except GoError (List Content)
  /-- The successive readings of `time.Now()`. -/
  clock : Nat → Time
  /-- The successive values of `domain.NewUUID()`. -/
  NewUUID : Nat → UUID
  /-- Go `strings.ToLower` of the Go standard library. -/
  ToLower : String → String
  /-- Go `sort.Slice` of the Go standard library on a comparator and a slice: an
  unstable comparison sort that only swaps elements. -/
  sortSlice : (Content → Content → Bool) → List Content → List Content

/-- What `Search` does to its collaborators, in order. -/
inductive Effect where
  | cacheGet (key : String)
  | fanOut (query : String) (page perPage : Int)
  | storeRead (provider query : String) (page perPage : Int)
  | persistSpawn (provider : String) (contents : List ProviderContent)
  | cacheSet (key : String) (value : SearchResult)
  deriving DecidableEq, Repr

/-- How a call of `Search` ends: a run-time panic, or a return of a result
pointer and an error. -/
inductive Outcome where
  | panic
  | ret (result : SearchResult) (err : Option GoError)
  deriving DecidableEq, Repr

/-- The body of the normalization loop of `Search` for the `k`-th provider
content of the request: the score is computed first (one clock reading), then
the identifier and the two timestamps are taken. -/
def normalize (env : Env) (provider : String) (k : Nat) (pc : ProviderContent) : Content :=
  { ID := env.NewUUID k
    ExternalID := pc.ExternalID
    Provider := provider
    Title := pc.Title
    Kind := pc.Kind
    PublishedAt := pc.PublishedAt
    Views := pc.Views
    Likes := pc.Likes
    Reactions := pc.Reactions
    ReadingTime := pc.ReadingTime
    Score := CalculateScore pc (env.clock (3 * k))
    Tags := pc.Tags
    RawData := pc.RawData
    CreatedAt := env.clock (3 * k + 1)
    UpdatedAt := env.clock (3 * k + 2) }

/-- The loop `for _, pc := range result.Contents` of `Search`, `k` provider
contents having been normalized before. -/
def normalizeAll (env : Env) (provider : String) : Nat → List ProviderContent → List Content
  | _, [] => []
  | k, pc :: rest => normalize env provider k pc :: normalizeAll env provider (k + 1) rest

/-- The loop `for _, result := range providerResults` of `Search`: the records
appended to `allContents` and the effects, `k` provider contents having been
normalized before. -/
def gather (env : Env) (params : SearchParams) :
    Nat → List ProviderResult → List Content × List Effect
  | _, [] => ([], [])
  | k, result :: rest =>
    match result.Error with
    | some _ =>
      let read := Effect.storeRead result.Provider params.Query params.Page params.PerPage
      match env.SearchByProvider result.Provider params.Query params.Page params.PerPage with
      | Except.error _ =>
        let r := gather env params k rest
        (r.1, read :: r.2)
      | Except.ok dbContents =>
        let r := gather env params k rest
        (dbContents ++ r.1, read :: r.2)
    | none =>
      let r := gather env params (k + result.Contents.length) rest
      (normalizeAll env result.Provider k result.Contents ++ r.1,
        Effect.persistSpawn result.Provider result.Contents :: r.2)

/-- The comparator passed to `sort.Slice` in `applyFiltersAndSorting`, on the
elements at the two indices. -/
def less (sortBy : String) (a b : Content) : Bool :=
  if sortBy = "popularity" then
    if a.Kind = "video" ∧ b.Kind = "video" then decide (a.Views > b.Views)
    else if a.Kind = "text" ∧ b.Kind = "text" then decide (a.Reactions > b.Reactions)
    else decide (a.Score > b.Score)
  else decide (a.Score > b.Score)

/-- Go `Service.applyFiltersAndSorting`. A lookup in `typeMap` / `tagMap` is
membership in the list the map was filled from. -/
def applyFiltersAndSorting (env : Env) (contents : List Content) (params : SearchParams) :
    List Content :=
  let contents1 :=
    if params.ContentTypes.length > 0 then
      contents.filter (fun content => params.ContentTypes.contains content.Kind)
    else contents
  let contents2 :=
    if params.Tags.length > 0 then
      contents1.filter (fun content =>
        content.Tags.any (fun contentTag =>
          (params.Tags.map env.ToLower).contains (env.ToLower contentTag)))
    else contents1
  env.sortSlice (less params.SortBy) contents2

/-- A Go slice expression `s[low:high]` with `high ≤ len(s)`: `none` is the
run-time panic "slice bounds out of range". -/
def goSlice {α : Type} (s : List α) (low high : Int) : Option (List α) :=
  if 0 ≤ low ∧ low ≤ high ∧ high ≤ s.length then
    some ((s.drop low.toNat).take (high - low).toNat)
  else none

/-- Go `Service.paginateResults`: `none` is a run-time panic. -/
def paginateResults (contents : List Content) (page perPage : Int) :
    Option (List Content × Int) :=
  let total : Int := contents.length
  if total = 0 then some ([], 0)
  else
    let start := wrap64 (wrap64 (page - 1) * perPage)
    let end1 := wrap64 (start + perPage)
    if start ≥ contents.length then some ([], total)
    else
      let end2 := if end1 > contents.length then (contents.length : Int) else end1
      (goSlice contents start end2).map (fun items => (items, total))

/-- Go `Service.Search`: the effects performed, in order, and how the call ends
(log lines are not represented).
`totalPages++` is not wrapped: `totalPages` is at most `total`, the length of a
slice, so the increment stays in range. -/
def Search (env : Env) (params : SearchParams) : List Effect × Outcome :=
  let cacheKey := generateCacheKey params
  let lookup : List Effect × Option SearchResult :=
    if env.hasCache then
      match env.cacheGet cacheKey with
      | Except.ok cachedResult => ([Effect.cacheGet cacheKey], some cachedResult)
      | Except.error _ => ([Effect.cacheGet cacheKey], none)
    else ([], none)
  match lookup with
  | (effects, some cachedResult) => (effects, Outcome.ret cachedResult none)
  | (effects0, none) =>
    let providerResults :=
      env.SearchAllWithPagination params.Query params.Page params.PerPage
    let gathered := gather env params 0 providerResults
    let effects1 :=
      effects0 ++ [Effect.fanOut params.Query params.Page params.PerPage] ++ gathered.2
    let filteredContents := applyFiltersAndSorting env gathered.1 params
    match paginateResults filteredContents params.Page params.PerPage with
    | none => (effects1, Outcome.panic)
    | some (paginatedContents, total) =>
      if params.PerPage = 0 then (effects1, Outcome.panic)
      else
        let totalPages0 := Int.tdiv total params.PerPage
        let totalPages :=
          if Int.tmod total params.PerPage ≠ 0 then totalPages0 + 1 else totalPages0
        let result : SearchResult :=
          { Items := paginatedContents
            Total := total
            Page := params.Page
            PerPage := params.PerPage
            TotalPages := totalPages }
        if env.hasCache then
          (effects1 ++ [Effect.cacheSet cacheKey result], Outcome.ret result none)
        else (effects1, Outcome.ret result none)

/-- A text record used to build sample inputs. -/
def sampleContent (i : Nat) : Content :=
  { ID := i, ExternalID := toString i, Provider := "p", Title := "t", Kind := "text",
    PublishedAt := 0, RawData := [], Views := 0, Likes := 0, Reactions := i, ReadingTime := 1,
    Tags := [], Score := i, CreatedAt := 0, UpdatedAt := 0 }

/-- The sample records `0, 1, ..., n - 1`. -/
def sampleContents (n : Nat) : List Content := (List.range n).map sampleContent

/-- A video record as a provider returns it. -/
def sampleVideo (i : Nat) : ProviderContent :=
  { ExternalID := toString i, Title := "video", Kind := "video", PublishedAt := 0,
    Views := 100000, Likes := 5000, ReadingTime := 0, Reactions := 0,
    Tags := ["go"], RawData := [] }

/-- Insertion of a record before the first record it must precede. -/
def insertBy (lt : Content → Content → Bool) (a : Content) : List Content → List Content
  | [] => [a]
  | b :: bs => if lt b a then b :: insertBy lt a bs else a :: b :: bs

/-- An insertion sort, one admissible behaviour of `sort.Slice`. -/
def insertionSortBy (lt : Content → Content → Bool) : List Content → List Content
  | [] => []
  | a :: as => insertBy lt a (insertionSortBy lt as)

/-- A request environment: the cache misses, provider `A` answers with three
videos, provider `B` fails and the store holds two records for it. -/
def sampleEnv : Env :=
  { hasCache := true
    cacheGet := fun _ => Except.error (GoError.other "redis: nil")
    cacheSet := fun _ _ => none
    SearchAllWithPagination := fun _ _ _ =>
      [ { Provider := "A", Contents := [sampleVideo 1, sampleVideo 2, sampleVideo 3],
          Error := none, Duration := 5 },
        { Provider := "B", Contents := [], Error := some (GoError.other "timeout"),
          Duration := 7 } ]
    SearchByProvider := fun provider _ _ _ =>
      if provider = "B" then Except.ok (sampleContents 2)
      else Except.error (GoError.other "no rows")
    clock := fun n => 86400000000000 + n
    NewUUID := fun n => n
    ToLower := String.toLower
    sortSlice := insertionSortBy }

/-- A request for the first page of 20 results, without filters. -/
def sampleParams : SearchParams :=
  { Query := "go", Tags := [], ContentTypes := [], SortBy := "relevant_score",
    Page := 1, PerPage := 20 }

/-- A request that differs from `collidingParams2` in its tag list only. -/
def collidingParams1 : SearchParams :=
  { Query := "go", Tags := ["a b"], ContentTypes := [], SortBy := "popularity",
    Page := 1, PerPage := 20 }

/-- A request with two tags whose rendering is that of the single tag `a b`. -/
def collidingParams2 : SearchParams :=
  { Query := "go", Tags := ["a", "b"], ContentTypes := [], SortBy := "popularity",
    Page := 1, PerPage := 20 }

/-! ## The scoring formula in the words of the specification -/

/-- The number of nanoseconds in a day. -/
def nanosPerDay : Int := 86400000000000

/-- Freshness score of the specification, on the exact age in nanoseconds:
`5.0` up to 7 days, `3.0` up to 30 days, `1.0` up to 90 days, `0.0` beyond. -/
def specFreshnessScore (age : Int) : F64 :=
  if age ≤ 7 * nanosPerDay then 5
  else if age ≤ 30 * nanosPerDay then 3
  else if age ≤ 90 * nanosPerDay then 1
  else 0

/-- The video of `TestScorer_FreshnessDecay`: 1000 views, 100 likes. -/
def decayTestVideo (publishedAt : Time) : ProviderContent :=
  { ExternalID := "", Title := "", Kind := "video", PublishedAt := publishedAt,
    Views := 1000, Likes := 100, ReadingTime := 0, Reactions := 0, Tags := [], RawData := [] }

/-- A video whose views and likes are both `9 * 10^18`, within the range of a Go `int`. -/
def hugeVideo (publishedAt : Time) : ProviderContent :=
  { ExternalID := "", Title := "", Kind := "video", PublishedAt := publishedAt,
    Views := 9000000000000000000, Likes := 9000000000000000000,
    ReadingTime := 0, Reactions := 0, Tags := [], RawData := [] }

/-! ## The contract of `sort.Slice` and the filter stage -/

/-- The first two blocks of `applyFiltersAndSorting`: the records that reach
`sort.Slice`. -/
def applyFilters (env : Env) (contents : List Content) (params : SearchParams) : List Content :=
  let contents1 :=
    if params.ContentTypes.length > 0 then
      contents.filter (fun content => params.ContentTypes.contains content.Kind)
    else contents
  if params.Tags.length > 0 then
    contents1.filter (fun content =>
      content.Tags.any (fun contentTag =>
        (params.Tags.map env.ToLower).contains (env.ToLower contentTag)))
  else contents1

/-- The requirement of Go's `sort` package on a comparator, over the records of
one slice: no record is less than itself, `less` is transitive and "not less"
is transitive. -/
def StrictWeakOn (lt : Content → Content → Bool) (xs : List Content) : Prop :=
  (∀ a ∈ xs, lt a a = false) ∧
  (∀ a ∈ xs, ∀ b ∈ xs, ∀ c ∈ xs, lt a b = true → lt b c = true → lt a c = true) ∧
  (∀ a ∈ xs, ∀ b ∈ xs, ∀ c ∈ xs, lt a b = false → lt b c = false → lt a c = false)

/-- First half of the documented behaviour of `sort.Slice`: it only reorders the
slice. -/
def SortPermutes (sort : (Content → Content → Bool) → List Content → List Content) : Prop :=
  ∀ lt xs, (sort lt xs).Perm xs

/-- Second half of the documented behaviour of `sort.Slice`: when the comparator
meets the requirement on the slice, no record of the result is less than a
record before it. -/
def SortSorts (sort : (Content → Content → Bool) → List Content → List Content) : Prop :=
  ∀ lt xs, StrictWeakOn lt xs → (sort lt xs).Pairwise (fun a b => lt b a = false)

/-- The inner loop of `insertionSortLessFunc` of the Go standard library
(`for j := i; j > a && less(j, j-1); j--` with a swap of `j` and `j-1` as body), on
the sorted prefix held in reverse order: the new record moves left past every
record it is less than. -/
def sinkLeft (lt : Content → Content → Bool) (x : Content) : List Content → List Content
  | [] => [x]
  | p :: ps => if lt x p then p :: sinkLeft lt x ps else x :: p :: ps

/-- The routine `insertionSortLessFunc` of the Go standard library, which is what
`sort.Slice` runs on a slice of at most 12 records. -/
def goInsertionSort (lt : Content → Content → Bool) (xs : List Content) : List Content :=
  (xs.foldl (fun revPrefix x => sinkLeft lt x revPrefix) []).reverse

/-- The sample environment with Go's insertion sort as `sort.Slice`. -/
def goSortEnv : Env := { sampleEnv with sortSlice := goInsertionSort }

/-- A video with few views and a high score. -/
def mixedVideoA : Content :=
  { ID := 1, ExternalID := "a", Provider := "p", Title := "a", Kind := "video",
    PublishedAt := 0, RawData := [], Views := 10, Likes := 0, Reactions := 0, ReadingTime := 0,
    Tags := ["go"], Score := 5, CreatedAt := 0, UpdatedAt := 0 }

/-- A text record with a middle score. -/
def mixedText : Content :=
  { ID := 2, ExternalID := "t", Provider := "p", Title := "t", Kind := "text",
    PublishedAt := 0, RawData := [], Views := 0, Likes := 0, Reactions := 7, ReadingTime := 3,
    Tags := ["Go"], Score := 3, CreatedAt := 0, UpdatedAt := 0 }

/-- A video with more views than `mixedVideoA` and a low score. -/
def mixedVideoB : Content :=
  { ID := 3, ExternalID := "b", Provider := "p", Title := "b", Kind := "video",
    PublishedAt := 0, RawData := [], Views := 20, Likes := 0, Reactions := 0, ReadingTime := 0,
    Tags := [], Score := 1, CreatedAt := 0, UpdatedAt := 0 }

/-- A request sorted by popularity, without filters. -/
def popularityParams : SearchParams :=
  { Query := "go", Tags := [], ContentTypes := [], SortBy := "popularity",
    Page := 1, PerPage := 20 }

/-- Two videos and a text record on which the popularity comparator is cyclic:
`mixedVideoA` before `mixedText` and `mixedText` before `mixedVideoB` by score,
`mixedVideoB` before `mixedVideoA` by views. -/
def mixedContents : List Content := [mixedVideoA, mixedText, mixedVideoB]

/-- A request that keeps videos only. -/
def videoOnlyParams : SearchParams := { popularityParams with ContentTypes := ["video"] }

/-- A request that keeps the records tagged `GO`, in any letter case. -/
def tagOnlyParams : SearchParams := { sampleParams with Tags := ["GO"] }

/-- A request with a kind filter and a tag filter. -/
def bothFiltersParams : SearchParams :=
  { sampleParams with ContentTypes := ["video"], Tags := ["GO"] }

/-! ## The working set and the pipeline of `Search` -/

/-- The slice `allContents` that `Search` has built when the provider loop ends. -/
def workingSet (env : Env) (params : SearchParams) : List Content :=
  (gather env params 0
    (env.SearchAllWithPagination params.Query params.Page params.PerPage)).1

/-- A record normalized from one provider content: every provider field is copied,
the provider name is stamped and the score is the scorer's at some clock
reading (identifier and timestamps are fresh). -/
def NormalizedFrom (provider : String) (pc : ProviderContent) (c : Content) : Prop :=
  c.ExternalID = pc.ExternalID ∧ c.Provider = provider ∧ c.Title = pc.Title ∧
  c.Kind = pc.Kind ∧ c.PublishedAt = pc.PublishedAt ∧ c.Views = pc.Views ∧
  c.Likes = pc.Likes ∧ c.Reactions = pc.Reactions ∧ c.ReadingTime = pc.ReadingTime ∧
  c.Tags = pc.Tags ∧ c.RawData = pc.RawData ∧ ∃ t : Time, c.Score = CalculateScore pc t

/-- What one provider outcome contributes to the working set, in the words of
the specification: a successful outcome its contents normalized one-to-one in
source order, a failed outcome the records of the store's `SearchByProvider`
for that provider, and nothing when that read fails too. -/
def Contributes (env : Env) (params : SearchParams) (result : ProviderResult)
    (part : List Content) : Prop :=
  match result.Error with
  | none => List.Forall₂ (NormalizedFrom result.Provider) result.Contents part
  | some _ =>
    match env.SearchByProvider result.Provider params.Query params.Page params.PerPage with
    | Except.ok dbContents => part = dbContents
    | Except.error _ => part = []

/-- The part of `Search` after the cache lookup (fan-out, provider loop, filter,
sort, paginate, cache store): the effects it performs and how it ends. -/
def pipeline (env : Env) (params : SearchParams) : List Effect × Outcome :=
  let providerResults :=
    env.SearchAllWithPagination params.Query params.Page params.PerPage
  let gathered := gather env params 0 providerResults
  let effects1 := [Effect.fanOut params.Query params.Page params.PerPage] ++ gathered.2
  let filteredContents := applyFiltersAndSorting env gathered.1 params
  match paginateResults filteredContents params.Page params.PerPage with
  | none => (effects1, Outcome.panic)
  | some (paginatedContents, total) =>
    if params.PerPage = 0 then (effects1, Outcome.panic)
    else
      let totalPages0 := Int.tdiv total params.PerPage
      let totalPages :=
        if Int.tmod total params.PerPage ≠ 0 then totalPages0 + 1 else totalPages0
      let result : SearchResult :=
        { Items := paginatedContents
          Total := total
          Page := params.Page
          PerPage := params.PerPage
          TotalPages := totalPages }
      if env.hasCache then
        (effects1 ++ [Effect.cacheSet (generateCacheKey params) result], Outcome.ret result none)
      else (effects1, Outcome.ret result none)

/-- A cached result, as a cache hit returns it. -/
def cachedSample : SearchResult :=
  { Items := sampleContents 2, Total := 2, Page := 1, PerPage := 20, TotalPages := 1 }

/-- The sample environment with a cache that holds `cachedSample` under every key. -/
def cacheHitEnv : Env := { goSortEnv with cacheGet := fun _ => Except.ok cachedSample }

/-- A request for a page so far out that `(page - 1) * perPage` leaves the range
of a Go `int`. -/
def overflowParams : SearchParams :=
  { sampleParams with Page := 92233720368547760, PerPage := 100 }

/-- A request environment in which the cache misses, both providers fail and the
store has nothing for them. -/
def allDownEnv : Env :=
  { goSortEnv with
    SearchAllWithPagination := fun _ _ _ =>
      [ { Provider := "A", Contents := [], Error := some GoError.ErrCircuitOpen, Duration := 1 },
        { Provider := "B", Contents := [], Error := some (GoError.other "timeout"),
          Duration := 7 } ]
    SearchByProvider := fun provider _ _ _ =>
      if provider = "B" then Except.ok [] else Except.error (GoError.other "no rows") }

/-! ## Request defaults (`domain/response.go`) and the search handler (`app/search/handler.go`) -/

/-- The `domain.SearchRequest` struct. -/
structure SearchRequest where
  Query : String
  Tags : List String
  ContentTypes : List String
  OrderBy : String
  Page : Int
  PerPage : Int
  deriving DecidableEq, Repr

/-- Go `SearchRequest.SetDefaults`: the four `if` statements in source order. -/
def SearchRequest.SetDefaults (r : SearchRequest) : SearchRequest :=
  let r1 := if r.Page ≤ 0 then { r with Page := 1 } else r
  let r2 := if r1.PerPage ≤ 0 then { r1 with PerPage := 20 } else r1
  let r3 := if r2.PerPage > 100 then { r2 with PerPage := 100 } else r2
  if r3.OrderBy = "" then { r3 with OrderBy := "relevant_score" } else r3

/-- The `apierror.APIError` struct. -/
structure APIError where
  Code : String
  Message : String
  StatusCode : Int
  deriving DecidableEq, Repr

/-- The constant `apierror.CodeValidationError`. -/
def CodeValidationError : String := "VALIDATION_ERROR"

/-- The constant `apierror.CodeInternalError`. -/
def CodeInternalError : String := "INTERNAL_ERROR"

/-- The variable `apierror.ErrInvalidSortField`. -/
def ErrInvalidSortField : APIError :=
  { Code := CodeValidationError
    Message := "Invalid sort field. Must be 'popularity' or 'relevance'"
    StatusCode := 400 }

/-- The variable `apierror.ErrInternalServer`. -/
def ErrInternalServer : APIError :=
  { Code := CodeInternalError, Message := "Internal server error", StatusCode := 500 }

/-- Go `apierror.NewValidationError`. -/
def NewValidationError (message : String) : APIError :=
  { Code := CodeValidationError, Message := message, StatusCode := 400 }

/-- How `Handler.Search` ends: a run-time panic inside the service, an error
response, or the success response with the items and the pagination data. -/
inductive HandlerOutcome where
  | panic
  | errorResponse (apiErr : APIError)
  | success (items : List Content) (page perPage : Int) (total : Int) (totalPages : Int)
  deriving DecidableEq, Repr

/-- Go `Handler.Search` on the outcome of `c.BodyParser(&req)` (the decoded request
or the parser's error message): the effects of the service on its collaborators
(none when the service is not invoked) and how the handler ends. -/
def Handler.Search (env : Env) (body : Except String SearchRequest) :
    List Effect × HandlerOutcome :=
  match body with
  | Except.error msg => ([], HandlerOutcome.errorResponse (NewValidationError msg))
  | Except.ok req0 =>
    let req := req0.SetDefaults
    if req.OrderBy ≠ "popularity" ∧ req.OrderBy ≠ "relevant_score" then
      ([], HandlerOutcome.errorResponse ErrInvalidSortField)
    else
      let params : SearchParams :=
        { Query := req.Query
          Tags := req.Tags
          ContentTypes := req.ContentTypes
          SortBy := req.OrderBy
          Page := req.Page
          PerPage := req.PerPage }
      match SearchEngine.Search env params with
      | (effects, Outcome.panic) => (effects, HandlerOutcome.panic)
      | (effects, Outcome.ret _ (some _)) =>
        (effects, HandlerOutcome.errorResponse ErrInternalServer)
      | (effects, Outcome.ret result none) =>
        (effects, HandlerOutcome.success result.Items result.Page result.PerPage
          result.Total result.TotalPages)

/-- The search parameters `Handler.Search` builds from a request that passed the
sort-field check. -/
def paramsOf (req : SearchRequest) : SearchParams :=
  { Query := req.SetDefaults.Query
    Tags := req.SetDefaults.Tags
    ContentTypes := req.SetDefaults.ContentTypes
    SortBy := req.SetDefaults.OrderBy
    Page := req.SetDefaults.Page
    PerPage := req.SetDefaults.PerPage }

/-- A request body with the given sort field. -/
def requestSortedBy (orderBy : String) : SearchRequest :=
  { Query := "go", Tags := [], ContentTypes := [], OrderBy := orderBy, Page := 0, PerPage := 0 }

/-! ## Content type mapping (`infra/provider/http_provider.go`) -/

/-- Go `mapContentType`, with `strings.ToLower` of the standard library as the
parameter `toLower`. -/
def mapContentType (toLower : String → String) (t : String) : String :=
  let t := toLower t
  if t = "video" then "video"
  else if t = "article" ∨ t = "text" then "text"
  else t

/-- What `mapContentType` needs of `strings.ToLower`: lower-casing a lower-cased
string changes nothing, and the empty string and `text` are in lower case. -/
def LowerCasing (toLower : String → String) : Prop :=
  (∀ s, toLower (toLower s) = toLower s) ∧ toLower "" = "" ∧ toLower "text" = "text"

/-- The restriction of `strings.ToLower` to ASCII letters. -/
def asciiLower (s : String) : String := String.mk (s.toList.map Char.toLower)

/-! ## Histories of sequential `Execute` calls -/

/-- What one `Execute` call did with its operation: the breaker rejected the call
without invoking it, or the operation was invoked and failed, or it was invoked
and succeeded. -/
inductive CallResult where
  | rejected
  | failed
  | succeeded
  deriving DecidableEq, Repr

/-- The `CallResult` of `Execute cb c.tCheck c.tRecord c.fn w`: the answer of
`canExecute` and, when it is `true`, whether `fn` returned an error. -/
def callResult {W : Type} (cb : CircuitBreaker) (c : Call W) (w : W) : CallResult :=
  if (canExecute cb c.tCheck).2 then
    if (c.fn w).1.isSome then CallResult.failed else CallResult.succeeded
  else CallResult.rejected

/-- The results of the sequential `Execute` calls of `ExecuteAll`, in call order. -/
def ExecuteResults {W : Type} (cb : CircuitBreaker) (w : W) : List (Call W) → List CallResult
  | [] => []
  | c :: cs =>
    let r := Execute cb c.tCheck c.tRecord c.fn w
    callResult cb c w :: ExecuteResults r.1 r.2.2 cs

/-- The number of failed operations at the end of a history: the length of its
longest suffix made of failures only. -/
def trailingFailures (rs : List CallResult) : Nat :=
  (rs.reverse.takeWhile (fun r => decide (r = CallResult.failed))).length

/-! ## Health checks (`infra/provider/circuit_breaker.go`, `infra/provider/interface.go`) -/

/-- Go `CircuitBreakerProvider`: the wrapped adapter, given by its name and by its
`Search` and `HealthCheck` methods acting on a world `W` (the network, the
upstream service), and the breaker. The breaker is a private field created by
`NewCircuitBreakerProvider`: the wrapped adapter holds no reference to it. -/
structure CircuitBreakerProvider (W : Type) where
  providerName : String
  providerSearch : String → W → (List ProviderContent × Option GoError) × W
  providerHealthCheck : W → Option GoError × W
  breaker : CircuitBreaker

/-- Go `CircuitBreakerProvider.Name`. -/
def CircuitBreakerProvider.Name {W : Type} (p : CircuitBreakerProvider W) : String :=
  p.providerName

/-- Go `CircuitBreakerProvider.CircuitState`. -/
def CircuitBreakerProvider.CircuitState {W : Type} (p : CircuitBreakerProvider W) :
    CircuitState :=
  p.breaker.State

/-- Go `CircuitBreakerProvider.HealthCheck`: the provider afterwards, the returned
error and the world afterwards (untouched exactly when the adapter's health
check was not called). -/
def CircuitBreakerProvider.HealthCheck {W : Type} (p : CircuitBreakerProvider W) (w : W) :
    CircuitBreakerProvider W × Option GoError × W :=
  if p.breaker.State = StateOpen then
    (p, some GoError.ErrCircuitOpen, w)
  else
    let r := p.providerHealthCheck w
    (p, r.1, r.2)

/-- Go map assignment `m[k] = v` on a `map[string]error` kept as an association
list with one entry per key. -/
def mapSet (m : List (String × Option GoError)) (k : String) (v : Option GoError) :
    List (String × Option GoError) :=
  if m.any (fun e => e.1 = k) then m.map (fun e => if e.1 = k then (k, v) else e)
  else m ++ [(k, v)]

/-- The loop of Go `Manager.HealthCheckAll` over the remaining providers, with the
map filled so far: the providers afterwards, the map and the world. -/
def healthCheckLoop {W : Type} :
    List (CircuitBreakerProvider W) → List (String × Option GoError) → W →
      List (CircuitBreakerProvider W) × List (String × Option GoError) × W
  | [], m, w => ([], m, w)
  | p :: ps, m, w =>
    let r := p.HealthCheck w
    let rest := healthCheckLoop ps (mapSet m r.1.Name r.2.1) r.2.2
    (r.1 :: rest.1, rest.2.1, rest.2.2)

/-- Go `Manager.HealthCheckAll` on the registered providers (each one a
`CircuitBreakerProvider`, as `main.go` registers them). -/
def Manager.HealthCheckAll {W : Type} (providers : List (CircuitBreakerProvider W)) (w : W) :
    List (CircuitBreakerProvider W) × List (String × Option GoError) × W :=
  healthCheckLoop providers [] w

/-- A health check on a counter world that succeeds. -/
def healthyCheck : Nat → Option GoError × Nat :=
  fun k => (none, k + 1)

/-- A provider wrapping an adapter on a counter world, with the given breaker. -/
def sampleProvider (name : String) (breaker : CircuitBreaker) : CircuitBreakerProvider Nat :=
  { providerName := name
    providerSearch := fun _ k => (([], none), k + 1)
    providerHealthCheck := healthyCheck
    breaker := breaker }

/-! ## Provider fan-out (`infra/provider/interface.go`) -/

/-- Go `PaginationInfo`. -/
structure PaginationInfo where
  CurrentPage : Int
  PerPage : Int
  Total : Int
  TotalPages : Int
  deriving DecidableEq, Repr

/-- Go `SearchResponse`. -/
structure SearchResponse where
  Contents : List ProviderContent
  Pagination : PaginationInfo
  deriving DecidableEq, Repr

/-- A registered `ContentProvider` as `SearchAllWithPagination` uses it, given by
the answers of its methods during one fan-out: `Name`, `Search` for a query,
and `SearchWithPagination` for a query, page and page size when the dynamic type
implements `PaginatableProvider` (`none` when the type assertion fails). A
paginated search answers with an error or with a response, never with both
nil. Every call returns: it runs under `providerCtx`, which times out. -/
structure ContentProvider where
  Name : String
  Search : String → List ProviderContent × Option GoError
  SearchWithPagination : Option (String → Int → Int → Except GoError SearchResponse)

/-- The body of the goroutine `SearchAllWithPagination` starts for one provider:
the `ProviderResult` it sends, with `start` the clock reading at its first line
and `finish` the reading of `time.Since(start)`. -/
def fanOutUnit (provider : ContentProvider) (query : String) (page perPage : Int)
    (start finish : Time) : ProviderResult :=
  let r : List ProviderContent × Option GoError :=
    match provider.SearchWithPagination with
    | some paginate =>
      match paginate query page perPage with
      | Except.error paginationErr => ([], some paginationErr)
      | Except.ok resp => (resp.Contents, none)
    | none => provider.Search query
  { Provider := provider.Name
    Contents := r.1
    Error := r.2
    Duration := timeSince finish start }

/-- The state of one `SearchAllWithPagination` call: the results of the goroutines
that have not sent yet, the buffered channel `results` (oldest first), the slice
`collected`, and whether the caller's context has been cancelled. The loop
counter `i` is the length of `collected`. -/
structure FanOut where
  pending : List ProviderResult
  results : List ProviderResult
  collected : List ProviderResult
  cancelled : Bool
  deriving DecidableEq, Repr

/-- The steps the scheduler can interleave: the `j`-th goroutine still running
sends its result (the channel has room for every provider, so a send never
blocks), the collector takes the `results` branch of its `select`, the caller's
context is cancelled, the collector takes the `ctx.Done()` branch. -/
inductive Event where
  | send (j : Nat)
  | receive
  | cancel
  | ctxDone
  deriving DecidableEq, Repr

/-- Removal of the element at an index: the element and the rest, in order. -/
def takeOut {α : Type} : Nat → List α → Option (α × List α)
  | _, [] => none
  | 0, x :: xs => some (x, xs)
  | j + 1, x :: xs =>
    match takeOut j xs with
    | some (y, ys) => some (y, x :: ys)
    | none => none

/-- One step of the fan-out that does not end the collector loop. A step that is
not enabled (a send by a goroutine that does not exist, a receive from the
empty channel) leaves the state as it is. -/
def FanOut.step (s : FanOut) : Event → FanOut
  | Event.send j =>
    match takeOut j s.pending with
    | some (r, rest) => { s with pending := rest, results := s.results ++ [r] }
    | none => s
  | Event.receive =>
    match s.results with
    | r :: rest => { s with results := rest, collected := s.collected ++ [r] }
    | [] => s
  | Event.cancel => { s with cancelled := true }
  | Event.ctxDone => s

/-- The collector loop of `SearchAllWithPagination` for `n` providers under a
schedule: `some collected` when the loop has returned, `none` when it is still
blocked in its `select` at the end of the schedule. The `ctx.Done()` branch can
be taken only once the context is cancelled; when both branches are ready either
may be taken. -/
def collectLoop (n : Nat) : FanOut → List Event → Option (List ProviderResult)
  | s, [] => if n ≤ s.collected.length then some s.collected else none
  | s, ev :: rest =>
    if n ≤ s.collected.length then some s.collected
    else if ev = Event.ctxDone ∧ s.cancelled = true then some s.collected
    else collectLoop n (s.step ev) rest

/-- The state the fan-out is in after the events of a schedule. -/
def FanOut.after (s : FanOut) (events : List Event) : FanOut :=
  events.foldl FanOut.step s

/-- The results the goroutines of one fan-out produce, in registration order. -/
def fanOutUnits (providers : List (ContentProvider × Time × Time))
    (query : String) (page perPage : Int) : List ProviderResult :=
  providers.map (fun p => fanOutUnit p.1 query page perPage p.2.1 p.2.2)

/-- The initial state of one fan-out. -/
def fanOutStart (providers : List (ContentProvider × Time × Time))
    (query : String) (page perPage : Int) : FanOut :=
  { pending := fanOutUnits providers query page perPage
    results := []
    collected := []
    cancelled := false }

/-- Go `Manager.SearchAllWithPagination` on the registered providers, each with
the two clock readings of its goroutine, under a schedule of the goroutines,
the collector and the caller. -/
def Manager.SearchAllWithPagination (providers : List (ContentProvider × Time × Time))
    (query : String) (page perPage : Int) (schedule : List Event) :
    Option (List ProviderResult) :=
  collectLoop providers.length (fanOutStart providers query page perPage) schedule

/-- A schedule under which every goroutine sends and the collector then receives
every result. -/
def flushSchedule (n : Nat) : List Event :=
  List.replicate n (Event.send 0) ++ List.replicate n Event.receive

/-- The page slice of a list in the words of the specification: the elements at
indices `[(page-1)*per_page, min(page*per_page, len xs))`. -/
def specPageSlice (xs : List ProviderContent) (page perPage : Int) : List ProviderContent :=
  (xs.drop ((page - 1) * perPage).toNat).take
    (min (page * perPage).toNat xs.length - ((page - 1) * perPage).toNat)

/-- An adapter without paginated search whose plain search returns three videos. -/
def plainProvider : ContentProvider :=
  { Name := "plain"
    Search := fun _ => ([sampleVideo 0, sampleVideo 1, sampleVideo 2], none)
    SearchWithPagination := none }

/-- An adapter whose plain search fails. -/
def downProvider : ContentProvider :=
  { Name := "down"
    Search := fun _ => ([], some (GoError.other "upstream unavailable"))
    SearchWithPagination := none }

/-- Two registered adapters with the clock readings of their goroutines. -/
def twoProviders : List (ContentProvider × Time × Time) :=
  [(plainProvider, 0, 5), (downProvider, 0, 7)]

/-! ## Validation (`domain/validator.go`, `domain/content.go`)

`validate.Struct` belongs to the library `go-playground/validator`; the tags of
`ProviderContent` are given the meaning the library documents for them. -/

/-- Go `ContentType.IsValid`. -/
def ContentType.IsValid (c : String) : Bool :=
  c = "video" || c = "text"

/-- The value of a validated field of `ProviderContent`: a string, an `int` or a
`time.Time`. -/
inductive FieldValue where
  | str (s : String)
  | int (n : Int)
  | time (t : Time)
  deriving DecidableEq, Repr

/-- The validation tags that occur in `ProviderContent`, with their parameters. -/
inductive ValidationTag where
  | required
  | min (p : Int)
  | max (p : Int)
  | gte (p : Int)
  | oneof (vals : List String)
  deriving DecidableEq, Repr

/-- The tag name, as `FieldError.Tag()` reports it. -/
def ValidationTag.name : ValidationTag → String
  | ValidationTag.required => "required"
  | ValidationTag.min _ => "min"
  | ValidationTag.max _ => "max"
  | ValidationTag.gte _ => "gte"
  | ValidationTag.oneof _ => "oneof"

/-- The tag parameter, as `FieldError.Param()` reports it: the text after `=`. -/
def ValidationTag.param : ValidationTag → String
  | ValidationTag.required => ""
  | ValidationTag.min p => toString p
  | ValidationTag.max p => toString p
  | ValidationTag.gte p => toString p
  | ValidationTag.oneof vals => " ".intercalate vals

/-- Whether a value passes a tag, as the library documents it: `required` asks for
a value other than the zero value of the type; `min`, `max` and `gte` compare a
number with the parameter and a string by its number of characters; `oneof`
asks for one of the listed values. A tag that does not apply to the kind of the
value (no such pair occurs in `ProviderContent`) fails. -/
def tagHolds : ValidationTag → FieldValue → Bool
  | ValidationTag.required, FieldValue.str s => decide (s ≠ "")
  | ValidationTag.required, FieldValue.int n => decide (n ≠ 0)
  | ValidationTag.required, FieldValue.time t => decide (t ≠ zeroTime)
  | ValidationTag.min p, FieldValue.str s => decide (p ≤ (s.length : Int))
  | ValidationTag.min p, FieldValue.int n => decide (p ≤ n)
  | ValidationTag.max p, FieldValue.str s => decide ((s.length : Int) ≤ p)
  | ValidationTag.max p, FieldValue.int n => decide (n ≤ p)
  | ValidationTag.gte p, FieldValue.str s => decide (p ≤ (s.length : Int))
  | ValidationTag.gte p, FieldValue.int n => decide (p ≤ n)
  | ValidationTag.oneof vals, FieldValue.str s => vals.contains s
  | ValidationTag.oneof vals, FieldValue.int n => vals.contains (toString n)
  | _, _ => false

/-- One entry of `validator.ValidationErrors`: the field and the tag that failed. -/
structure FieldError where
  Field : String
  Tag : String
  Param : String
  deriving DecidableEq, Repr

/-- The validated fields of `ProviderContent` in declaration order, each with the
tags of its `validate` struct tag in order and its value (`Tags` and `RawData`
carry no tag). -/
def providerContentRules (c : ProviderContent) :
    List (String × List ValidationTag × FieldValue) :=
  [ ("ExternalID", [ValidationTag.required, ValidationTag.min 1], FieldValue.str c.ExternalID),
    ("Title", [ValidationTag.required, ValidationTag.min 1, ValidationTag.max 500],
      FieldValue.str c.Title),
    ("Type", [ValidationTag.required, ValidationTag.oneof ["video", "text"]],
      FieldValue.str c.Kind),
    ("PublishedAt", [ValidationTag.required], FieldValue.time c.PublishedAt),
    ("Views", [ValidationTag.gte 0], FieldValue.int c.Views),
    ("Likes", [ValidationTag.gte 0], FieldValue.int c.Likes),
    ("ReadingTime", [ValidationTag.gte 0], FieldValue.int c.ReadingTime),
    ("Reactions", [ValidationTag.gte 0], FieldValue.int c.Reactions) ]

/-- The errors `validate.Struct(content)` reports: for each field in order, the
first of its tags that fails, if any. -/
def validateStruct (c : ProviderContent) : List FieldError :=
  (providerContentRules c).filterMap (fun rule =>
    (rule.2.1.find? (fun t => !tagHolds t rule.2.2)).map (fun t =>
      { Field := rule.1, Tag := t.name, Param := t.param }))

/-- The text `formatValidationErrors` appends for one error. -/
def formatValidationError (e : FieldError) : String :=
  e.Field ++ " failed " ++ e.Tag ++ " validation" ++
    (if e.Tag = "required" then " (field is required)"
     else if e.Tag = "min" then " (minimum value: " ++ e.Param ++ ")"
     else if e.Tag = "max" then " (maximum value: " ++ e.Param ++ ")"
     else if e.Tag = "gte" then " (must be >= " ++ e.Param ++ ")"
     else if e.Tag = "oneof" then " (must be one of: " ++ e.Param ++ ")"
     else "")

/-- Go `formatValidationErrors`. -/
def formatValidationErrors (errs : List FieldError) : String :=
  "; ".intercalate (errs.map formatValidationError)

/-- Go `ValidateProviderContent`: `none` for `nil`. -/
def ValidateProviderContent (content : ProviderContent) : Option GoError :=
  match validateStruct content with
  | [] => none
  | errs => some (GoError.other ("validation failed: " ++ formatValidationErrors errs))

/-- The valid record of `TestValidateProviderContent`, published at `t`. -/
def validTestContent (t : Time) : ProviderContent :=
  { ExternalID := "test-123", Title := "Test Title", Kind := "video", PublishedAt := t,
    Views := 100, Likes := 50, ReadingTime := 0, Reactions := 0, Tags := [], RawData := [] }

/-! ## HTTP adapters (`infra/provider/http_provider.go`) -/

/-- Go `JSONMetrics`. -/
structure JSONMetrics where
  Views : Int
  Likes : Int
  Duration : String
  deriving DecidableEq, Repr

/-- Go `JSONContent` (`Kind` is the field `Type`). -/
structure JSONContent where
  ID : String
  Title : String
  Kind : String
  Metrics : JSONMetrics
  PublishedAt : String
  Tags : List String
  deriving DecidableEq, Repr

/-- The library routines `parseJSONResponse` calls: `strings.ToLower`,
`time.Parse(time.RFC3339, ·)` (`none` for an error), the reading of `time.Now()`
while the `i`-th item is processed, and `json.Marshal` of an item. -/
structure ParseEnv where
  toLower : String → String
  parseTime : String → Option Time
  clock : Nat → Time
  marshal : JSONContent → List Nat

/-- The body of the loop of `parseJSONResponse` for the `i`-th item. -/
def parseJSONItem (env : ParseEnv) (i : Nat) (item : JSONContent) : ProviderContent :=
  let publishedAt :=
    match env.parseTime item.PublishedAt with
    | some t => t
    | none => env.clock i
  { ExternalID := item.ID
    Title := item.Title
    Kind := mapContentType env.toLower item.Kind
    PublishedAt := publishedAt
    Views := item.Metrics.Views
    Likes := item.Metrics.Likes
    ReadingTime := 0
    Reactions := 0
    Tags := item.Tags
    RawData := env.marshal item }

/-- Go `HTTPProvider.parseJSONResponse` on what `json.Unmarshal` makes of the
body: the decoded `response.Contents`, or the message of its error. -/
def parseJSONResponse (env : ParseEnv) (response : Except String (List JSONContent)) :
    List ProviderContent × Option GoError :=
  match response with
  | Except.error msg => ([], some (GoError.other ("failed to parse JSON response: " ++ msg)))
  | Except.ok items => (items.enum.map (fun e => parseJSONItem env e.1 e.2), none)

/-- The answer to the GET request of `HTTPProvider.Search`: the status code and
the body as `json.Unmarshal` decodes it. -/
structure HTTPResponse where
  StatusCode : Int
  Body : Except String (List JSONContent)

/-- Go `HTTPProvider.Search` for the format `json`, on the outcome of
`p.client.Get` (the response, or the message of the transport error). -/
def HTTPProvider.Search (name : String) (env : ParseEnv) (get : Except String HTTPResponse) :
    List ProviderContent × Option GoError :=
  match get with
  | Except.error msg =>
    ([], some (GoError.other ("failed to fetch from provider " ++ name ++ ": " ++ msg)))
  | Except.ok resp =>
    if resp.StatusCode ≠ 200 then
      ([], some (GoError.other
        ("provider " ++ name ++ " returned status " ++ toString resp.StatusCode)))
    else parseJSONResponse env resp.Body

/-- Go `CircuitBreakerProvider.Search`. The closure handed to `Execute` acts on
the world together with the captured variables `contents` and `searchErr`. -/
def CircuitBreakerProvider.Search {W : Type} (p : CircuitBreakerProvider W)
    (tCheck tRecord : Time) (query : String) (w : W) :
    CircuitBreakerProvider W × (List ProviderContent × Option GoError) × W :=
  let fn : (List ProviderContent × Option GoError) × W →
      Option GoError × ((List ProviderContent × Option GoError) × W) :=
    fun cw =>
      let r := p.providerSearch query cw.2
      (r.1.2, (r.1, r.2))
  let r := Execute p.breaker tCheck tRecord fn (([], none), w)
  let p1 := { p with breaker := r.1 }
  if r.2.1 = some GoError.ErrCircuitOpen then
    (p1, ([], r.2.1), r.2.2.2)
  else
    (p1, r.2.2.1, r.2.2.2)

/-- A `CircuitBreakerProvider` as the fan-out sees it during one request, from the
world `w` and with the clock readings of its breaker: it has the methods of
`ContentProvider` and no `SearchWithPagination`. -/
def CircuitBreakerProvider.asContentProvider {W : Type} (p : CircuitBreakerProvider W)
    (tCheck tRecord : Time) (w : W) : ContentProvider :=
  { Name := p.Name
    Search := fun query => (p.Search tCheck tRecord query w).2.1
    SearchWithPagination := none }

/-- Library routines for the evaluation of `parseJSONResponse`: ASCII
lower-casing, a date parser that knows one date, and an empty rendering. -/
def sampleParseEnv : ParseEnv :=
  { toLower := asciiLower
    parseTime := fun s => if s = "1970-01-01T00:00:00Z" then some 0 else none
    clock := fun i => 86400000000000 + i
    marshal := fun _ => [] }

/-- An upstream answer with one item: a podcast with `-5` views. -/
def podcastResponse : HTTPResponse :=
  { StatusCode := 200
    Body := Except.ok
      [ { ID := "p-1", Title := "Episode 1", Kind := "Podcast",
          Metrics := { Views := -5, Likes := 2, Duration := "" },
          PublishedAt := "1970-01-01T00:00:00Z", Tags := ["go"] } ] }

/-- The provider content `parseJSONResponse` makes of the item of
`podcastResponse`. -/
def podcastContent : ProviderContent :=
  { ExternalID := "p-1", Title := "Episode 1", Kind := "podcast", PublishedAt := 0,
    Views := -5, Likes := 2, ReadingTime := 0, Reactions := 0, Tags := ["go"], RawData := [] }

/-- An HTTP adapter named `feed` behind a fresh breaker (threshold 5, cooldown
30 s), whose upstream answers with `podcastResponse`. -/
def feedProvider : CircuitBreakerProvider Nat :=
  { providerName := "feed"
    providerSearch := fun _ k =>
      (HTTPProvider.Search "feed" sampleParseEnv (Except.ok podcastResponse), k + 1)
    providerHealthCheck := healthyCheck
    breaker := NewCircuitBreaker 5 30000000000 }

/-- A request environment whose manager has the one registered provider
`feedProvider`; the cache misses. -/
def feedEnv : Env :=
  { goSortEnv with
    SearchAllWithPagination := fun query page perPage =>
      (Manager.SearchAllWithPagination [(feedProvider.asContentProvider 10 20 0, 10, 25)]
        query page perPage (flushSchedule 1)).getD [] }

/-! ## Theorems: circuit breaker -/

theorem wrap64_of_inInt64 (x : Int) (h : inInt64 x) : wrap64 x = x := by
  unfold inInt64 minInt64 maxInt64 at h
  unfold wrap64
  omega

/-- In a closed breaker that can exist, the failure count is below the threshold
or zero; in a half-open one the trial success counter is zero. -/
theorem Reachable.inv {cb : CircuitBreaker} (h : Reachable cb) :
    inInt64 cb.threshold ∧
    (cb.state = StateClosed → cb.failureCount = 0 ∨ (0 ≤ cb.failureCount ∧ cb.failureCount < cb.threshold)) ∧
    (cb.state = StateHalfOpen → cb.successCount = 0) := by
  induction h with
  | new threshold timeout h => simp [NewCircuitBreaker, h]
  | check cb now _ ih =>
    obtain ⟨h1, h2, h3⟩ := ih
    unfold canExecute
    cases hs : cb.state <;> simp_all
    split <;> simp_all
  | failure cb now _ ih =>
    obtain ⟨h1, h2, h3⟩ := ih
    have hth : (recordFailure cb now).threshold = cb.threshold := by
      unfold recordFailure; dsimp only; split <;> [rfl; (split <;> rfl)]
    refine ⟨hth ▸ h1, ?_, ?_⟩
    · intro hc
      unfold recordFailure at hc ⊢
      dsimp only at hc ⊢
      split at hc
      · simp at hc
      · split at hc
        · simp at hc
        · rename_i hne hlt
          simp only [hne, hlt, if_false]
          dsimp only at hc hlt ⊢
          have h2' := h2 hc
          unfold inInt64 minInt64 maxInt64 at h1
          unfold wrap64 at hlt ⊢
          omega
    · intro hc
      unfold recordFailure at hc
      dsimp only at hc
      split at hc
      · simp at hc
      · split at hc
        · simp at hc
        · rename_i hne _
          exact absurd hc hne
  | success cb _ ih =>
    obtain ⟨h1, h2, h3⟩ := ih
    unfold recordSuccess
    cases hs : cb.state
    · simp [h1]
    · simp [h1, hs]
    · have h0 := h3 hs
      have hw : wrap64 1 = 1 := by decide
      simp [h1, h0, hw]

theorem ExecuteAll_failures_from_closed {W : Type} (calls : List (Call W)) :
    ∀ (cb : CircuitBreaker) (w : W),
      cb.state = StateClosed → 0 ≤ cb.failureCount → cb.threshold ≤ maxInt64 →
      cb.failureCount + calls.length ≤ cb.threshold →
      (∀ c ∈ calls, ∀ w', (c.fn w').1 ≠ none) →
      (ExecuteAll cb w calls).1.failureCount = cb.failureCount + calls.length ∧
      (cb.failureCount + calls.length < cb.threshold →
        (ExecuteAll cb w calls).1.state = StateClosed) ∧
      (1 ≤ calls.length → cb.failureCount + calls.length = cb.threshold →
        (ExecuteAll cb w calls).1.state = StateOpen) := by
  induction calls with
  | nil =>
    intro cb w hs _ _ _ _
    simp [ExecuteAll, hs]
  | cons c cs ih =>
    intro cb w hs h0 hmax hlen hfail
    have hc := hfail c (List.mem_cons_self c cs) w
    have hcs : ∀ d ∈ cs, ∀ w', (d.fn w').1 ≠ none :=
      fun d hd => hfail d (List.mem_cons_of_mem c hd)
    simp only [List.length_cons, Nat.cast_add, Nat.cast_one] at hlen ⊢
    have hw : wrap64 (cb.failureCount + 1) = cb.failureCount + 1 := by
      apply wrap64_of_inInt64
      unfold inInt64 minInt64
      unfold maxInt64 at hmax ⊢
      omega
    obtain ⟨e, he⟩ : ∃ e, (c.fn w).1 = some e := Option.ne_none_iff_exists'.mp hc
    have hex : Execute cb c.tCheck c.tRecord c.fn w =
        (recordFailure cb c.tRecord, some e, (c.fn w).2) := by
      unfold Execute canExecute
      rw [hs]
      dsimp only
      rcases hfn : c.fn w with ⟨r, w1⟩
      rw [hfn] at he
      dsimp only at he
      subst he
      rfl
    simp only [ExecuteAll, hex]
    by_cases hlt : cb.failureCount + 1 < cb.threshold
    · have hrf : recordFailure cb c.tRecord =
          { cb with failureCount := cb.failureCount + 1, lastFailureTime := c.tRecord } := by
        unfold recordFailure
        simp [hs, hw, not_le.mpr hlt]
      have := ih (recordFailure cb c.tRecord) (c.fn w).2 (by rw [hrf]; exact hs) (by rw [hrf]; dsimp only; omega)
        (by rw [hrf]; exact hmax) (by rw [hrf]; dsimp only; omega) hcs
      rw [hrf] at this ⊢
      dsimp only at this ⊢
      refine ⟨by omega, fun h => this.2.1 (by omega), fun _ h => this.2.2 ?_ (by omega)⟩
      omega
    · have hrf : recordFailure cb c.tRecord =
          { cb with state := StateOpen, failureCount := cb.failureCount + 1,
                    lastFailureTime := c.tRecord } := by
        unfold recordFailure
        simp [hs, hw, not_lt.mp hlt]
      have hnil : cs = [] := by
        apply List.eq_nil_of_length_eq_zero
        omega
      subst hnil
      rw [hrf]
      simp only [ExecuteAll, List.length_nil, Nat.cast_zero]
      refine ⟨by omega, fun h => absurd h (by omega), fun _ _ => trivial⟩

/-- C1: a breaker created with threshold `n >= 1` (any cooldown) is still closed after
`k < n` consecutive `Execute` calls whose operation fails, and is open after the
`n`-th such call; the failure count equals the number of failures so far. -/
theorem c1_open_after_threshold_failures {W : Type} (n : Int) (cooldown : Duration)
    (calls : List (Call W)) (w : W)
    (hn : 1 ≤ n) (hmax : n ≤ maxInt64)
    (hfail : ∀ c ∈ calls, ∀ w', (c.fn w').1 ≠ none) :
    ((calls.length : Int) < n →
      (ExecuteAll (NewCircuitBreaker n cooldown) w calls).1.state = StateClosed ∧
      (ExecuteAll (NewCircuitBreaker n cooldown) w calls).1.failureCount = calls.length) ∧
    ((calls.length : Int) = n →
      (ExecuteAll (NewCircuitBreaker n cooldown) w calls).1.state = StateOpen) := by
  constructor
  · intro hk
    have h := ExecuteAll_failures_from_closed calls (NewCircuitBreaker n cooldown) w rfl
      (le_refl _) hmax (by simp only [NewCircuitBreaker]; omega) hfail
    simp only [NewCircuitBreaker, zero_add] at h ⊢
    exact ⟨h.2.1 hk, h.1⟩
  · intro hk
    have h := ExecuteAll_failures_from_closed calls (NewCircuitBreaker n cooldown) w rfl
      (le_refl _) hmax (by simp only [NewCircuitBreaker]; omega) hfail
    simp only [NewCircuitBreaker, zero_add] at h ⊢
    exact h.2.2 (by omega) hk

theorem c1_open_after_threshold_failures_witness :
    (((([⟨10, 11, failingOp⟩, ⟨20, 21, failingOp⟩, ⟨30, 31, failingOp⟩] : List (Call Nat)).length : Int)
        < 3 →
      (ExecuteAll (NewCircuitBreaker 3 30000000000) 0
        [⟨10, 11, failingOp⟩, ⟨20, 21, failingOp⟩, ⟨30, 31, failingOp⟩]).1.state = StateClosed ∧
      (ExecuteAll (NewCircuitBreaker 3 30000000000) 0
        [⟨10, 11, failingOp⟩, ⟨20, 21, failingOp⟩, ⟨30, 31, failingOp⟩]).1.failureCount =
        ([⟨10, 11, failingOp⟩, ⟨20, 21, failingOp⟩, ⟨30, 31, failingOp⟩] : List (Call Nat)).length) ∧
    ((([⟨10, 11, failingOp⟩, ⟨20, 21, failingOp⟩, ⟨30, 31, failingOp⟩] : List (Call Nat)).length : Int)
        = 3 →
      (ExecuteAll (NewCircuitBreaker 3 30000000000) 0
        [⟨10, 11, failingOp⟩, ⟨20, 21, failingOp⟩, ⟨30, 31, failingOp⟩]).1.state = StateOpen)) :=
  c1_open_after_threshold_failures 3 30000000000
    [⟨10, 11, failingOp⟩, ⟨20, 21, failingOp⟩, ⟨30, 31, failingOp⟩] 0
    (by decide) (by decide) (by
      intro c hc w'
      simp only [List.mem_cons, List.mem_singleton, List.not_mem_nil, or_false] at hc
      rcases hc with h | h | h <;> subst h <;> simp [failingOp])

/-- C2: an open breaker whose time since the last failure is not greater than the
cooldown rejects the call with `ErrCircuitOpen`, does not call the operation (the
world is untouched) and is left unchanged in every field. -/
theorem c2_open_rejects_within_cooldown {W : Type} (cb : CircuitBreaker)
    (tCheck tRecord : Time) (fn : W → Option GoError × W) (w : W)
    (hopen : cb.state = StateOpen)
    (hcool : timeSince tCheck cb.lastFailureTime ≤ cb.timeout) :
    Execute cb tCheck tRecord fn w = (cb, some GoError.ErrCircuitOpen, w) := by
  unfold Execute canExecute
  rw [hopen]
  simp [not_lt.mpr hcool]

theorem c2_open_rejects_within_cooldown_witness :
    Execute openBreaker 1500 1501 succeedingOp 7
      = (openBreaker, some GoError.ErrCircuitOpen, 7) :=
  c2_open_rejects_within_cooldown openBreaker 1500 1501 succeedingOp 7 rfl (by decide)

/-- C3: an open breaker whose time since the last failure is greater than the
cooldown calls the operation (the returned error and the world are the
operation's own, so the call is not rejected), and when the operation succeeds
the breaker ends closed with failure count 0. -/
theorem c3_open_probe_after_cooldown {W : Type} (cb : CircuitBreaker)
    (tCheck tRecord : Time) (fn : W → Option GoError × W) (w : W)
    (hopen : cb.state = StateOpen)
    (hcool : timeSince tCheck cb.lastFailureTime > cb.timeout) :
    (Execute cb tCheck tRecord fn w).2 = fn w ∧
    ((fn w).1 = none →
      (Execute cb tCheck tRecord fn w).1.state = StateClosed ∧
      (Execute cb tCheck tRecord fn w).1.failureCount = 0) := by
  have hw : wrap64 1 = 1 := by decide
  unfold Execute canExecute
  rw [hopen]
  simp only [hcool, if_true]
  rcases hfn : fn w with ⟨r, w1⟩
  cases r with
  | none => simp [recordSuccess, hw]
  | some e => simp

theorem c3_open_probe_after_cooldown_witness :
    (Execute openBreaker 1501 1502 succeedingOp 7).2 = succeedingOp 7 ∧
    ((succeedingOp 7).1 = none →
      (Execute openBreaker 1501 1502 succeedingOp 7).1.state = StateClosed ∧
      (Execute openBreaker 1501 1502 succeedingOp 7).1.failureCount = 0) :=
  c3_open_probe_after_cooldown openBreaker 1501 1502 succeedingOp 7 rfl (by decide)

/-- C4: in a half-open breaker, or an open one that `Execute` moves to half-open
because the cooldown has elapsed, a failing operation leaves the breaker open
with the last-failure time set to the time of that failure, whatever the
threshold and failure count; a later call within the cooldown of that new
time is refused. -/
theorem c4_half_open_failure_reopens {W : Type} (cb : CircuitBreaker)
    (tCheck tRecord : Time) (fn : W → Option GoError × W) (w : W)
    (hstate : cb.state = StateHalfOpen ∨
      (cb.state = StateOpen ∧ timeSince tCheck cb.lastFailureTime > cb.timeout))
    (hfail : (fn w).1 ≠ none) :
    (Execute cb tCheck tRecord fn w).1.state = StateOpen ∧
    (Execute cb tCheck tRecord fn w).1.lastFailureTime = tRecord ∧
    (Execute cb tCheck tRecord fn w).1.timeout = cb.timeout ∧
    (∀ t : Time, timeSince t tRecord ≤ cb.timeout →
      (canExecute (Execute cb tCheck tRecord fn w).1 t).2 = false) := by
  obtain ⟨e, he⟩ : ∃ e, (fn w).1 = some e := Option.ne_none_iff_exists'.mp hfail
  rcases hfn : fn w with ⟨r, w1⟩
  rw [hfn] at he
  dsimp only at he
  subst he
  have key : (Execute cb tCheck tRecord fn w).1 =
      { cb with state := StateOpen, failureCount := wrap64 (cb.failureCount + 1),
                successCount := (canExecute cb tCheck).1.successCount,
                lastFailureTime := tRecord } := by
    unfold Execute canExecute
    rcases hstate with h | ⟨h, hc⟩
    · rw [h]; simp [hfn, recordFailure, h]
    · rw [h]; simp [hc, hfn, recordFailure]
  rw [key]
  refine ⟨rfl, rfl, rfl, ?_⟩
  intro t ht
  simp [canExecute, not_lt.mpr ht]

theorem c4_half_open_failure_reopens_witness :
    (Execute halfOpenBreaker 1501 1502 failingOp 7).1.state = StateOpen ∧
    (Execute halfOpenBreaker 1501 1502 failingOp 7).1.lastFailureTime = 1502 ∧
    (Execute halfOpenBreaker 1501 1502 failingOp 7).1.timeout = halfOpenBreaker.timeout ∧
    (∀ t : Time, timeSince t 1502 ≤ halfOpenBreaker.timeout →
      (canExecute (Execute halfOpenBreaker 1501 1502 failingOp 7).1 t).2 = false) :=
  c4_half_open_failure_reopens halfOpenBreaker 1501 1502 failingOp 7 (Or.inl rfl)
    (by simp [failingOp])

/-- C5: in a closed breaker (any breaker that can exist), `Execute` always calls
the operation and returns the operation's own error; a successful call sets the
failure count to 0, and a failing call increases the failure count by exactly
one and sets the last-failure time to the time of the call. -/
theorem c5_closed_execute {W : Type} (cb : CircuitBreaker)
    (tCheck tRecord : Time) (fn : W → Option GoError × W) (w : W)
    (hreach : Reachable cb) (hclosed : cb.state = StateClosed) :
    (Execute cb tCheck tRecord fn w).2 = fn w ∧
    ((fn w).1 = none → (Execute cb tCheck tRecord fn w).1.failureCount = 0) ∧
    ((fn w).1 ≠ none →
      (Execute cb tCheck tRecord fn w).1.failureCount = cb.failureCount + 1 ∧
      (Execute cb tCheck tRecord fn w).1.lastFailureTime = tRecord) := by
  obtain ⟨hth, hfc, _⟩ := hreach.inv
  have hfc' := hfc hclosed
  have hw : wrap64 (cb.failureCount + 1) = cb.failureCount + 1 := by
    apply wrap64_of_inInt64
    unfold inInt64 minInt64 maxInt64 at hth ⊢
    omega
  unfold Execute canExecute
  rw [hclosed]
  dsimp only
  rcases hfn : fn w with ⟨r, w1⟩
  cases r with
  | none => simp [recordSuccess, hclosed]
  | some e =>
    simp only [recordFailure, hclosed, hw]
    refine ⟨trivial, fun h => absurd h (by simp), fun _ => ?_⟩
    split
    · rename_i h; exact absurd h (by decide)
    · split <;> exact ⟨rfl, rfl⟩

theorem c5_closed_execute_witness :
    (Execute (NewCircuitBreaker 3 500) 10 11 failingOp 7).2 = failingOp 7 ∧
    ((failingOp 7).1 = none →
      (Execute (NewCircuitBreaker 3 500) 10 11 failingOp 7).1.failureCount = 0) ∧
    ((failingOp 7).1 ≠ none →
      (Execute (NewCircuitBreaker 3 500) 10 11 failingOp 7).1.failureCount =
        (NewCircuitBreaker 3 500).failureCount + 1 ∧
      (Execute (NewCircuitBreaker 3 500) 10 11 failingOp 7).1.lastFailureTime = 11) :=
  c5_closed_execute (NewCircuitBreaker 3 500) 10 11 failingOp 7
    (Reachable.new 3 500 (by decide)) rfl

/-! ## Theorems: pagination -/

/-- Without integer overflow (`page * perPage` in range), `paginateResults` returns
the records at indices `[(page-1)*perPage, min(page*perPage, len))` and the
length of its input. -/
theorem paginateResults_in_range (xs : List Content) (page perPage : Int)
    (hpage : 1 ≤ page) (hper : 1 ≤ perPage) (hmax : page * perPage ≤ maxInt64) :
    paginateResults xs page perPage =
      some ((xs.drop ((page - 1) * perPage).toNat).take perPage.toNat, (xs.length : Int)) := by
  have hprod : 0 ≤ (page - 1) * perPage := mul_nonneg (by omega) (by omega)
  have hple : page ≤ page * perPage := le_mul_of_one_le_right (by omega) hper
  have hexp : page * perPage = (page - 1) * perPage + perPage := by ring
  have hw1 : wrap64 (page - 1) = page - 1 := by
    apply wrap64_of_inInt64
    unfold inInt64 minInt64
    unfold maxInt64 at hmax ⊢
    omega
  have hw2 : wrap64 ((page - 1) * perPage) = (page - 1) * perPage := by
    apply wrap64_of_inInt64
    unfold inInt64 minInt64
    unfold maxInt64 at hmax ⊢
    omega
  have hw3 : wrap64 ((page - 1) * perPage + perPage) = (page - 1) * perPage + perPage := by
    apply wrap64_of_inInt64
    unfold inInt64 minInt64
    unfold maxInt64 at hmax ⊢
    omega
  unfold paginateResults
  simp only [hw1, hw2, hw3]
  generalize hs : (page - 1) * perPage = start at *
  obtain ⟨s, rfl⟩ := Int.eq_ofNat_of_zero_le hprod
  obtain ⟨p, rfl⟩ := Int.eq_ofNat_of_zero_le (show (0 : Int) ≤ perPage by omega)
  simp only [Int.toNat_ofNat]
  by_cases h0 : (xs.length : Int) = 0
  · have : xs = [] := List.eq_nil_of_length_eq_zero (by omega)
    subst this
    simp
  · rw [if_neg h0]
    by_cases h1 : (s : Int) ≥ xs.length
    · rw [if_pos h1]
      have : xs.drop s = [] := List.drop_eq_nil_of_le (by omega)
      simp [this]
    · rw [if_neg h1]
      unfold goSlice
      by_cases h2 : (s : Int) + p > xs.length
      · simp only [h2, if_true]
        rw [if_pos (by omega)]
        simp only [Option.map_some', Int.toNat_ofNat]
        have e1 : ((xs.length : Int) - s).toNat = xs.length - s := by omega
        have e2 : List.take (xs.length - s) (List.drop s xs) = List.take p (List.drop s xs) := by
          rw [List.take_of_length_le (by simp), List.take_of_length_le (by simp; omega)]
        rw [e1, e2]
      · simp only [h2, if_false]
        rw [if_pos (by omega)]
        simp only [Option.map_some', Int.toNat_ofNat]
        have e1 : ((s : Int) + p - s).toNat = p := by omega
        rw [e1]

/-- C7 (failing inputs): with one record, page `2^58 + 1` and page size 64 the
product `(page-1)*perPage` is `2^64`, which wraps to 0, so the whole list is
returned although the start index is far beyond it; with page
`92233720368547760` and page size 100 the start index wraps to a negative
number and the slice expression panics. -/
theorem c7_paginate_overflow :
    paginateResults (sampleContents 1) 288230376151711745 64 = some (sampleContents 1, 1) ∧
    sampleContents 1 ≠ [] ∧
    ((288230376151711745 : Int) - 1) * 64 ≥ ((sampleContents 1).length : Int) ∧
    paginateResults (sampleContents 1) 92233720368547760 100 = none := by
  refine ⟨?_, ?_, ?_, ?_⟩
  · decide!
  · decide!
  · decide!
  · decide!

/-- The example of the pagination clause: 45 records with page size 20. -/
theorem paginateResults_example_45 :
    paginateResults (sampleContents 45) 1 20 = some ((sampleContents 45).take 20, 45) ∧
    paginateResults (sampleContents 45) 3 20 =
      some (((sampleContents 45).drop 40).take 5, 45) ∧
    paginateResults (sampleContents 45) 4 20 = some ([], 45) := by
  have h1 := paginateResults_in_range (sampleContents 45) 1 20 (by decide) (by decide) (by decide)
  have h3 := paginateResults_in_range (sampleContents 45) 3 20 (by decide) (by decide) (by decide)
  have h4 := paginateResults_in_range (sampleContents 45) 4 20 (by decide) (by decide) (by decide)
  have hl : (sampleContents 45).length = 45 := by simp [sampleContents]
  refine ⟨?_, ?_, ?_⟩
  · rw [h1, hl]; rfl
  · rw [h3, hl]
    have : (((3 : Int) - 1) * 20).toNat = 40 := by decide
    have e2 : List.take (Int.toNat 20) (List.drop 40 (sampleContents 45)) =
        List.take 5 (List.drop 40 (sampleContents 45)) := by
      rw [List.take_of_length_le (by simp [hl]), List.take_of_length_le (by simp [hl])]
    rw [this, e2]
    rfl
  · rw [h4, hl]
    have : (((4 : Int) - 1) * 20).toNat = 60 := by decide
    rw [this, List.drop_eq_nil_of_le (by simp [hl])]
    rfl

/-! ## Theorems: total pages -/

theorem totalPages_eq_ceil (t p : Int) (ht : 0 ≤ t) (hp : 1 ≤ p) :
    (if Int.tmod t p ≠ 0 then Int.tdiv t p + 1 else Int.tdiv t p) = ⌈(t : ℚ) / (p : ℚ)⌉ := by
  have hp0 : (0 : Int) ≤ p := by omega
  rw [Int.tdiv_eq_ediv ht hp0, Int.tmod_eq_emod ht hp0]
  have hdm : p * (t / p) + t % p = t := Int.ediv_add_emod t p
  have hr0 : 0 ≤ t % p := Int.emod_nonneg t (by omega)
  have hr1 : t % p < p := Int.emod_lt_of_pos t (by omega)
  have hpq : (0 : ℚ) < (p : ℚ) := by exact_mod_cast (show (0 : Int) < p by omega)
  symm
  rw [Int.ceil_eq_iff]
  by_cases hr : t % p = 0
  · rw [if_neg (by simpa using hr)]
    have ht' : t = p * (t / p) := by omega
    constructor
    · rw [lt_div_iff₀ hpq]
      have : (t / p - 1) * p < t := by nlinarith
      exact_mod_cast this
    · rw [div_le_iff₀ hpq]
      have : t ≤ (t / p) * p := by nlinarith
      exact_mod_cast this
  · rw [if_pos hr]
    have hrpos : 0 < t % p := by omega
    constructor
    · rw [lt_div_iff₀ hpq]
      have : (t / p + 1 - 1) * p < t := by nlinarith
      exact_mod_cast this
    · rw [div_le_iff₀ hpq]
      have : t ≤ (t / p + 1) * p := by nlinarith
      exact_mod_cast this

theorem paginateResults_total (xs : List Content) (page perPage : Int)
    (items : List Content) (total : Int)
    (h : paginateResults xs page perPage = some (items, total)) : total = xs.length := by
  unfold paginateResults at h
  dsimp only at h
  split at h
  · rename_i h0
    simp only [Option.some.injEq, Prod.mk.injEq] at h
    omega
  · split at h
    · simp only [Option.some.injEq, Prod.mk.injEq] at h
      exact h.2.symm
    · simp only [Option.map_eq_some'] at h
      obtain ⟨a, _, ha⟩ := h
      simp only [Prod.mk.injEq] at ha
      exact ha.2.symm

/-- The shape of `Search` when the cache is absent or `Get` returns an error. -/
theorem Search_miss_outcome (env : Env) (params : SearchParams)
    (hmiss : env.hasCache = false ∨
      ∃ e, env.cacheGet (generateCacheKey params) = Except.error e) :
    (Search env params).2 =
      match paginateResults
          (applyFiltersAndSorting env
            (gather env params 0
              (env.SearchAllWithPagination params.Query params.Page params.PerPage)).1 params)
          params.Page params.PerPage with
      | none => Outcome.panic
      | some (paginatedContents, total) =>
        if params.PerPage = 0 then Outcome.panic
        else
          Outcome.ret
            { Items := paginatedContents
              Total := total
              Page := params.Page
              PerPage := params.PerPage
              TotalPages :=
                if Int.tmod total params.PerPage ≠ 0 then Int.tdiv total params.PerPage + 1
                else Int.tdiv total params.PerPage } none := by
  unfold Search
  dsimp only
  rcases hmiss with h | ⟨e, h⟩
  · rw [h]
    simp only [Bool.false_eq_true, if_false]
    split
    · rfl
    · split <;> rfl
  · rw [h]
    cases hc : env.hasCache
    · simp only [Bool.false_eq_true, if_false]
      split
      · rfl
      · split <;> rfl
    · simp only [if_true]
      split
      · rfl
      · split <;> rfl

/-- C6: for every search with `page >= 1` and `per_page >= 1` that misses the cache,
every returned `SearchResult` has `total_pages = ceil(total / per_page)`, and
`total_pages = 0` when `total = 0`; and `Search` does return a result (with a nil
error) whenever `page * per_page` is in the range of an `int`. -/
theorem c6_total_pages_ceil (env : Env) (params : SearchParams)
    (hpage : 1 ≤ params.Page) (hper : 1 ≤ params.PerPage)
    (hmiss : env.hasCache = false ∨
      ∃ e, env.cacheGet (generateCacheKey params) = Except.error e) :
    (∀ r err, (Search env params).2 = Outcome.ret r err →
      r.TotalPages = ⌈(r.Total : ℚ) / (r.PerPage : ℚ)⌉ ∧
      r.PerPage = params.PerPage ∧
      (r.Total = 0 → r.TotalPages = 0)) ∧
    (params.Page * params.PerPage ≤ maxInt64 →
      ∃ r, (Search env params).2 = Outcome.ret r none) := by
  have hne : params.PerPage ≠ 0 := by omega
  rw [Search_miss_outcome env params hmiss]
  constructor
  · intro r err h
    split at h
    · exact absurd h (by simp)
    · rename_i items total hp
      rw [if_neg hne] at h
      simp only [Outcome.ret.injEq] at h
      obtain ⟨hr, _⟩ := h
      have htot := paginateResults_total _ _ _ _ _ hp
      have ht0 : 0 ≤ total := by rw [htot]; exact Int.natCast_nonneg _
      subst hr
      dsimp only
      refine ⟨totalPages_eq_ceil total params.PerPage ht0 hper, rfl, ?_⟩
      intro h0
      rw [h0]
      simp
  · intro hmax
    rw [paginateResults_in_range _ _ _ hpage hper hmax]
    dsimp only
    rw [if_neg hne]
    exact ⟨_, rfl⟩

theorem c6_total_pages_ceil_witness :
    (∀ r err, (Search sampleEnv sampleParams).2 = Outcome.ret r err →
      r.TotalPages = ⌈(r.Total : ℚ) / (r.PerPage : ℚ)⌉ ∧
      r.PerPage = sampleParams.PerPage ∧
      (r.Total = 0 → r.TotalPages = 0)) ∧
    (sampleParams.Page * sampleParams.PerPage ≤ maxInt64 →
      ∃ r, (Search sampleEnv sampleParams).2 = Outcome.ret r none) :=
  c6_total_pages_ceil sampleEnv sampleParams (by decide) (by decide)
    (Or.inr ⟨GoError.other "redis: nil", rfl⟩)

/-! ## Theorems: cache key -/

/-- C8 (counterexample): the requests with tags `["a b"]` and `["a", "b"]` differ in
their tag lists yet have the same cache key. -/
theorem c8_cache_key_collision :
    generateCacheKey collidingParams1 = generateCacheKey collidingParams2 ∧
    collidingParams1.Tags ≠ collidingParams2.Tags ∧
    collidingParams1 ≠ collidingParams2 := by
  have hk : keyData collidingParams1 = keyData collidingParams2 := by decide
  refine ⟨?_, by decide, by decide⟩
  unfold generateCacheKey
  rw [hk]

/-- C8 (amended): `generateCacheKey` is a function of the six fields: requests that
agree on query, tags, content types (elements and order), sort mode, page and
page size have the same key. -/
theorem c8_cache_key_of_equal_fields (p1 p2 : SearchParams)
    (hq : p1.Query = p2.Query) (ht : p1.Tags = p2.Tags)
    (hc : p1.ContentTypes = p2.ContentTypes) (hs : p1.SortBy = p2.SortBy)
    (hp : p1.Page = p2.Page) (hpp : p1.PerPage = p2.PerPage) :
    generateCacheKey p1 = generateCacheKey p2 := by
  unfold generateCacheKey keyData
  rw [hq, ht, hc, hs, hp, hpp]

theorem c8_cache_key_of_equal_fields_witness :
    generateCacheKey collidingParams1 =
      generateCacheKey { Query := "go", Tags := ["a b"], ContentTypes := [],
                         SortBy := "popularity", Page := 1, PerPage := 20 } :=
  c8_cache_key_of_equal_fields collidingParams1 _ rfl rfl rfl rfl rfl rfl

/-! ## Theorems: binary64 rounding -/

theorem pow2_pos (e : Int) : 0 < pow2 e := by
  unfold pow2
  split
  · exact_mod_cast Nat.pos_pow_of_pos _ (by decide)
  · apply div_pos one_pos
    exact_mod_cast Nat.pos_pow_of_pos _ (by decide)

theorem roundHalfEven_nonneg (q : ℚ) (h : 0 ≤ q) : 0 ≤ roundHalfEven q := by
  have hf : 0 ≤ ⌊q⌋ := Int.floor_nonneg.mpr h
  unfold roundHalfEven
  dsimp only
  split
  · exact hf
  · split
    · omega
    · split <;> omega

theorem flPos_nonneg (q : ℚ) (h : 0 ≤ q) : 0 ≤ flPos q := by
  unfold flPos
  apply mul_nonneg
  · exact_mod_cast roundHalfEven_nonneg _ (div_nonneg h (pow2_pos _).le)
  · exact (pow2_pos _).le

theorem fl_nonneg (q : ℚ) (h : 0 ≤ q) : 0 ≤ fl q := by
  unfold fl
  split
  · exact flPos_nonneg q h
  · split
    · rename_i h1 h2
      exact absurd h (not_le.mpr h2)
    · exact le_refl _

theorem pow2_eq_zpow (e : Int) : pow2 e = (2 : ℚ) ^ e := by
  unfold pow2
  split
  · rename_i h
    obtain ⟨n, rfl⟩ := Int.eq_ofNat_of_zero_le h
    simp
  · rename_i h
    obtain ⟨n, hn⟩ := Int.eq_ofNat_of_zero_le (show 0 ≤ -e by omega)
    have he : e = -(n : Int) := by omega
    subst he
    simp

theorem log2Fuel_spec : ∀ (fuel n : Nat), n ≤ fuel → n ≠ 0 →
    2 ^ log2Fuel fuel n ≤ n ∧ n < 2 ^ (log2Fuel fuel n + 1) := by
  intro fuel
  induction fuel with
  | zero => intro n h1 h2; omega
  | succ f ih =>
    intro n h1 h2
    unfold log2Fuel
    split
    · rename_i h
      have : n = 1 := by omega
      subst this
      simp
    · rename_i h
      have := ih (n / 2) (by omega) (by omega)
      obtain ⟨a, b⟩ := this
      rw [pow_succ] at b ⊢
      rw [pow_succ]
      constructor <;> omega

theorem natLog2_spec (n : Nat) (h : n ≠ 0) :
    2 ^ natLog2 n ≤ n ∧ n < 2 ^ (natLog2 n + 1) :=
  log2Fuel_spec n n (le_refl _) h

theorem ilog2_spec (q : ℚ) (hq : 0 < q) :
    (2 : ℚ) ^ ilog2 q ≤ q ∧ q < (2 : ℚ) ^ (ilog2 q + 1) := by
  have hnum : 0 < q.num := Rat.num_pos.mpr hq
  have hden : q.den ≠ 0 := q.den_nz
  have hna : q.num.natAbs ≠ 0 := by omega
  obtain ⟨a1, a2⟩ := natLog2_spec q.num.natAbs hna
  obtain ⟨b1, b2⟩ := natLog2_spec q.den hden
  have hqe : q = (q.num.natAbs : ℚ) / (q.den : ℚ) := by
    have : ((q.num.natAbs : Int) : ℚ) = (q.num : ℚ) := by
      rw [Int.natAbs_of_nonneg hnum.le]
    rw [← Int.cast_natCast, this]
    exact (Rat.num_div_den q).symm
  have hdpos : (0 : ℚ) < (q.den : ℚ) := by exact_mod_cast Nat.pos_of_ne_zero hden
  set a := natLog2 q.num.natAbs
  set b := natLog2 q.den
  have A1 : (2 : ℚ) ^ (a : Int) ≤ (q.num.natAbs : ℚ) := by
    rw [zpow_natCast]; exact_mod_cast a1
  have A2 : (q.num.natAbs : ℚ) < (2 : ℚ) ^ ((a : Int) + 1) := by
    have : (q.num.natAbs : ℚ) < (2 : ℚ) ^ (a + 1) := by exact_mod_cast a2
    rw [show ((a : Int) + 1) = ((a + 1 : Nat) : Int) by push_cast; ring, zpow_natCast]
    exact this
  have B1 : (2 : ℚ) ^ (b : Int) ≤ (q.den : ℚ) := by
    rw [zpow_natCast]; exact_mod_cast b1
  have B2 : (q.den : ℚ) < (2 : ℚ) ^ ((b : Int) + 1) := by
    have : (q.den : ℚ) < (2 : ℚ) ^ (b + 1) := by exact_mod_cast b2
    rw [show ((b : Int) + 1) = ((b + 1 : Nat) : Int) by push_cast; ring, zpow_natCast]
    exact this
  have two_pos : ∀ k : Int, (0 : ℚ) < (2 : ℚ) ^ k := fun k => zpow_pos (by norm_num) k
  -- q < 2^(a-b+1) and 2^(a-b-1) < q
  have U : q < (2 : ℚ) ^ ((a : Int) - b + 1) := by
    rw [hqe, div_lt_iff₀ hdpos]
    calc (q.num.natAbs : ℚ) < (2 : ℚ) ^ ((a : Int) + 1) := A2
      _ = (2 : ℚ) ^ ((a : Int) - b + 1) * (2 : ℚ) ^ (b : Int) := by
          rw [← zpow_add₀ (by norm_num : (2 : ℚ) ≠ 0)]; congr 1; ring
      _ ≤ (2 : ℚ) ^ ((a : Int) - b + 1) * (q.den : ℚ) :=
          mul_le_mul_of_nonneg_left B1 (two_pos _).le
  have L : (2 : ℚ) ^ ((a : Int) - b - 1) < q := by
    rw [hqe, lt_div_iff₀ hdpos]
    calc (2 : ℚ) ^ ((a : Int) - b - 1) * (q.den : ℚ)
        < (2 : ℚ) ^ ((a : Int) - b - 1) * (2 : ℚ) ^ ((b : Int) + 1) :=
          mul_lt_mul_of_pos_left B2 (two_pos _)
      _ = (2 : ℚ) ^ (a : Int) := by
          rw [← zpow_add₀ (by norm_num : (2 : ℚ) ≠ 0)]; congr 1; ring
      _ ≤ (q.num.natAbs : ℚ) := A1
  unfold ilog2
  simp only [pow2_eq_zpow]
  split
  · rename_i h
    exact ⟨h, U⟩
  · rename_i h
    rw [not_le] at h
    refine ⟨L.le, ?_⟩
    rw [show (a : Int) - b - 1 + 1 = (a : Int) - b by ring]
    exact h

theorem roundHalfEven_bounds (q : ℚ) : ⌊q⌋ ≤ roundHalfEven q ∧ roundHalfEven q ≤ ⌊q⌋ + 1 := by
  unfold roundHalfEven
  dsimp only
  split
  · omega
  · split
    · omega
    · split <;> omega

theorem roundHalfEven_intCast (z : Int) : roundHalfEven (z : ℚ) = z := by
  unfold roundHalfEven
  simp

theorem roundHalfEven_mono {x y : ℚ} (h : x ≤ y) : roundHalfEven x ≤ roundHalfEven y := by
  have hf : ⌊x⌋ ≤ ⌊y⌋ := Int.floor_mono h
  rcases lt_or_eq_of_le hf with hlt | heq
  · have := (roundHalfEven_bounds x).2
    have := (roundHalfEven_bounds y).1
    omega
  · have hr : x - ⌊x⌋ ≤ y - ⌊y⌋ := by rw [heq]; linarith
    unfold roundHalfEven
    dsimp only
    rw [heq] at hr ⊢
    by_cases h1 : x - (⌊y⌋ : ℚ) < 1 / 2
    · rw [if_pos h1]
      split
      · exact le_refl _
      · split
        · omega
        · split <;> omega
    · rw [if_neg h1]
      have h1y : ¬ (y - (⌊y⌋ : ℚ) < 1 / 2) := by
        intro hc; exact h1 (lt_of_le_of_lt hr hc)
      rw [if_neg h1y]
      by_cases h2 : 1 / 2 < x - (⌊y⌋ : ℚ)
      · rw [if_pos h2, if_pos (lt_of_lt_of_le h2 hr)]
      · rw [if_neg h2]
        by_cases h3 : 1 / 2 < y - (⌊y⌋ : ℚ)
        · rw [if_pos h3]
          split <;> omega
        · rw [if_neg h3]

theorem zpow_two_pos (k : Int) : (0 : ℚ) < (2 : ℚ) ^ k := zpow_pos (by norm_num) k

theorem zpow_two_mono {a b : Int} (h : a ≤ b) : (2 : ℚ) ^ a ≤ (2 : ℚ) ^ b :=
  zpow_le_zpow_right₀ (by norm_num) h

theorem ilog2_mono {x y : ℚ} (hx : 0 < x) (h : x ≤ y) : ilog2 x ≤ ilog2 y := by
  have hy : 0 < y := lt_of_lt_of_le hx h
  obtain ⟨a1, _⟩ := ilog2_spec x hx
  obtain ⟨_, b2⟩ := ilog2_spec y hy
  have : (2 : ℚ) ^ ilog2 x < (2 : ℚ) ^ (ilog2 y + 1) := lt_of_le_of_lt (le_trans a1 h) b2
  have := (zpow_lt_zpow_iff_right₀ (by norm_num : (1 : ℚ) < 2)).mp this
  omega

theorem ulpExp_mono {x y : ℚ} (hx : 0 < x) (h : x ≤ y) : ulpExp x ≤ ulpExp y := by
  have := ilog2_mono hx h
  unfold ulpExp
  omega

/-- A rounded positive value does not leave the closure of its binade. -/
theorem flPos_le_top (q : ℚ) (hq : 0 < q) : flPos q ≤ (2 : ℚ) ^ (ulpExp q + 53) := by
  obtain ⟨_, h2⟩ := ilog2_spec q hq
  have hu := zpow_two_pos (ulpExp q)
  have hlt : q ≤ (2 : ℚ) ^ (ulpExp q + 53) := by
    refine le_trans h2.le (zpow_two_mono ?_)
    unfold ulpExp; omega
  have hdiv : q / (2 : ℚ) ^ (ulpExp q) ≤ (((2 : Int) ^ 53 : Int) : ℚ) := by
    rw [div_le_iff₀ hu]
    have : (((2 : Int) ^ 53 : Int) : ℚ) * (2 : ℚ) ^ (ulpExp q) = (2 : ℚ) ^ (ulpExp q + 53) := by
      rw [zpow_add₀ (by norm_num : (2 : ℚ) ≠ 0)]
      push_cast
      rw [mul_comm]
      norm_num
    rw [this]; exact hlt
  have hr := roundHalfEven_mono hdiv
  rw [roundHalfEven_intCast] at hr
  unfold flPos
  rw [pow2_eq_zpow]
  have hr' : ((roundHalfEven (q / (2 : ℚ) ^ ulpExp q) : Int) : ℚ) ≤ (((2 : Int) ^ 53 : Int) : ℚ) := by
    exact_mod_cast hr
  calc ((roundHalfEven (q / (2 : ℚ) ^ ulpExp q) : Int) : ℚ) * (2 : ℚ) ^ ulpExp q
      ≤ (((2 : Int) ^ 53 : Int) : ℚ) * (2 : ℚ) ^ ulpExp q :=
        mul_le_mul_of_nonneg_right hr' hu.le
    _ = (2 : ℚ) ^ (ulpExp q + 53) := by
        rw [zpow_add₀ (by norm_num : (2 : ℚ) ≠ 0)]
        push_cast
        rw [mul_comm]
        norm_num

/-- A rounded positive value of a normal binade stays at or above the binade's
lower end. -/
theorem flPos_ge_bottom (q : ℚ) (hq : 0 < q) (hn : -1022 ≤ ilog2 q) :
    (2 : ℚ) ^ (ulpExp q + 52) ≤ flPos q := by
  obtain ⟨h1, _⟩ := ilog2_spec q hq
  have hu := zpow_two_pos (ulpExp q)
  have he : ulpExp q + 52 = ilog2 q := by unfold ulpExp; omega
  have hdiv : (((2 : Int) ^ 52 : Int) : ℚ) ≤ q / (2 : ℚ) ^ (ulpExp q) := by
    rw [le_div_iff₀ hu]
    have : (((2 : Int) ^ 52 : Int) : ℚ) * (2 : ℚ) ^ (ulpExp q) = (2 : ℚ) ^ (ulpExp q + 52) := by
      rw [zpow_add₀ (by norm_num : (2 : ℚ) ≠ 0)]
      push_cast
      rw [mul_comm]
      norm_num
    rw [this, he]; exact h1
  have hr := roundHalfEven_mono hdiv
  rw [roundHalfEven_intCast] at hr
  unfold flPos
  rw [pow2_eq_zpow]
  have hr' : (((2 : Int) ^ 52 : Int) : ℚ) ≤ ((roundHalfEven (q / (2 : ℚ) ^ ulpExp q) : Int) : ℚ) := by
    exact_mod_cast hr
  calc (2 : ℚ) ^ (ulpExp q + 52) = (((2 : Int) ^ 52 : Int) : ℚ) * (2 : ℚ) ^ ulpExp q := by
        rw [zpow_add₀ (by norm_num : (2 : ℚ) ≠ 0)]
        push_cast
        rw [mul_comm]
        norm_num
    _ ≤ ((roundHalfEven (q / (2 : ℚ) ^ ulpExp q) : Int) : ℚ) * (2 : ℚ) ^ ulpExp q :=
        mul_le_mul_of_nonneg_right hr' hu.le

theorem flPos_mono {x y : ℚ} (hx : 0 < x) (h : x ≤ y) : flPos x ≤ flPos y := by
  have hy : 0 < y := lt_of_lt_of_le hx h
  have hu := ulpExp_mono hx h
  rcases lt_or_eq_of_le hu with hlt | heq
  · have hny : -1022 ≤ ilog2 y := by
      unfold ulpExp at hlt
      omega
    calc flPos x ≤ (2 : ℚ) ^ (ulpExp x + 53) := flPos_le_top x hx
      _ ≤ (2 : ℚ) ^ (ulpExp y + 52) := zpow_two_mono (by omega)
      _ ≤ flPos y := flPos_ge_bottom y hy hny
  · unfold flPos
    rw [heq, pow2_eq_zpow]
    have hup := zpow_two_pos (ulpExp y)
    apply mul_le_mul_of_nonneg_right _ hup.le
    have : x / (2 : ℚ) ^ ulpExp y ≤ y / (2 : ℚ) ^ ulpExp y :=
      div_le_div_of_nonneg_right h hup.le
    exact_mod_cast roundHalfEven_mono this

/-- Binary64 rounding is monotone. -/
theorem fl_mono {x y : ℚ} (h : x ≤ y) : fl x ≤ fl y := by
  unfold fl
  by_cases hx : 0 < x
  · have hy : 0 < y := lt_of_lt_of_le hx h
    rw [if_pos hx, if_pos hy]
    exact flPos_mono hx h
  · rw [if_neg hx]
    by_cases hx' : x < 0
    · rw [if_pos hx']
      have hnx : 0 ≤ flPos (-x) := flPos_nonneg _ (by linarith)
      by_cases hy : 0 < y
      · rw [if_pos hy]
        have := flPos_nonneg y hy.le
        linarith
      · rw [if_neg hy]
        by_cases hy' : y < 0
        · rw [if_pos hy']
          have := flPos_mono (show 0 < -y by linarith) (show -y ≤ -x by linarith)
          linarith
        · rw [if_neg hy']
          linarith
    · rw [if_neg hx']
      have hx0 : x = 0 := le_antisymm (not_lt.mp hx) (not_lt.mp hx')
      by_cases hy : 0 < y
      · rw [if_pos hy]
        exact flPos_nonneg y hy.le
      · rw [if_neg hy]
        have : ¬ y < 0 := by
          intro hc; rw [hx0] at h; exact absurd h (not_le.mpr hc)
        rw [if_neg this]

theorem ofInt_mono {a b : Int} (h : a ≤ b) : ofInt a ≤ ofInt b :=
  fl_mono (by exact_mod_cast h)

theorem fadd_mono {a b c d : F64} (h1 : a ≤ c) (h2 : b ≤ d) : fadd a b ≤ fadd c d :=
  fl_mono (add_le_add h1 h2)

theorem fdiv_mono_left {a b : F64} (c : F64) (hc : 0 ≤ c) (h : a ≤ b) : fdiv a c ≤ fdiv b c :=
  fl_mono (div_le_div_of_nonneg_right h hc)

/-- Go's truncating division and remainder by `time.Hour`, in terms of the
flooring ones. -/
theorem tdiv_tmod_Hour (d : Int) :
    (0 ≤ d → Int.tdiv d Hour = d / 3600000000000 ∧ Int.tmod d Hour = d % 3600000000000) ∧
    (d < 0 → Int.tdiv d Hour = -((-d) / 3600000000000) ∧
      Int.tmod d Hour = -((-d) % 3600000000000)) := by
  unfold Hour
  constructor
  · intro h
    exact ⟨Int.tdiv_eq_ediv h (by decide), Int.tmod_eq_emod h (by decide)⟩
  · intro h
    have hn : 0 ≤ -d := by omega
    have e1 : Int.tdiv d 3600000000000 = -(Int.tdiv (-d) 3600000000000) := by
      rw [Int.neg_tdiv, neg_neg]
    have e2 : Int.tmod d 3600000000000 = -(Int.tmod (-d) 3600000000000) := by
      have := Int.tdiv_add_tmod d 3600000000000
      have := Int.tdiv_add_tmod (-d) 3600000000000
      omega
    rw [e1, e2, Int.tdiv_eq_ediv hn (by decide), Int.tmod_eq_emod hn (by decide)]
    exact ⟨rfl, rfl⟩

/-- The age test of `calculateFreshnessScore`, done on the `float64` number of days,
agrees with the exact comparison of the duration with `K` hours. -/
theorem days_le_iff (K : Int) (B : ℚ) (hK : 1 ≤ K)
    (e1 : fdiv (fadd (ofInt (K - 1)) 1) 24 ≤ B)
    (e2 : fdiv (fadd (ofInt K) 0) 24 ≤ B)
    (e3 : B < fdiv (fadd (ofInt K) (fdiv (ofInt 1) 3600000000000)) 24)
    (e4 : B < fdiv (fadd (ofInt (K + 1)) 0) 24)
    (d : Int) : fdiv (Duration.Hours d) 24 ≤ B ↔ d ≤ K * 3600000000000 := by
  have f1 : fdiv (ofInt 3600000000000) 3600000000000 = 1 := by decide!
  have f0 : fdiv (ofInt 0) 3600000000000 = 0 := by decide!
  obtain ⟨hpos, hneg⟩ := tdiv_tmod_Hour d
  have c24 : (0 : ℚ) ≤ 24 := by norm_num
  have cH : (0 : ℚ) ≤ 3600000000000 := by norm_num
  constructor
  · intro h
    by_contra hc
    rw [not_le] at hc
    have hd0 : 0 ≤ d := by omega
    obtain ⟨ht, hm⟩ := hpos hd0
    have hlt : B < fdiv (Duration.Hours d) 24 := by
      unfold Duration.Hours
      dsimp only
      rw [ht, hm]
      by_cases hk : d / 3600000000000 = K
      · have hm1 : (1 : Int) ≤ d % 3600000000000 := by omega
        refine lt_of_lt_of_le e3 (fdiv_mono_left _ c24 (fadd_mono ?_ ?_))
        · rw [hk]
        · exact fdiv_mono_left _ cH (ofInt_mono hm1)
      · have hk1 : K + 1 ≤ d / 3600000000000 := by omega
        have hm0 : (0 : Int) ≤ d % 3600000000000 := by omega
        refine lt_of_lt_of_le e4 (fdiv_mono_left _ c24 (fadd_mono (ofInt_mono hk1) ?_))
        rw [← f0]
        exact fdiv_mono_left _ cH (ofInt_mono hm0)
    exact absurd h (not_le.mpr hlt)
  · intro h
    have key : (Int.tdiv d Hour ≤ K - 1 ∧ Int.tmod d Hour ≤ 3600000000000) ∨
        (Int.tdiv d Hour ≤ K ∧ Int.tmod d Hour ≤ 0) := by
      by_cases hd0 : 0 ≤ d
      · obtain ⟨ht, hm⟩ := hpos hd0
        rw [ht, hm]
        omega
      · obtain ⟨ht, hm⟩ := hneg (by omega)
        rw [ht, hm]
        omega
    unfold Duration.Hours
    dsimp only
    rcases key with ⟨k1, k2⟩ | ⟨k1, k2⟩
    · refine le_trans (fdiv_mono_left _ c24 (fadd_mono (ofInt_mono k1) ?_)) e1
      rw [← f1]
      exact fdiv_mono_left _ cH (ofInt_mono k2)
    · refine le_trans (fdiv_mono_left _ c24 (fadd_mono (ofInt_mono k1) ?_)) e2
      rw [← f0]
      exact fdiv_mono_left _ cH (ofInt_mono k2)

theorem days_le_7_iff (d : Int) :
    fdiv (Duration.Hours d) 24 ≤ 7 ↔ d ≤ 604800000000000 := by
  have := days_le_iff 168 7 (by decide) (by decide!) (by decide!) (by decide!) (by decide!) d
  simpa using this

theorem days_le_30_iff (d : Int) :
    fdiv (Duration.Hours d) 24 ≤ 30 ↔ d ≤ 2592000000000000 := by
  have := days_le_iff 720 30 (by decide) (by decide!) (by decide!) (by decide!) (by decide!) d
  simpa using this

theorem days_le_90_iff (d : Int) :
    fdiv (Duration.Hours d) 24 ≤ 90 ↔ d ≤ 7776000000000000 := by
  have := days_le_iff 2160 90 (by decide) (by decide!) (by decide!) (by decide!) (by decide!) d
  simpa using this

/-! ## Theorems: scorer -/

theorem ofInt_nonneg (n : Int) (h : 0 ≤ n) : 0 ≤ ofInt n :=
  fl_nonneg _ (by exact_mod_cast h)

theorem fadd_nonneg (a b : F64) (ha : 0 ≤ a) (hb : 0 ≤ b) : 0 ≤ fadd a b :=
  fl_nonneg _ (add_nonneg ha hb)

theorem fmul_nonneg (a b : F64) (ha : 0 ≤ a) (hb : 0 ≤ b) : 0 ≤ fmul a b :=
  fl_nonneg _ (mul_nonneg ha hb)

theorem fdiv_nonneg (a b : F64) (ha : 0 ≤ a) (hb : 0 ≤ b) : 0 ≤ fdiv a b :=
  fl_nonneg _ (div_nonneg ha hb)

theorem mathRound_nonneg (x : F64) (h : 0 ≤ x) : 0 ≤ mathRound x := by
  unfold mathRound
  rw [if_pos h]
  have : 0 ≤ ⌊x + 1 / 2⌋ := Int.floor_nonneg.mpr (by linarith)
  exact_mod_cast this

theorem roundTo2Decimals_nonneg (x : F64) (h : 0 ≤ x) : 0 ≤ roundTo2Decimals x :=
  fdiv_nonneg _ _ (mathRound_nonneg _ (fmul_nonneg _ _ h (by norm_num))) (by norm_num)

theorem calculateBaseScore_nonneg (c : ProviderContent)
    (hv : 0 ≤ c.Views) (hl : 0 ≤ c.Likes) (hr : 0 ≤ c.Reactions) (ht : 0 ≤ c.ReadingTime) :
    0 ≤ calculateBaseScore c := by
  unfold calculateBaseScore
  split
  · exact fadd_nonneg _ _ (fdiv_nonneg _ _ (ofInt_nonneg _ hv) (by norm_num))
      (fdiv_nonneg _ _ (ofInt_nonneg _ hl) (by norm_num))
  · split
    · exact fadd_nonneg _ _ (ofInt_nonneg _ ht) (fdiv_nonneg _ _ (ofInt_nonneg _ hr) (by norm_num))
    · exact le_refl _

theorem getTypeMultiplier_nonneg (t : String) : 0 ≤ getTypeMultiplier t := by
  unfold getTypeMultiplier
  split
  · norm_num
  · split <;> norm_num

theorem calculateFreshnessScore_nonneg (p now : Time) : 0 ≤ calculateFreshnessScore p now := by
  unfold calculateFreshnessScore
  dsimp only
  split
  · norm_num
  · split
    · norm_num
    · split <;> norm_num

theorem calculateEngagementScore_nonneg (c : ProviderContent)
    (hv : 0 ≤ c.Views) (hl : 0 ≤ c.Likes) (hr : 0 ≤ c.Reactions) (ht : 0 ≤ c.ReadingTime) :
    0 ≤ calculateEngagementScore c := by
  unfold calculateEngagementScore
  split
  · split
    · exact le_refl _
    · exact fmul_nonneg _ _ (fdiv_nonneg _ _ (ofInt_nonneg _ hl) (ofInt_nonneg _ hv)) (by norm_num)
  · split
    · split
      · exact le_refl _
      · exact fmul_nonneg _ _ (fdiv_nonneg _ _ (ofInt_nonneg _ hr) (ofInt_nonneg _ ht))
          (by norm_num)
    · exact le_refl _

/-- C10: for every provider content record with non-negative views, likes, reactions
and reading time, of any kind and any publish time (past or future),
`CalculateScore` is non-negative. -/
theorem c10_score_nonneg (c : ProviderContent) (now : Time)
    (hv : 0 ≤ c.Views) (hl : 0 ≤ c.Likes) (hr : 0 ≤ c.Reactions) (ht : 0 ≤ c.ReadingTime) :
    0 ≤ CalculateScore c now := by
  unfold CalculateScore
  dsimp only
  apply roundTo2Decimals_nonneg
  apply fadd_nonneg
  · apply fadd_nonneg
    · exact fmul_nonneg _ _ (calculateBaseScore_nonneg c hv hl hr ht) (getTypeMultiplier_nonneg _)
    · exact calculateFreshnessScore_nonneg _ _
  · exact calculateEngagementScore_nonneg c hv hl hr ht

theorem c10_score_nonneg_witness : 0 ≤ CalculateScore (sampleVideo 1) 86400000000000 :=
  c10_score_nonneg (sampleVideo 1) 86400000000000 (by decide) (by decide) (by decide) (by decide)

theorem timeSince_le_iff (now t bound : Int) (h1 : minInt64 ≤ bound) (h2 : bound < maxInt64) :
    timeSince now t ≤ bound ↔ now - t ≤ bound := by
  unfold timeSince satDuration Duration
  unfold minInt64 at h1 ⊢
  unfold maxInt64 at h2 ⊢
  split
  · constructor <;> intro h <;> omega
  · split <;> constructor <;> intro h <;> omega

theorem calculateFreshnessScore_eq_spec (publishedAt now : Time) :
    calculateFreshnessScore publishedAt now = specFreshnessScore (now - publishedAt) := by
  unfold calculateFreshnessScore specFreshnessScore nanosPerDay
  dsimp only
  have h7 := timeSince_le_iff now publishedAt 604800000000000 (by decide) (by decide)
  have h30 := timeSince_le_iff now publishedAt 2592000000000000 (by decide) (by decide)
  have h90 := timeSince_le_iff now publishedAt 7776000000000000 (by decide) (by decide)
  simp only [days_le_7_iff, days_le_30_iff, days_le_90_iff, h7, h30, h90]
  norm_num

theorem mathRound_mono {x y : F64} (h : x ≤ y) : mathRound x ≤ mathRound y := by
  unfold mathRound
  by_cases hx : 0 ≤ x
  · have hy : 0 ≤ y := le_trans hx h
    rw [if_pos hx, if_pos hy]
    exact_mod_cast Int.floor_mono (by linarith : x + 1 / 2 ≤ y + 1 / 2)
  · rw [if_neg hx]
    have hx0 : (0 : Int) ≤ ⌊-x + 1 / 2⌋ := Int.floor_nonneg.mpr (by linarith)
    have hx1 : (0 : ℚ) ≤ ((⌊-x + 1 / 2⌋ : Int) : ℚ) := by exact_mod_cast hx0
    by_cases hy : 0 ≤ y
    · rw [if_pos hy]
      have hy0 : (0 : Int) ≤ ⌊y + 1 / 2⌋ := Int.floor_nonneg.mpr (by linarith)
      have hy1 : (0 : ℚ) ≤ ((⌊y + 1 / 2⌋ : Int) : ℚ) := by exact_mod_cast hy0
      linarith
    · rw [if_neg hy]
      have : ⌊-y + 1 / 2⌋ ≤ ⌊-x + 1 / 2⌋ := Int.floor_mono (by linarith)
      have : ((⌊-y + 1 / 2⌋ : Int) : ℚ) ≤ ((⌊-x + 1 / 2⌋ : Int) : ℚ) := by exact_mod_cast this
      linarith

theorem fmul_mono_left {a b : F64} (c : F64) (hc : 0 ≤ c) (h : a ≤ b) : fmul a c ≤ fmul b c :=
  fl_mono (mul_le_mul_of_nonneg_right h hc)

theorem roundTo2Decimals_mono {x y : F64} (h : x ≤ y) :
    roundTo2Decimals x ≤ roundTo2Decimals y :=
  fdiv_mono_left _ (by norm_num) (mathRound_mono (fmul_mono_left _ (by norm_num) h))

/-- The freshness score does not grow with the age. -/
theorem specFreshnessScore_antitone {a b : Int} (h : a ≤ b) :
    specFreshnessScore b ≤ specFreshnessScore a := by
  unfold specFreshnessScore nanosPerDay
  by_cases h1 : b ≤ 7 * 86400000000000
  · rw [if_pos h1, if_pos (by omega)]
  · rw [if_neg h1]
    by_cases h2 : b ≤ 30 * 86400000000000
    · rw [if_pos h2]
      split
      · norm_num
      · rw [if_pos (by omega)]
    · rw [if_neg h2]
      by_cases h3 : b ≤ 90 * 86400000000000
      · rw [if_pos h3]
        split
        · norm_num
        · split
          · norm_num
          · rw [if_pos (by omega)]
      · rw [if_neg h3]
        split
        · norm_num
        · split
          · norm_num
          · split <;> norm_num

/-- The score as a function of the freshness term: what `CalculateScore` computes
once the freshness score is known. -/
theorem CalculateScore_eq (c : ProviderContent) (now : Time) :
    CalculateScore c now =
      roundTo2Decimals
        (fadd (fadd (fmul (calculateBaseScore c) (getTypeMultiplier c.Kind))
          (specFreshnessScore (now - c.PublishedAt))) (calculateEngagementScore c)) := by
  unfold CalculateScore
  dsimp only
  rw [calculateFreshnessScore_eq_spec]

/-- C12: freshness monotonicity. For every provider content record and fixed
evaluation time, if publish time `t1` is not earlier than publish time `t2`,
the score of the record published at `t1` is at least the score of the same
record published at `t2`; the rounding to 2 decimals preserves the order. -/
theorem c12_freshness_monotone (c : ProviderContent) (now t1 t2 : Time) (h : t2 ≤ t1) :
    CalculateScore { c with PublishedAt := t2 } now ≤
      CalculateScore { c with PublishedAt := t1 } now := by
  rw [CalculateScore_eq, CalculateScore_eq]
  have hb : calculateBaseScore { c with PublishedAt := t2 } =
      calculateBaseScore { c with PublishedAt := t1 } := rfl
  have he : calculateEngagementScore { c with PublishedAt := t2 } =
      calculateEngagementScore { c with PublishedAt := t1 } := rfl
  rw [hb, he]
  apply roundTo2Decimals_mono
  apply fadd_mono _ (le_refl _)
  apply fadd_mono (le_refl _)
  apply specFreshnessScore_antitone
  exact Int.sub_le_sub_left h now

theorem c12_freshness_monotone_witness :
    CalculateScore { sampleVideo 1 with PublishedAt := 0 } 63072000000000000 ≤
      CalculateScore { sampleVideo 1 with PublishedAt := 62985600000000000 }
        63072000000000000 :=
  c12_freshness_monotone (sampleVideo 1) 63072000000000000 62985600000000000 0 (by decide)

/-- Integers below `2^53` in magnitude are `float64` values: rounding fixes them. -/
theorem fl_intCast_pos (n : Int) (h0 : 0 < n) (h1 : n < 9007199254740992) :
    fl (n : ℚ) = (n : ℚ) := by
  have hq : (0 : ℚ) < (n : ℚ) := by exact_mod_cast h0
  obtain ⟨a1, a2⟩ := ilog2_spec (n : ℚ) hq
  have he0 : 0 ≤ ilog2 (n : ℚ) := by
    have h1n : (2 : ℚ) ^ (0 : Int) ≤ (n : ℚ) := by
      rw [zpow_zero]; exact_mod_cast h0
    have := lt_of_le_of_lt h1n a2
    have := (zpow_lt_zpow_iff_right₀ (by norm_num : (1 : ℚ) < 2)).mp this
    omega
  have he1 : ilog2 (n : ℚ) ≤ 52 := by
    have hn53 : (n : ℚ) < (2 : ℚ) ^ (53 : Int) := by
      have : (n : ℚ) < 9007199254740992 := by exact_mod_cast h1
      calc (n : ℚ) < 9007199254740992 := this
        _ = (2 : ℚ) ^ (53 : Int) := by norm_num
    have := lt_of_le_of_lt a1 hn53
    have := (zpow_lt_zpow_iff_right₀ (by norm_num : (1 : ℚ) < 2)).mp this
    omega
  obtain ⟨k, hk⟩ : ∃ k : Nat, (k : Int) = 52 - ilog2 (n : ℚ) :=
    ⟨(52 - ilog2 (n : ℚ)).toNat, by omega⟩
  have hu : ulpExp (n : ℚ) = -(k : Int) := by unfold ulpExp; omega
  unfold fl
  rw [if_pos hq]
  unfold flPos
  rw [pow2_eq_zpow, hu, zpow_neg, zpow_natCast]
  have h2k : (0 : ℚ) < (2 : ℚ) ^ k := pow_pos (by norm_num) k
  have hdiv : (n : ℚ) / ((2 : ℚ) ^ k)⁻¹ = ((n * 2 ^ k : Int) : ℚ) := by
    rw [div_inv_eq_mul]; push_cast; ring
  rw [hdiv, roundHalfEven_intCast]
  push_cast
  field_simp

theorem fl_intCast_nonneg (n : Int) (h0 : 0 ≤ n) (h1 : n < 9007199254740992) :
    fl (n : ℚ) = (n : ℚ) := by
  rcases lt_or_eq_of_le h0 with h | h
  · exact fl_intCast_pos n h h1
  · rw [← h]; simp [fl]

/-- Rounding keeps a value below an integer bound. -/
theorem fl_le_int {x : ℚ} (B : Int) (hB0 : 0 ≤ B) (hB : B < 9007199254740992)
    (h : x ≤ (B : ℚ)) : fl x ≤ (B : ℚ) := by
  have := fl_mono h
  rwa [fl_intCast_nonneg B hB0 hB] at this

/-- Two values at least `G` apart, below `2^53`, stay at least `G - 1` apart after
rounding. -/
theorem fl_gap {x y : ℚ} (G : Int) (hG : 1 ≤ G) (hy : 0 ≤ y) (hx : x < 9007199254740992)
    (h : y + (G : ℚ) ≤ x) : fl y + ((G : ℚ) - 1) ≤ fl x := by
  have hf0 : 0 ≤ ⌊y⌋ := Int.floor_nonneg.mpr hy
  have hfl : (⌊y⌋ : ℚ) ≤ y := Int.floor_le y
  have hlt : y < (⌊y⌋ : ℚ) + 1 := Int.lt_floor_add_one y
  have hGq : (1 : ℚ) ≤ (G : ℚ) := by exact_mod_cast hG
  have hupper : ((⌊y⌋ + G : Int) : ℚ) ≤ x := by push_cast; linarith
  have hub : ⌊y⌋ + G < 9007199254740992 := by
    have : ((⌊y⌋ + G : Int) : ℚ) < ((9007199254740992 : Int) : ℚ) := by
      push_cast at hupper ⊢; linarith
    exact_mod_cast this
  have h1 : fl y ≤ ((⌊y⌋ + 1 : Int) : ℚ) :=
    fl_le_int (⌊y⌋ + 1) (by omega) (by omega) (by push_cast; linarith)
  have h2 : ((⌊y⌋ + G : Int) : ℚ) ≤ fl x := by
    have := fl_mono hupper
    rwa [fl_intCast_nonneg (⌊y⌋ + G) (by omega) hub] at this
  push_cast at h1 h2
  linarith
theorem mathRound_of_nonneg (x : F64) (h : 0 ≤ x) :
    mathRound x = ((⌊x + 1 / 2⌋ : Int) : ℚ) := by
  unfold mathRound
  rw [if_pos h]

/-- For a product term `s` and an engagement term `e` of moderate size, replacing
the freshness score 0 by 5 strictly increases the rounded score. -/
theorem score_strict (s e : ℚ) (hs0 : 0 ≤ s) (hs : s ≤ 4000000000000)
    (he0 : 0 ≤ e) (he : e ≤ 10000000000000) :
    roundTo2Decimals (fadd (fadd s 0) e) < roundTo2Decimals (fadd (fadd s 5) e) := by
  -- first sum
  have A0n : 0 ≤ fadd s 0 := fadd_nonneg _ _ hs0 (le_refl _)
  have A1u : fadd s 5 ≤ ((4000000000005 : Int) : ℚ) :=
    fl_le_int _ (by decide) (by decide) (by push_cast; linarith)
  have Ag : fadd s 0 + (((5 : Int) : ℚ) - 1) ≤ fadd s 5 :=
    fl_gap 5 (by decide) (by linarith) (by linarith) (by push_cast; linarith)
  push_cast at A1u Ag
  -- second sum
  have V0n : 0 ≤ fadd (fadd s 0) e := fadd_nonneg _ _ A0n he0
  have V1u : fadd (fadd s 5) e ≤ ((14000000000005 : Int) : ℚ) :=
    fl_le_int _ (by decide) (by decide) (by push_cast; linarith)
  have Vg : fadd (fadd s 0) e + (((4 : Int) : ℚ) - 1) ≤ fadd (fadd s 5) e :=
    fl_gap 4 (by decide) (by linarith) (by linarith) (by push_cast; linarith)
  push_cast at V1u Vg
  -- times 100
  have P0n : 0 ≤ fmul (fadd (fadd s 0) e) 100 := fmul_nonneg _ _ V0n (by norm_num)
  have P1u : fmul (fadd (fadd s 5) e) 100 ≤ ((1400000000000500 : Int) : ℚ) :=
    fl_le_int _ (by decide) (by decide) (by push_cast; linarith)
  have Pg : fmul (fadd (fadd s 0) e) 100 + (((300 : Int) : ℚ) - 1) ≤
      fmul (fadd (fadd s 5) e) 100 :=
    fl_gap 300 (by decide) (by nlinarith) (by linarith) (by push_cast; linarith)
  push_cast at P1u Pg
  have P1n : 0 ≤ fmul (fadd (fadd s 5) e) 100 := by linarith
  -- rounding to an integer
  have R0 := mathRound_of_nonneg _ P0n
  have R1 := mathRound_of_nonneg _ P1n
  have R0u : mathRound (fmul (fadd (fadd s 0) e) 100) ≤ fmul (fadd (fadd s 0) e) 100 + 1 / 2 := by
    rw [R0]; exact Int.floor_le _
  have R0n : 0 ≤ mathRound (fmul (fadd (fadd s 0) e) 100) := mathRound_nonneg _ P0n
  have R1l : fmul (fadd (fadd s 5) e) 100 - 1 / 2 < mathRound (fmul (fadd (fadd s 5) e) 100) := by
    rw [R1]
    have := Int.lt_floor_add_one (fmul (fadd (fadd s 5) e) 100 + 1 / 2)
    linarith
  have R1u : mathRound (fmul (fadd (fadd s 5) e) 100) ≤ fmul (fadd (fadd s 5) e) 100 + 1 / 2 := by
    rw [R1]; exact Int.floor_le _
  -- division by 100
  have Sg : fdiv (mathRound (fmul (fadd (fadd s 0) e) 100)) 100 + (((2 : Int) : ℚ) - 1) ≤
      fdiv (mathRound (fmul (fadd (fadd s 5) e) 100)) 100 :=
    fl_gap 2 (by decide) (by positivity) (by linarith) (by push_cast; linarith)
  push_cast at Sg
  unfold roundTo2Decimals
  linarith

theorem ofInt_le_of_le (n B : Int) (hB0 : 0 ≤ B) (hB : B < 9007199254740992) (h : n ≤ B) :
    ofInt n ≤ (B : ℚ) :=
  fl_le_int B hB0 hB (by exact_mod_cast h)

theorem one_le_ofInt (n : Int) (h : 1 ≤ n) : 1 ≤ ofInt n := by
  have := ofInt_mono h
  have h1 : ofInt 1 = 1 := by decide!
  rwa [h1] at this

theorem fdiv_le_of_le (a b : F64) (B : Int) (hB0 : 0 ≤ B) (hB : B < 9007199254740992)
    (ha0 : 0 ≤ a) (ha : a ≤ (B : ℚ)) (hb : 1 ≤ b) : fdiv a b ≤ (B : ℚ) := by
  apply fl_le_int B hB0 hB
  have : a / b ≤ a := div_le_self ha0 hb
  linarith

theorem product_term_bounds (c : ProviderContent)
    (hv : 0 ≤ c.Views) (hl : 0 ≤ c.Likes) (hr : 0 ≤ c.Reactions) (ht : 0 ≤ c.ReadingTime)
    (hv1 : c.Views ≤ 1000000000000) (hl1 : c.Likes ≤ 1000000000000)
    (hr1 : c.Reactions ≤ 1000000000000) (ht1 : c.ReadingTime ≤ 1000000000000) :
    0 ≤ fmul (calculateBaseScore c) (getTypeMultiplier c.Kind) ∧
    fmul (calculateBaseScore c) (getTypeMultiplier c.Kind) ≤ 4000000000000 := by
  have hb0 := calculateBaseScore_nonneg c hv hl hr ht
  have hm0 := getTypeMultiplier_nonneg c.Kind
  have hm2 : getTypeMultiplier c.Kind ≤ 2 := by
    unfold getTypeMultiplier
    split
    · norm_num
    · split <;> norm_num
  have V := ofInt_le_of_le c.Views 1000000000000 (by decide) (by decide) hv1
  have L := ofInt_le_of_le c.Likes 1000000000000 (by decide) (by decide) hl1
  have R := ofInt_le_of_le c.Reactions 1000000000000 (by decide) (by decide) hr1
  have T := ofInt_le_of_le c.ReadingTime 1000000000000 (by decide) (by decide) ht1
  have hb2 : calculateBaseScore c ≤ ((2000000000000 : Int) : ℚ) := by
    unfold calculateBaseScore
    split
    · apply fl_le_int _ (by decide) (by decide)
      have a := fdiv_le_of_le (ofInt c.Views) 1000 1000000000000 (by decide) (by decide)
        (ofInt_nonneg _ hv) V (by norm_num)
      have b := fdiv_le_of_le (ofInt c.Likes) 100 1000000000000 (by decide) (by decide)
        (ofInt_nonneg _ hl) L (by norm_num)
      push_cast at a b ⊢
      linarith
    · split
      · apply fl_le_int _ (by decide) (by decide)
        have b := fdiv_le_of_le (ofInt c.Reactions) 50 1000000000000 (by decide) (by decide)
          (ofInt_nonneg _ hr) R (by norm_num)
        push_cast at T b ⊢
        linarith
      · norm_num
  refine ⟨fmul_nonneg _ _ hb0 hm0, ?_⟩
  have : fmul (calculateBaseScore c) (getTypeMultiplier c.Kind) ≤ ((4000000000000 : Int) : ℚ) := by
    apply fl_le_int _ (by decide) (by decide)
    push_cast at hb2 ⊢
    nlinarith
  exact_mod_cast this

theorem engagement_term_bounds (c : ProviderContent)
    (hv : 0 ≤ c.Views) (hl : 0 ≤ c.Likes) (hr : 0 ≤ c.Reactions) (ht : 0 ≤ c.ReadingTime)
    (hl1 : c.Likes ≤ 1000000000000) (hr1 : c.Reactions ≤ 1000000000000) :
    0 ≤ calculateEngagementScore c ∧ calculateEngagementScore c ≤ 10000000000000 := by
  refine ⟨calculateEngagementScore_nonneg c hv hl hr ht, ?_⟩
  have L := ofInt_le_of_le c.Likes 1000000000000 (by decide) (by decide) hl1
  have R := ofInt_le_of_le c.Reactions 1000000000000 (by decide) (by decide) hr1
  unfold calculateEngagementScore
  split
  · split
    · norm_num
    · rename_i h0
      have d := fdiv_le_of_le (ofInt c.Likes) (ofInt c.Views) 1000000000000 (by decide)
        (by decide) (ofInt_nonneg _ hl) L (one_le_ofInt _ (by omega))
      have : fmul (fdiv (ofInt c.Likes) (ofInt c.Views)) 10 ≤ ((10000000000000 : Int) : ℚ) := by
        apply fl_le_int _ (by decide) (by decide)
        push_cast at d ⊢
        linarith
      exact_mod_cast this
  · split
    · split
      · norm_num
      · rename_i h0
        have d := fdiv_le_of_le (ofInt c.Reactions) (ofInt c.ReadingTime) 1000000000000
          (by decide) (by decide) (ofInt_nonneg _ hr) R (one_le_ofInt _ (by omega))
        have : fmul (fdiv (ofInt c.Reactions) (ofInt c.ReadingTime)) 5 ≤
            ((10000000000000 : Int) : ℚ) := by
          apply fl_le_int _ (by decide) (by decide)
          push_cast at d ⊢
          linarith
        exact_mod_cast this
    · norm_num

/-- C11 (counterexample): a video with `9 * 10^18` views and likes, scored at day 800,
has the same score whether it was published one day or 730 days earlier: at
that magnitude adjacent `float64` values are 32 apart and the freshness bonus
of 5 is absorbed by the rounding of the sum. -/
theorem c11_freshness_absorbed :
    (69120000000000000 : Int) - 69033600000000000 ≤ 7 * nanosPerDay ∧
    90 * nanosPerDay < (69120000000000000 : Int) - 6048000000000000 ∧
    inInt64 (hugeVideo 0).Views ∧ inInt64 (hugeVideo 0).Likes ∧
    ¬ (CalculateScore (hugeVideo 6048000000000000) 69120000000000000 <
        CalculateScore (hugeVideo 69033600000000000) 69120000000000000) := by
  refine ⟨by decide, by decide, by decide, by decide, ?_⟩
  decide!

/-- C11 (amended): for every provider content record whose views, likes, reactions
and reading time lie between 0 and `10^12`, of any kind, scored at one instant,
the score with a publish time at most 7 days old is strictly greater than the
score of the same record with a publish time more than 90 days old. -/
theorem c11_fresh_beats_stale (c : ProviderContent) (now t1 t2 : Time)
    (hv : 0 ≤ c.Views) (hl : 0 ≤ c.Likes) (hr : 0 ≤ c.Reactions) (ht : 0 ≤ c.ReadingTime)
    (hv1 : c.Views ≤ 1000000000000) (hl1 : c.Likes ≤ 1000000000000)
    (hr1 : c.Reactions ≤ 1000000000000) (ht1 : c.ReadingTime ≤ 1000000000000)
    (hfresh : now - t1 ≤ 7 * nanosPerDay) (hstale : 90 * nanosPerDay < now - t2) :
    CalculateScore { c with PublishedAt := t2 } now <
      CalculateScore { c with PublishedAt := t1 } now := by
  rw [CalculateScore_eq, CalculateScore_eq]
  have hb : calculateBaseScore { c with PublishedAt := t2 } = calculateBaseScore c := rfl
  have hb' : calculateBaseScore { c with PublishedAt := t1 } = calculateBaseScore c := rfl
  have he : calculateEngagementScore { c with PublishedAt := t2 } =
      calculateEngagementScore c := rfl
  have he' : calculateEngagementScore { c with PublishedAt := t1 } =
      calculateEngagementScore c := rfl
  rw [hb, hb', he, he']
  have f1 : specFreshnessScore (now - t1) = 5 := by
    unfold specFreshnessScore
    rw [if_pos hfresh]
  have f2 : specFreshnessScore (now - t2) = 0 := by
    unfold specFreshnessScore nanosPerDay at *
    rw [if_neg (by omega), if_neg (by omega), if_neg (by omega)]
  dsimp only
  rw [f1, f2]
  obtain ⟨s0, s1⟩ := product_term_bounds c hv hl hr ht hv1 hl1 hr1 ht1
  obtain ⟨e0, e1⟩ := engagement_term_bounds c hv hl hr ht hl1 hr1
  exact score_strict _ _ s0 s1 e0 e1

theorem c11_fresh_beats_stale_witness :
    CalculateScore { decayTestVideo 0 with PublishedAt := 6048000000000000 } 69120000000000000 <
      CalculateScore { decayTestVideo 0 with PublishedAt := 69033600000000000 }
        69120000000000000 :=
  c11_fresh_beats_stale (decayTestVideo 0) 69120000000000000 69033600000000000
    6048000000000000 (by decide) (by decide) (by decide) (by decide) (by decide) (by decide)
    (by decide) (by decide) (by decide) (by decide)

/-! ## Theorems: filters and sorting -/

theorem applyFiltersAndSorting_eq (env : Env) (contents : List Content) (params : SearchParams) :
    applyFiltersAndSorting env contents params =
      env.sortSlice (less params.SortBy) (applyFilters env contents params) := by
  unfold applyFiltersAndSorting applyFilters
  dsimp only

theorem sinkLeft_perm (lt : Content → Content → Bool) (x : Content) (rev : List Content) :
    (sinkLeft lt x rev).Perm (x :: rev) := by
  induction rev with
  | nil => exact List.Perm.refl _
  | cons p ps ih =>
    unfold sinkLeft
    split
    · exact (List.Perm.cons p ih).trans (List.Perm.swap x p ps)
    · exact List.Perm.refl _

theorem foldl_sinkLeft_perm (lt : Content → Content → Bool) (ys : List Content) :
    ∀ rev : List Content,
      (ys.foldl (fun revPrefix x => sinkLeft lt x revPrefix) rev).Perm (ys ++ rev) := by
  induction ys with
  | nil => intro rev; exact List.Perm.refl _
  | cons y ys ih =>
    intro rev
    simp only [List.foldl_cons, List.cons_append]
    refine (ih _).trans ?_
    exact (List.Perm.append_left ys (sinkLeft_perm lt y rev)).trans List.perm_middle

theorem goInsertionSort_perm : SortPermutes goInsertionSort := by
  intro lt xs
  unfold goInsertionSort
  refine (List.reverse_perm _).trans ?_
  have := foldl_sinkLeft_perm lt xs []
  simpa using this

theorem sinkLeft_pairwise (lt : Content → Content → Bool) (xs : List Content)
    (hw : StrictWeakOn lt xs) (x : Content) (hx : x ∈ xs) :
    ∀ rev : List Content, (∀ a ∈ rev, a ∈ xs) →
      rev.Pairwise (fun a b => lt a b = false) →
      (sinkLeft lt x rev).Pairwise (fun a b => lt a b = false) := by
  obtain ⟨hirr, htr, hneg⟩ := hw
  intro rev
  induction rev with
  | nil => intro _ _; simp [sinkLeft]
  | cons p ps ih =>
    intro hmem hp
    have hpm : p ∈ xs := hmem p (List.mem_cons_self _ _)
    have hpsm : ∀ a ∈ ps, a ∈ xs := fun a ha => hmem a (List.mem_cons_of_mem _ ha)
    rw [List.pairwise_cons] at hp
    unfold sinkLeft
    by_cases hlt : lt x p = true
    · rw [if_pos hlt]
      rw [List.pairwise_cons]
      refine ⟨?_, ih hpsm hp.2⟩
      intro q hq
      have hq' : q ∈ x :: ps := (sinkLeft_perm lt x ps).subset hq
      rcases List.mem_cons.mp hq' with h | h
      · subst h
        cases hpx : lt p q with
        | false => rfl
        | true =>
          have := htr q hx p hpm q hx hlt hpx
          rw [hirr q hx] at this
          exact absurd this (by decide)
      · exact hp.1 q h
    · rw [if_neg hlt]
      have hlt' : lt x p = false := by simpa using hlt
      rw [List.pairwise_cons]
      refine ⟨?_, List.pairwise_cons.mpr hp⟩
      intro q hq
      rcases List.mem_cons.mp hq with h | h
      · subst h; exact hlt'
      · exact hneg x hx p hpm q (hpsm q h) hlt' (hp.1 q h)

theorem foldl_sinkLeft_pairwise (lt : Content → Content → Bool) (xs : List Content)
    (hw : StrictWeakOn lt xs) (ys : List Content) :
    ∀ rev : List Content, (∀ a ∈ ys, a ∈ xs) → (∀ a ∈ rev, a ∈ xs) →
      rev.Pairwise (fun a b => lt a b = false) →
      (ys.foldl (fun revPrefix x => sinkLeft lt x revPrefix) rev).Pairwise
        (fun a b => lt a b = false) := by
  induction ys with
  | nil => intro rev _ _ hp; exact hp
  | cons y ys ih =>
    intro rev hys hrev hp
    simp only [List.foldl_cons]
    have hy : y ∈ xs := hys y (List.mem_cons_self _ _)
    apply ih
    · exact fun a ha => hys a (List.mem_cons_of_mem _ ha)
    · intro a ha
      have := (sinkLeft_perm lt y rev).subset ha
      rcases List.mem_cons.mp this with h | h
      · subst h; exact hy
      · exact hrev a h
    · exact sinkLeft_pairwise lt xs hw y hy rev hrev hp

theorem goInsertionSort_sorts : SortSorts goInsertionSort := by
  intro lt xs hw
  unfold goInsertionSort
  rw [List.pairwise_reverse]
  exact foldl_sinkLeft_pairwise lt xs hw xs [] (fun a ha => ha) (by simp) List.Pairwise.nil
theorem contains_eq_true_iff (a : String) (l : List String) : l.contains a = true ↔ a ∈ l := by
  simp

theorem applyFiltersAndSorting_perm (env : Env) (contents : List Content)
    (params : SearchParams) (hsort : SortPermutes env.sortSlice) :
    (applyFiltersAndSorting env contents params).Perm (applyFilters env contents params) := by
  rw [applyFiltersAndSorting_eq]
  exact hsort _ _

theorem applyFilters_kind_only (env : Env) (contents : List Content) (params : SearchParams)
    (hF : params.ContentTypes ≠ []) (hT : params.Tags = []) :
    applyFilters env contents params =
      contents.filter (fun content => params.ContentTypes.contains content.Kind) := by
  unfold applyFilters
  have h1 : params.ContentTypes.length > 0 := List.length_pos.mpr hF
  simp [h1, hT]

theorem applyFilters_tag_only (env : Env) (contents : List Content) (params : SearchParams)
    (hF : params.ContentTypes = []) (hT : params.Tags ≠ []) :
    applyFilters env contents params =
      contents.filter (fun content =>
        content.Tags.any (fun contentTag =>
          (params.Tags.map env.ToLower).contains (env.ToLower contentTag))) := by
  unfold applyFilters
  have h1 : params.Tags.length > 0 := List.length_pos.mpr hT
  simp [h1, hF]

theorem applyFilters_both (env : Env) (contents : List Content) (params : SearchParams)
    (hF : params.ContentTypes ≠ []) (hT : params.Tags ≠ []) :
    applyFilters env contents params =
      (contents.filter (fun content => params.ContentTypes.contains content.Kind)).filter
        (fun content =>
          content.Tags.any (fun contentTag =>
            (params.Tags.map env.ToLower).contains (env.ToLower contentTag))) := by
  unfold applyFilters
  have h1 : params.Tags.length > 0 := List.length_pos.mpr hT
  have h2 : params.ContentTypes.length > 0 := List.length_pos.mpr hF
  simp [h1, h2]

/-- The tag test of the filter loop holds exactly when some tag of the record and
some tag of the request have the same lower-case form. -/
theorem tag_test_iff (env : Env) (tags : List String) (content : Content) :
    content.Tags.any (fun contentTag =>
        (tags.map env.ToLower).contains (env.ToLower contentTag)) = true ↔
      ∃ t ∈ content.Tags, ∃ u ∈ tags, env.ToLower t = env.ToLower u := by
  simp only [List.any_eq_true, contains_eq_true_iff, List.mem_map]
  constructor
  · rintro ⟨t, ht, u, hu, he⟩
    exact ⟨t, ht, u, hu, he.symm⟩
  · rintro ⟨t, ht, u, hu, he⟩
    exact ⟨t, ht, u, hu, he.symm⟩

/-- C13: with a non-empty content-kind filter `F` and no tag filter, the output of
`applyFiltersAndSorting` holds every input record whose kind is in `F` as many
times as the input does and no record of another kind, whatever the scores; in
particular the filter `video` removes every text record. (`sort.Slice` is
taken to reorder its slice.) -/
theorem c13_kind_filter (env : Env) (contents : List Content) (params : SearchParams)
    (hsort : SortPermutes env.sortSlice)
    (hF : params.ContentTypes ≠ []) (hT : params.Tags = []) :
    (∀ c, c.Kind ∈ params.ContentTypes →
      (applyFiltersAndSorting env contents params).count c = contents.count c) ∧
    (∀ c, c.Kind ∉ params.ContentTypes → c ∉ applyFiltersAndSorting env contents params) ∧
    (params.ContentTypes = ["video"] →
      ∀ c ∈ applyFiltersAndSorting env contents params, c.Kind ≠ "text") := by
  have hp := applyFiltersAndSorting_perm env contents params hsort
  rw [applyFilters_kind_only env contents params hF hT] at hp
  have hnot : ∀ c, c.Kind ∉ params.ContentTypes →
      c ∉ applyFiltersAndSorting env contents params := by
    intro c hc hmem
    have := hp.subset hmem
    rw [List.mem_filter] at this
    exact hc ((contains_eq_true_iff _ _).mp this.2)
  refine ⟨?_, hnot, ?_⟩
  · intro c hc
    rw [hp.count_eq]
    exact List.count_filter ((contains_eq_true_iff _ _).mpr hc)
  · intro hv c hc ht
    apply hnot c _ hc
    rw [hv, ht]
    decide

/-- C14: with a non-empty tag filter `T` and no kind filter, the output of
`applyFiltersAndSorting` holds every input record that has a tag equal, ignoring
letter case (same `strings.ToLower` form), to a tag of `T`, as many times as
the input does, and no other record: records without tags or without a
matching tag are removed. (`sort.Slice` is taken to reorder its slice.) -/
theorem c14_tag_filter (env : Env) (contents : List Content) (params : SearchParams)
    (hsort : SortPermutes env.sortSlice)
    (hF : params.ContentTypes = []) (hT : params.Tags ≠ []) :
    (∀ c, (∃ t ∈ c.Tags, ∃ u ∈ params.Tags, env.ToLower t = env.ToLower u) →
      (applyFiltersAndSorting env contents params).count c = contents.count c) ∧
    (∀ c, ¬ (∃ t ∈ c.Tags, ∃ u ∈ params.Tags, env.ToLower t = env.ToLower u) →
      c ∉ applyFiltersAndSorting env contents params) ∧
    (∀ c, c.Tags = [] → c ∉ applyFiltersAndSorting env contents params) := by
  have hp := applyFiltersAndSorting_perm env contents params hsort
  rw [applyFilters_tag_only env contents params hF hT] at hp
  have hnot : ∀ c, ¬ (∃ t ∈ c.Tags, ∃ u ∈ params.Tags, env.ToLower t = env.ToLower u) →
      c ∉ applyFiltersAndSorting env contents params := by
    intro c hc hmem
    have := hp.subset hmem
    rw [List.mem_filter] at this
    exact hc ((tag_test_iff env params.Tags c).mp this.2)
  refine ⟨?_, hnot, ?_⟩
  · intro c hc
    rw [hp.count_eq]
    exact List.count_filter ((tag_test_iff env params.Tags c).mpr hc)
  · intro c hc
    apply hnot
    rw [hc]
    simp

/-- C15: with a non-empty kind filter `F` and a non-empty tag filter `T`, a record is
in the output of `applyFiltersAndSorting` with both filters exactly when it is
in the output with only `F` and in the output with only `T`. (`sort.Slice` is
taken to reorder its slice.) -/
theorem c15_filters_intersect (env : Env) (contents : List Content) (params : SearchParams)
    (hsort : SortPermutes env.sortSlice)
    (hF : params.ContentTypes ≠ []) (hT : params.Tags ≠ []) :
    ∀ c, c ∈ applyFiltersAndSorting env contents params ↔
      (c ∈ applyFiltersAndSorting env contents { params with Tags := [] } ∧
       c ∈ applyFiltersAndSorting env contents { params with ContentTypes := [] }) := by
  intro c
  rw [(applyFiltersAndSorting_perm env contents params hsort).mem_iff,
    (applyFiltersAndSorting_perm env contents _ hsort).mem_iff,
    (applyFiltersAndSorting_perm env contents _ hsort).mem_iff,
    applyFilters_both env contents params hF hT,
    applyFilters_kind_only env contents { params with Tags := [] } hF rfl,
    applyFilters_tag_only env contents { params with ContentTypes := [] } rfl hT]
  simp only [List.mem_filter]
  tauto

theorem less_score_strictWeak (sortBy : String) (h : sortBy ≠ "popularity")
    (xs : List Content) : StrictWeakOn (less sortBy) xs := by
  have hl : ∀ a b, less sortBy a b = decide (a.Score > b.Score) := by
    intro a b; unfold less; rw [if_neg h]
  refine ⟨?_, ?_, ?_⟩
  · intro a _
    rw [hl]; simp
  · intro a _ b _ c _ h1 h2
    rw [hl] at h1 h2 ⊢
    simp only [decide_eq_true_eq] at h1 h2 ⊢
    exact lt_trans h2 h1
  · intro a _ b _ c _ h1 h2
    rw [hl] at h1 h2 ⊢
    simp only [decide_eq_false_iff_not, not_lt] at h1 h2 ⊢
    exact le_trans h1 h2

/-- C16: for every sort mode other than popularity, the output of
`applyFiltersAndSorting` is a permutation of the filtered records in which the
score of each record is at least the score of every record after it.
(`sort.Slice` is taken to behave as documented: it reorders the slice, and
sorts it when the comparator is a strict weak order.) -/
theorem c16_score_descending (env : Env) (contents : List Content) (params : SearchParams)
    (hperm : SortPermutes env.sortSlice) (hsorts : SortSorts env.sortSlice)
    (hmode : params.SortBy ≠ "popularity") :
    (applyFiltersAndSorting env contents params).Perm (applyFilters env contents params) ∧
    (applyFiltersAndSorting env contents params).Pairwise (fun a b => a.Score ≥ b.Score) := by
  refine ⟨applyFiltersAndSorting_perm env contents params hperm, ?_⟩
  rw [applyFiltersAndSorting_eq]
  have := hsorts (less params.SortBy) (applyFilters env contents params)
    (less_score_strictWeak _ hmode _)
  refine this.imp ?_
  intro a b hab
  unfold less at hab
  rw [if_neg hmode] at hab
  simpa using hab

theorem c13_kind_filter_witness :
    (∀ c, c.Kind ∈ videoOnlyParams.ContentTypes →
      (applyFiltersAndSorting goSortEnv mixedContents videoOnlyParams).count c =
        mixedContents.count c) ∧
    (∀ c, c.Kind ∉ videoOnlyParams.ContentTypes →
      c ∉ applyFiltersAndSorting goSortEnv mixedContents videoOnlyParams) ∧
    (videoOnlyParams.ContentTypes = ["video"] →
      ∀ c ∈ applyFiltersAndSorting goSortEnv mixedContents videoOnlyParams, c.Kind ≠ "text") :=
  c13_kind_filter goSortEnv mixedContents videoOnlyParams goInsertionSort_perm
    (by decide) rfl

theorem c14_tag_filter_witness :
    (∀ c, (∃ t ∈ c.Tags, ∃ u ∈ tagOnlyParams.Tags,
        goSortEnv.ToLower t = goSortEnv.ToLower u) →
      (applyFiltersAndSorting goSortEnv mixedContents tagOnlyParams).count c =
        mixedContents.count c) ∧
    (∀ c, ¬ (∃ t ∈ c.Tags, ∃ u ∈ tagOnlyParams.Tags,
        goSortEnv.ToLower t = goSortEnv.ToLower u) →
      c ∉ applyFiltersAndSorting goSortEnv mixedContents tagOnlyParams) ∧
    (∀ c, c.Tags = [] → c ∉ applyFiltersAndSorting goSortEnv mixedContents tagOnlyParams) :=
  c14_tag_filter goSortEnv mixedContents tagOnlyParams goInsertionSort_perm rfl (by decide)

theorem c15_filters_intersect_witness :
    mixedVideoA ∈ applyFiltersAndSorting goSortEnv mixedContents bothFiltersParams ↔
      (mixedVideoA ∈ applyFiltersAndSorting goSortEnv mixedContents
          { bothFiltersParams with Tags := [] } ∧
       mixedVideoA ∈ applyFiltersAndSorting goSortEnv mixedContents
          { bothFiltersParams with ContentTypes := [] }) :=
  c15_filters_intersect goSortEnv mixedContents bothFiltersParams goInsertionSort_perm
    (by decide) (by decide) mixedVideoA

theorem c16_score_descending_witness :
    (applyFiltersAndSorting goSortEnv mixedContents sampleParams).Perm
      (applyFilters goSortEnv mixedContents sampleParams) ∧
    (applyFiltersAndSorting goSortEnv mixedContents sampleParams).Pairwise
      (fun a b => a.Score ≥ b.Score) :=
  c16_score_descending goSortEnv mixedContents sampleParams goInsertionSort_perm
    goInsertionSort_sorts (by decide)

/-- C17 (counterexample): in popularity mode the list of a video with 10 views and
score 5, a text record with score 3 and a video with 20 views and score 1 is
left as it is by Go's insertion sort (each record is not less than the one
before it), so the video with 10 views precedes the video with 20 views. -/
theorem c17_mixed_popularity_order :
    applyFiltersAndSorting goSortEnv mixedContents popularityParams =
      [mixedVideoA, mixedText, mixedVideoB] ∧
    mixedVideoA.Kind = "video" ∧ mixedVideoB.Kind = "video" ∧
    mixedVideoA.Views < mixedVideoB.Views ∧
    ¬ (applyFiltersAndSorting goSortEnv mixedContents popularityParams).Pairwise
        (fun a b => a.Kind = "video" → b.Kind = "video" → a.Views ≥ b.Views) := by
  have h : applyFiltersAndSorting goSortEnv mixedContents popularityParams =
      [mixedVideoA, mixedText, mixedVideoB] := by decide!
  refine ⟨h, rfl, rfl, by decide, ?_⟩
  rw [h]
  intro hp
  have := (List.pairwise_cons.mp hp).1 mixedVideoB (by simp) rfl rfl
  exact absurd this (by decide)

theorem less_popularity_video_strictWeak (xs : List Content)
    (hk : ∀ c ∈ xs, c.Kind = "video") : StrictWeakOn (less "popularity") xs := by
  have hl : ∀ a ∈ xs, ∀ b ∈ xs, less "popularity" a b = decide (a.Views > b.Views) := by
    intro a ha b hb
    unfold less
    rw [if_pos rfl, if_pos ⟨hk a ha, hk b hb⟩]
  refine ⟨?_, ?_, ?_⟩
  · intro a ha
    rw [hl a ha a ha]; simp
  · intro a ha b hb c hc h1 h2
    rw [hl a ha b hb] at h1
    rw [hl b hb c hc] at h2
    rw [hl a ha c hc]
    simp only [decide_eq_true_eq] at h1 h2 ⊢
    exact lt_trans h2 h1
  · intro a ha b hb c hc h1 h2
    rw [hl a ha b hb] at h1
    rw [hl b hb c hc] at h2
    rw [hl a ha c hc]
    simp only [decide_eq_false_iff_not, not_lt] at h1 h2 ⊢
    exact le_trans h1 h2

theorem less_popularity_text_strictWeak (xs : List Content)
    (hk : ∀ c ∈ xs, c.Kind = "text") : StrictWeakOn (less "popularity") xs := by
  have hl : ∀ a ∈ xs, ∀ b ∈ xs, less "popularity" a b = decide (a.Reactions > b.Reactions) := by
    intro a ha b hb
    unfold less
    have hnv : ¬ (a.Kind = "video" ∧ b.Kind = "video") := by
      rw [hk a ha]; intro h; exact absurd h.1 (by decide)
    rw [if_pos rfl, if_neg hnv, if_pos ⟨hk a ha, hk b hb⟩]
  refine ⟨?_, ?_, ?_⟩
  · intro a ha
    rw [hl a ha a ha]; simp
  · intro a ha b hb c hc h1 h2
    rw [hl a ha b hb] at h1
    rw [hl b hb c hc] at h2
    rw [hl a ha c hc]
    simp only [decide_eq_true_eq] at h1 h2 ⊢
    exact lt_trans h2 h1
  · intro a ha b hb c hc h1 h2
    rw [hl a ha b hb] at h1
    rw [hl b hb c hc] at h2
    rw [hl a ha c hc]
    simp only [decide_eq_false_iff_not, not_lt] at h1 h2 ⊢
    exact le_trans h1 h2

/-- C17 (amended): with sort mode popularity, when the records that pass the filters
are all videos the output of `applyFiltersAndSorting` has each video's views at
least the views of every later video, and when they are all text records each
record's reactions are at least the reactions of every later record.
(`sort.Slice` is taken to behave as documented.) -/
theorem c17_popularity_single_kind (env : Env) (contents : List Content)
    (params : SearchParams)
    (hperm : SortPermutes env.sortSlice) (hsorts : SortSorts env.sortSlice)
    (hmode : params.SortBy = "popularity") :
    ((∀ c ∈ applyFilters env contents params, c.Kind = "video") →
      (applyFiltersAndSorting env contents params).Pairwise
        (fun a b => a.Views ≥ b.Views)) ∧
    ((∀ c ∈ applyFilters env contents params, c.Kind = "text") →
      (applyFiltersAndSorting env contents params).Pairwise
        (fun a b => a.Reactions ≥ b.Reactions)) := by
  have hp := applyFiltersAndSorting_perm env contents params hperm
  constructor
  · intro hk
    have hs := hsorts (less params.SortBy) (applyFilters env contents params)
      (by rw [hmode]; exact less_popularity_video_strictWeak _ hk)
    rw [← applyFiltersAndSorting_eq] at hs
    have hmem : (applyFiltersAndSorting env contents params).Pairwise
        (fun a b => a ∈ applyFiltersAndSorting env contents params ∧
          b ∈ applyFiltersAndSorting env contents params) :=
      List.pairwise_of_forall_mem_list (fun a ha b hb => ⟨ha, hb⟩)
    refine (hs.and hmem).imp ?_
    intro a b hab
    obtain ⟨hlt, ha, hb⟩ := hab
    have hka := hk a (hp.subset ha)
    have hkb := hk b (hp.subset hb)
    rw [hmode] at hlt
    unfold less at hlt
    rw [if_pos rfl, if_pos ⟨hkb, hka⟩] at hlt
    simpa using hlt
  · intro hk
    have hs := hsorts (less params.SortBy) (applyFilters env contents params)
      (by rw [hmode]; exact less_popularity_text_strictWeak _ hk)
    rw [← applyFiltersAndSorting_eq] at hs
    have hmem : (applyFiltersAndSorting env contents params).Pairwise
        (fun a b => a ∈ applyFiltersAndSorting env contents params ∧
          b ∈ applyFiltersAndSorting env contents params) :=
      List.pairwise_of_forall_mem_list (fun a ha b hb => ⟨ha, hb⟩)
    refine (hs.and hmem).imp ?_
    intro a b hab
    obtain ⟨hlt, ha, hb⟩ := hab
    have hka := hk a (hp.subset ha)
    have hkb := hk b (hp.subset hb)
    have hnv : ¬ (b.Kind = "video" ∧ a.Kind = "video") := by
      rw [hkb]; intro h; exact absurd h.1 (by decide)
    rw [hmode] at hlt
    unfold less at hlt
    rw [if_pos rfl, if_neg hnv, if_pos ⟨hkb, hka⟩] at hlt
    simpa using hlt

theorem c17_popularity_single_kind_witness :
    ((∀ c ∈ applyFilters goSortEnv mixedContents videoOnlyParams, c.Kind = "video") →
      (applyFiltersAndSorting goSortEnv mixedContents videoOnlyParams).Pairwise
        (fun a b => a.Views ≥ b.Views)) ∧
    ((∀ c ∈ applyFilters goSortEnv mixedContents videoOnlyParams, c.Kind = "text") →
      (applyFiltersAndSorting goSortEnv mixedContents videoOnlyParams).Pairwise
        (fun a b => a.Reactions ≥ b.Reactions)) :=
  c17_popularity_single_kind goSortEnv mixedContents videoOnlyParams goInsertionSort_perm
    goInsertionSort_sorts rfl

/-! ## Theorems: the working set and the pipeline -/

theorem normalize_normalizedFrom (env : Env) (provider : String) (k : Nat)
    (pc : ProviderContent) : NormalizedFrom provider pc (normalize env provider k pc) :=
  ⟨rfl, rfl, rfl, rfl, rfl, rfl, rfl, rfl, rfl, rfl, rfl, env.clock (3 * k), rfl⟩

theorem normalizeAll_pointwise (env : Env) (provider : String) (cs : List ProviderContent) :
    ∀ k, List.Forall₂ (NormalizedFrom provider) cs (normalizeAll env provider k cs) := by
  induction cs with
  | nil => intro k; exact List.Forall₂.nil
  | cons pc rest ih =>
    intro k
    exact List.Forall₂.cons (normalize_normalizedFrom env provider k pc) (ih (k + 1))

/-- The provider loop appends, outcome by outcome and in the order of the
outcomes, what each outcome contributes. -/
theorem gather_parts (env : Env) (params : SearchParams) (results : List ProviderResult) :
    ∀ k, ∃ parts : List (List Content),
      List.Forall₂ (Contributes env params) results parts ∧
      (gather env params k results).1 = parts.flatten := by
  induction results with
  | nil => intro k; exact ⟨[], List.Forall₂.nil, rfl⟩
  | cons r rest ih =>
    intro k
    unfold gather
    cases hE : r.Error with
    | none =>
      obtain ⟨parts, hp, hg⟩ := ih (k + r.Contents.length)
      refine ⟨normalizeAll env r.Provider k r.Contents :: parts, List.Forall₂.cons ?_ hp, ?_⟩
      · unfold Contributes
        rw [hE]
        exact normalizeAll_pointwise env r.Provider r.Contents k
      · simp only [List.flatten_cons, hg]
    | some e =>
      obtain ⟨parts, hp, hg⟩ := ih k
      dsimp only
      cases hS : env.SearchByProvider r.Provider params.Query params.Page params.PerPage with
      | error e' =>
        refine ⟨[] :: parts, List.Forall₂.cons ?_ hp, ?_⟩
        · unfold Contributes
          rw [hE]
          dsimp only
          rw [hS]
        · simp only [List.flatten_cons, List.nil_append, hg]
      | ok db =>
        refine ⟨db :: parts, List.Forall₂.cons ?_ hp, ?_⟩
        · unfold Contributes
          rw [hE]
          dsimp only
          rw [hS]
        · simp only [List.flatten_cons, hg]

theorem applyFilters_no_filters (env : Env) (contents : List Content) (params : SearchParams)
    (hF : params.ContentTypes = []) (hT : params.Tags = []) :
    applyFilters env contents params = contents := by
  unfold applyFilters
  simp [hF, hT]

/-- Go `Search` after a cache lookup that did not hit is the pipeline. -/
theorem Search_miss_eq_pipeline (env : Env) (params : SearchParams) :
    (env.hasCache = false → Search env params = pipeline env params) ∧
    (env.hasCache = true →
      ∀ e, env.cacheGet (generateCacheKey params) = Except.error e →
        Search env params =
          (Effect.cacheGet (generateCacheKey params) :: (pipeline env params).1,
            (pipeline env params).2)) := by
  constructor
  · intro h
    unfold Search pipeline
    dsimp only
    rw [h]
    simp only [Bool.false_eq_true, if_false, List.nil_append]
  · intro h e he
    unfold Search pipeline
    dsimp only
    rw [h, he]
    simp only [if_true]
    split
    · rfl
    · split <;> rfl

/-- C18: on a cache miss with no filters, the working set `Search` builds is the
concatenation, in the order of the provider outcomes, of what each outcome
contributes (a successful outcome its contents normalized one-to-one in
source order, a failed outcome the store's records for that provider, nothing
when that read fails too); every result `Search` returns has `total` equal to
the sum of these counts, and `Search` does return when `page * per_page` is in
the range of an `int`, with all the working set as items when `page = 1` and
`per_page` is at least the total. (`sort.Slice` is taken to reorder its
slice.) -/
theorem c18_working_set (env : Env) (params : SearchParams)
    (hsort : SortPermutes env.sortSlice)
    (hpage : 1 ≤ params.Page) (hper : 1 ≤ params.PerPage)
    (hF : params.ContentTypes = []) (hT : params.Tags = [])
    (hmiss : env.hasCache = false ∨
      ∃ e, env.cacheGet (generateCacheKey params) = Except.error e) :
    ∃ parts : List (List Content),
      List.Forall₂ (Contributes env params)
        (env.SearchAllWithPagination params.Query params.Page params.PerPage) parts ∧
      workingSet env params = parts.flatten ∧
      (∀ r err, (Search env params).2 = Outcome.ret r err →
        r.Total = ((parts.map List.length).sum : Nat)) ∧
      (params.Page * params.PerPage ≤ maxInt64 →
        ∃ r, (Search env params).2 = Outcome.ret r none ∧
          (params.Page = 1 → ((workingSet env params).length : Int) ≤ params.PerPage →
            r.Items.Perm (workingSet env params))) := by
  obtain ⟨parts, hparts, hflat⟩ := gather_parts env params
    (env.SearchAllWithPagination params.Query params.Page params.PerPage) 0
  have hws : workingSet env params = parts.flatten := hflat
  have hne : params.PerPage ≠ 0 := by omega
  have hperm : (applyFiltersAndSorting env (workingSet env params) params).Perm
      (workingSet env params) := by
    have := applyFiltersAndSorting_perm env (workingSet env params) params hsort
    rwa [applyFilters_no_filters env _ params hF hT] at this
  have hlen : (workingSet env params).length = (parts.map List.length).sum := by
    rw [hws, List.length_flatten]
  have hout := Search_miss_outcome env params hmiss
  refine ⟨parts, hparts, hws, ?_, ?_⟩
  · intro r err h
    rw [hout] at h
    split at h
    · exact absurd h (by simp)
    · rename_i items total hp
      rw [if_neg hne] at h
      simp only [Outcome.ret.injEq] at h
      obtain ⟨hr, _⟩ := h
      have htot := paginateResults_total _ _ _ _ _ hp
      subst hr
      dsimp only
      rw [htot]
      have : (applyFiltersAndSorting env (workingSet env params) params).length =
          (parts.map List.length).sum := by rw [hperm.length_eq, hlen]
      exact_mod_cast this
  · intro hmax
    rw [hout]
    have hin := paginateResults_in_range
      (applyFiltersAndSorting env (workingSet env params) params)
      params.Page params.PerPage hpage hper hmax
    unfold workingSet at hin
    rw [hin]
    dsimp only
    rw [if_neg hne]
    refine ⟨_, rfl, ?_⟩
    intro h1 hle
    dsimp only
    have hz : ((params.Page - 1) * params.PerPage).toNat = 0 := by rw [h1]; simp
    rw [hz, List.drop_zero]
    have hlen' : (applyFiltersAndSorting env (workingSet env params) params).length ≤
        params.PerPage.toNat := by
      rw [hperm.length_eq]
      omega
    have := List.take_of_length_le hlen'
    unfold workingSet at this hperm ⊢
    rw [this]
    exact hperm

theorem c18_working_set_witness :
    ∃ r, (Search goSortEnv sampleParams).2 = Outcome.ret r none ∧
      r.Total = 5 ∧ r.Items.length = 5 := by
  obtain ⟨parts, _, hws, htot, hret⟩ :=
    c18_working_set goSortEnv sampleParams goInsertionSort_perm (by decide) (by decide)
      rfl rfl (Or.inr ⟨GoError.other "redis: nil", rfl⟩)
  obtain ⟨r, hr, hitems⟩ := hret (by decide)
  have hlen : (workingSet goSortEnv sampleParams).length = 5 := by decide!
  refine ⟨r, hr, ?_, ?_⟩
  · rw [htot r none hr, ← List.length_flatten, ← hws, hlen]
    rfl
  · rw [(hitems rfl (by rw [hlen]; decide)).length_eq, hlen]

/-- The provider loop collects nothing when every outcome is an error and every
store read fails or returns no records. -/
theorem gather_all_down (env : Env) (params : SearchParams) (results : List ProviderResult)
    (hdown : ∀ r ∈ results, r.Error ≠ none ∧
      (env.SearchByProvider r.Provider params.Query params.Page params.PerPage = Except.ok [] ∨
       ∃ e, env.SearchByProvider r.Provider params.Query params.Page params.PerPage =
         Except.error e)) :
    ∀ k, (gather env params k results).1 = [] := by
  induction results with
  | nil => intro k; rfl
  | cons r rest ih =>
    intro k
    have hr := hdown r (List.mem_cons_self _ _)
    have ih' := ih (fun x hx => hdown x (List.mem_cons_of_mem _ hx)) k
    obtain ⟨e, he⟩ := Option.ne_none_iff_exists'.mp hr.1
    unfold gather
    rw [he]
    dsimp only
    rcases hr.2 with h | ⟨e', h⟩
    · rw [h]
      simp [ih']
    · rw [h]
      exact ih'

/-- Go `Search` returns a result and a nil error whenever `page * per_page` is in
the range of an `int`. -/
theorem Search_returns_in_range (env : Env) (params : SearchParams)
    (hpage : 1 ≤ params.Page) (hper : 1 ≤ params.PerPage)
    (hmax : params.Page * params.PerPage ≤ maxInt64) :
    ∃ r, (Search env params).2 = Outcome.ret r none := by
  have hne : params.PerPage ≠ 0 := by omega
  have hmissret : (env.hasCache = false ∨
      ∃ e, env.cacheGet (generateCacheKey params) = Except.error e) →
      ∃ r, (Search env params).2 = Outcome.ret r none := by
    intro hmiss
    rw [Search_miss_outcome env params hmiss,
      paginateResults_in_range _ _ _ hpage hper hmax]
    dsimp only
    rw [if_neg hne]
    exact ⟨_, rfl⟩
  cases hc : env.hasCache with
  | false => exact hmissret (Or.inl hc)
  | true =>
    cases hg : env.cacheGet (generateCacheKey params) with
    | error e => exact hmissret (Or.inr ⟨e, hg⟩)
    | ok v =>
      refine ⟨v, ?_⟩
      unfold Search
      dsimp only
      rw [hc, hg]
      rfl

/-- With a cold cache, every provider down and nothing in the store, `Search`
returns an empty successful result, whatever the page. -/
theorem Search_all_down (env : Env) (params : SearchParams)
    (hsort : SortPermutes env.sortSlice) (hper : 1 ≤ params.PerPage)
    (hmiss : env.hasCache = false ∨
      ∃ e, env.cacheGet (generateCacheKey params) = Except.error e)
    (hdown : ∀ r ∈ env.SearchAllWithPagination params.Query params.Page params.PerPage,
      r.Error ≠ none ∧
      (env.SearchByProvider r.Provider params.Query params.Page params.PerPage = Except.ok [] ∨
       ∃ e, env.SearchByProvider r.Provider params.Query params.Page params.PerPage =
         Except.error e)) :
    (Search env params).2 =
      Outcome.ret { Items := [], Total := 0, Page := params.Page, PerPage := params.PerPage,
                    TotalPages := 0 } none := by
  have hne : params.PerPage ≠ 0 := by omega
  have hg := gather_all_down env params _ hdown 0
  have hf : applyFiltersAndSorting env [] params = [] := by
    have hp := applyFiltersAndSorting_perm env [] params hsort
    have he : applyFilters env [] params = [] := by
      unfold applyFilters
      simp
    rw [he] at hp
    exact List.Perm.eq_nil hp
  rw [Search_miss_outcome env params hmiss, hg, hf]
  have hpg : paginateResults [] params.Page params.PerPage = some ([], 0) := by
    unfold paginateResults
    simp
  rw [hpg]
  dsimp only
  rw [if_neg hne]
  simp

/-- C19 (failing input): with a cold cache, provider `A` answering and page
`92233720368547760` of 100 records, `Search` does not return: the start index
of `paginateResults` wraps to a negative number and the slice expression
panics. -/
theorem c19_search_panics_on_overflow :
    1 ≤ overflowParams.Page ∧ 1 ≤ overflowParams.PerPage ∧
    inInt64 overflowParams.Page ∧
    (Search goSortEnv overflowParams).2 = Outcome.panic := by
  refine ⟨by decide, by decide, by decide, ?_⟩
  decide!

/-- C20: when the cache holds a value under the key derived from the params,
`Search` returns exactly that value with a nil error and its only effect is
the cache read (no fan-out, no store read, no persistence, no cache write);
when the cache read returns an error, `Search` runs the whole pipeline, which
starts with the provider fan-out. -/
theorem c20_cache_hit_bypasses_pipeline (env : Env) (params : SearchParams)
    (hc : env.hasCache = true) :
    (∀ v, env.cacheGet (generateCacheKey params) = Except.ok v →
      Search env params =
        ([Effect.cacheGet (generateCacheKey params)], Outcome.ret v none)) ∧
    (∀ e, env.cacheGet (generateCacheKey params) = Except.error e →
      Search env params =
        (Effect.cacheGet (generateCacheKey params) :: (pipeline env params).1,
          (pipeline env params).2) ∧
      ∃ rest, (pipeline env params).1 =
        Effect.fanOut params.Query params.Page params.PerPage :: rest) := by
  constructor
  · intro v hv
    unfold Search
    dsimp only
    rw [hc, hv]
    rfl
  · intro e he
    refine ⟨(Search_miss_eq_pipeline env params).2 hc e he, ?_⟩
    unfold pipeline
    dsimp only
    split
    · exact ⟨_, rfl⟩
    · split
      · exact ⟨_, rfl⟩
      · split <;> exact ⟨_, rfl⟩

theorem c20_cache_hit_bypasses_pipeline_witness :
    Search cacheHitEnv sampleParams =
      ([Effect.cacheGet (generateCacheKey sampleParams)], Outcome.ret cachedSample none) :=
  (c20_cache_hit_bypasses_pipeline cacheHitEnv sampleParams rfl).1 cachedSample rfl

/-! ## Theorems: request defaults and the search handler -/

theorem SetDefaults_orderBy (r : SearchRequest) :
    r.SetDefaults.OrderBy = (if r.OrderBy = "" then "relevant_score" else r.OrderBy) := by
  unfold SearchRequest.SetDefaults
  dsimp only
  by_cases h1 : r.Page ≤ 0 <;> by_cases h2 : r.PerPage ≤ 0 <;>
    by_cases h3 : r.PerPage > 100 <;> by_cases h4 : r.OrderBy = "" <;>
    simp [h1, h2, h3, h4]

theorem SetDefaults_fixed (d : SearchRequest) (h1 : 1 ≤ d.Page) (h2 : 1 ≤ d.PerPage)
    (h3 : d.PerPage ≤ 100) (h4 : d.OrderBy ≠ "") : d.SetDefaults = d := by
  have a1 : ¬ d.Page ≤ 0 := by omega
  have a2 : ¬ d.PerPage ≤ 0 := by omega
  have a3 : ¬ d.PerPage > 100 := by omega
  unfold SearchRequest.SetDefaults
  simp only [a1, a2, a3, h4, if_false]

/-- C21: after `SetDefaults`, `Page` is 1 if it was `<= 0` and otherwise unchanged
(so `Page >= 1`); `PerPage` is 20 if it was `<= 0`, 100 if it was `> 100` and
otherwise unchanged (so `1 <= PerPage <= 100`); `OrderBy` is `relevant_score` if
it was empty and otherwise unchanged; `Query`, `Tags` and `ContentTypes` are
unchanged; and `SetDefaults` applied twice gives what it gives applied once. -/
theorem c21_set_defaults :
    ∀ r : SearchRequest,
      r.SetDefaults.Page = (if r.Page ≤ 0 then 1 else r.Page) ∧
      1 ≤ r.SetDefaults.Page ∧
      r.SetDefaults.PerPage =
        (if r.PerPage ≤ 0 then 20 else if r.PerPage > 100 then 100 else r.PerPage) ∧
      1 ≤ r.SetDefaults.PerPage ∧ r.SetDefaults.PerPage ≤ 100 ∧
      r.SetDefaults.OrderBy = (if r.OrderBy = "" then "relevant_score" else r.OrderBy) ∧
      r.SetDefaults.Query = r.Query ∧ r.SetDefaults.Tags = r.Tags ∧
      r.SetDefaults.ContentTypes = r.ContentTypes ∧
      r.SetDefaults.SetDefaults = r.SetDefaults := by
  intro r
  have hP : r.SetDefaults.Page = (if r.Page ≤ 0 then 1 else r.Page) := by
    unfold SearchRequest.SetDefaults
    dsimp only
    split <;> split <;> split <;> split <;> simp_all
  have hPP : r.SetDefaults.PerPage =
      (if r.PerPage ≤ 0 then 20 else if r.PerPage > 100 then 100 else r.PerPage) := by
    unfold SearchRequest.SetDefaults
    dsimp only
    by_cases h1 : r.Page ≤ 0 <;> by_cases h2 : r.PerPage ≤ 0 <;>
      by_cases h3 : r.PerPage > 100 <;> by_cases h4 : r.OrderBy = "" <;>
      simp [h1, h2, h3, h4]
  have hO : r.SetDefaults.OrderBy =
      (if r.OrderBy = "" then "relevant_score" else r.OrderBy) := by
    unfold SearchRequest.SetDefaults
    dsimp only
    by_cases h1 : r.Page ≤ 0 <;> by_cases h2 : r.PerPage ≤ 0 <;>
      by_cases h3 : r.PerPage > 100 <;> by_cases h4 : r.OrderBy = "" <;>
      simp [h1, h2, h3, h4]
  have hQ : r.SetDefaults.Query = r.Query ∧ r.SetDefaults.Tags = r.Tags ∧
      r.SetDefaults.ContentTypes = r.ContentTypes := by
    unfold SearchRequest.SetDefaults
    dsimp only
    split <;> split <;> split <;> split <;> simp_all
  have hP1 : 1 ≤ r.SetDefaults.Page := by
    rw [hP]; split <;> omega
  have hPP1 : 1 ≤ r.SetDefaults.PerPage ∧ r.SetDefaults.PerPage ≤ 100 := by
    rw [hPP]
    split
    · omega
    · split <;> omega
  have hO1 : r.SetDefaults.OrderBy ≠ "" := by
    rw [hO]
    split
    · decide
    · assumption
  refine ⟨hP, hP1, hPP, hPP1.1, hPP1.2, hO, hQ.1, hQ.2.1, hQ.2.2, ?_⟩
  exact SetDefaults_fixed r.SetDefaults hP1 hPP1.1 hPP1.2 hO1

/-- C22 (counterexample): the handler rejects the sort field `relevance` with the
invalid-sort-field error, without invoking the service, and accepts the sort
field `relevant_score`, for which it invokes the service. -/
theorem c22_relevance_rejected :
    Handler.Search goSortEnv (Except.ok (requestSortedBy "relevance")) =
      ([], HandlerOutcome.errorResponse ErrInvalidSortField) ∧
    (Handler.Search goSortEnv (Except.ok (requestSortedBy "relevant_score"))).1 =
      (Search goSortEnv (paramsOf (requestSortedBy "relevant_score"))).1 ∧
    (Handler.Search goSortEnv (Except.ok (requestSortedBy "relevant_score"))).1 ≠ [] ∧
    (Handler.Search goSortEnv (Except.ok (requestSortedBy "relevant_score"))).2 ≠
      HandlerOutcome.errorResponse ErrInvalidSortField := by
  refine ⟨by decide!, by decide!, by decide!, by decide!⟩

/-- C22 (amended): the handler accepts a request exactly when its sort field, after
the defaults are applied, is `popularity` or `relevant_score` (an empty field
becomes `relevant_score`): it then runs the search service on the request's
parameters; for every other sort field it answers with the invalid-sort-field
validation error and the service is not invoked (no effect on any
collaborator). -/
theorem c22_sort_field_check :
    ∀ (env : Env) (req : SearchRequest),
      ((req.OrderBy = "popularity" ∨ req.OrderBy = "relevant_score" ∨ req.OrderBy = "") →
        (Handler.Search env (Except.ok req)).1 = (Search env (paramsOf req)).1 ∧
        (Handler.Search env (Except.ok req)).2 ≠
          HandlerOutcome.errorResponse ErrInvalidSortField) ∧
      (¬ (req.OrderBy = "popularity" ∨ req.OrderBy = "relevant_score" ∨ req.OrderBy = "") →
        Handler.Search env (Except.ok req) =
          ([], HandlerOutcome.errorResponse ErrInvalidSortField)) := by
  intro env req
  have hO := (SetDefaults_orderBy req)
  constructor
  · intro h
    have hacc : ¬ (req.SetDefaults.OrderBy ≠ "popularity" ∧
        req.SetDefaults.OrderBy ≠ "relevant_score") := by
      rw [hO]
      rcases h with h | h | h
      · rw [h]; decide
      · rw [h]; decide
      · rw [h]; decide
    have hEq : Handler.Search env (Except.ok req) =
        (match Search env (paramsOf req) with
          | (effects, Outcome.panic) => (effects, HandlerOutcome.panic)
          | (effects, Outcome.ret _ (some _)) =>
            (effects, HandlerOutcome.errorResponse ErrInternalServer)
          | (effects, Outcome.ret result none) =>
            (effects, HandlerOutcome.success result.Items result.Page result.PerPage
              result.Total result.TotalPages)) := by
      unfold Handler.Search
      dsimp only
      rw [if_neg hacc]
      rfl
    rw [hEq]
    rcases hS : Search env (paramsOf req) with ⟨effects, out⟩
    cases out with
    | panic => exact ⟨rfl, by simp⟩
    | ret result err =>
      cases err with
      | none => exact ⟨rfl, by simp⟩
      | some e => exact ⟨rfl, by simp [ErrInternalServer, ErrInvalidSortField,
          CodeInternalError, CodeValidationError]⟩
  · intro h
    have hrej : req.SetDefaults.OrderBy ≠ "popularity" ∧
        req.SetDefaults.OrderBy ≠ "relevant_score" := by
      rw [hO]
      push_neg at h
      rw [if_neg h.2.2]
      exact ⟨h.1, h.2.1⟩
    unfold Handler.Search
    dsimp only
    rw [if_pos hrej]

theorem c22_sort_field_check_witness :
    (Handler.Search goSortEnv (Except.ok (requestSortedBy "popularity"))).1 =
        (Search goSortEnv (paramsOf (requestSortedBy "popularity"))).1 ∧
      (Handler.Search goSortEnv (Except.ok (requestSortedBy "popularity"))).2 ≠
        HandlerOutcome.errorResponse ErrInvalidSortField :=
  (c22_sort_field_check goSortEnv (requestSortedBy "popularity")).1 (Or.inl rfl)
/-! ## Theorems: content type mapping -/

theorem charToLower_idem (c : Char) : c.toLower.toLower = c.toLower := by
  by_cases h : c.toNat ≥ 65 ∧ c.toNat ≤ 90
  · have h1 : c.toLower = Char.ofNat (c.toNat + 32) := by
      unfold Char.toLower
      dsimp only
      rw [if_pos h]
    rw [h1]
    obtain ⟨a, b⟩ := h
    generalize c.toNat = n at a b
    interval_cases n <;> decide
  · have h1 : c.toLower = c := by
      unfold Char.toLower
      dsimp only
      rw [if_neg h]
    rw [h1, h1]

theorem asciiLower_lowerCasing : LowerCasing asciiLower := by
  refine ⟨?_, by decide, by decide⟩
  intro s
  show String.mk (List.map Char.toLower (List.map Char.toLower s.toList)) =
    String.mk (List.map Char.toLower s.toList)
  rw [List.map_map]
  congr 1
  apply List.map_congr_left
  intro c _
  exact charToLower_idem c

/-- C24: with `strings.ToLower` any lower-casing function, `mapContentType s` is
`video` when the lower-cased `s` is `video`, `text` when the lower-cased `s` is
`article` or `text`, and otherwise the lower-cased `s`; the empty string maps to
the empty string; and `mapContentType` is idempotent. -/
theorem c24_map_content_type (toLower : String → String) (hl : LowerCasing toLower) :
    (∀ s, toLower s = "video" → mapContentType toLower s = "video") ∧
    (∀ s, toLower s = "article" ∨ toLower s = "text" → mapContentType toLower s = "text") ∧
    (∀ s, toLower s ≠ "video" → toLower s ≠ "article" → toLower s ≠ "text" →
      mapContentType toLower s = toLower s) ∧
    mapContentType toLower "" = "" ∧
    (∀ s, mapContentType toLower (mapContentType toLower s) = mapContentType toLower s) := by
  obtain ⟨hidem, hempty, htext⟩ := hl
  have hv : ∀ s, toLower s = "video" → mapContentType toLower s = "video" := by
    intro s h
    unfold mapContentType
    dsimp only
    rw [if_pos h]
  have ht : ∀ s, toLower s = "article" ∨ toLower s = "text" →
      mapContentType toLower s = "text" := by
    intro s h
    have hne : toLower s ≠ "video" := by
      rcases h with h | h <;> rw [h] <;> decide
    unfold mapContentType
    dsimp only
    rw [if_neg hne, if_pos h]
  have ho : ∀ s, toLower s ≠ "video" → toLower s ≠ "article" → toLower s ≠ "text" →
      mapContentType toLower s = toLower s := by
    intro s h1 h2 h3
    unfold mapContentType
    dsimp only
    rw [if_neg h1, if_neg (by rintro (h | h); exact h2 h; exact h3 h)]
  refine ⟨hv, ht, ho, ?_, ?_⟩
  · rw [ho "" (by rw [hempty]; decide) (by rw [hempty]; decide) (by rw [hempty]; decide)]
    exact hempty
  · intro s
    by_cases h1 : toLower s = "video"
    · rw [hv s h1]
      apply hv
      rw [← h1, hidem]
    · by_cases h2 : toLower s = "article" ∨ toLower s = "text"
      · rw [ht s h2]
        exact ht "text" (Or.inr htext)
      · have h2a : toLower s ≠ "article" := fun h => h2 (Or.inl h)
        have h2b : toLower s ≠ "text" := fun h => h2 (Or.inr h)
        rw [ho s h1 h2a h2b]
        have hi := hidem s
        rw [ho (toLower s) (by rw [hi]; exact h1) (by rw [hi]; exact h2a)
          (by rw [hi]; exact h2b)]
        exact hi

theorem c24_map_content_type_witness :
    (∀ s, asciiLower s = "video" → mapContentType asciiLower s = "video") ∧
    (∀ s, asciiLower s = "article" ∨ asciiLower s = "text" →
      mapContentType asciiLower s = "text") ∧
    (∀ s, asciiLower s ≠ "video" → asciiLower s ≠ "article" → asciiLower s ≠ "text" →
      mapContentType asciiLower s = asciiLower s) ∧
    mapContentType asciiLower "" = "" ∧
    (∀ s, mapContentType asciiLower (mapContentType asciiLower s) =
      mapContentType asciiLower s) :=
  c24_map_content_type asciiLower asciiLower_lowerCasing

/-- The table of `TestMapContentType`, evaluated with ASCII lower-casing. -/
theorem mapContentType_test_table :
    mapContentType asciiLower "video" = "video" ∧
    mapContentType asciiLower "VIDEO" = "video" ∧
    mapContentType asciiLower "ViDeO" = "video" ∧
    mapContentType asciiLower "text" = "text" ∧
    mapContentType asciiLower "TEXT" = "text" ∧
    mapContentType asciiLower "article" = "text" ∧
    mapContentType asciiLower "ARTICLE" = "text" ∧
    mapContentType asciiLower "aRtIcLe" = "text" ∧
    mapContentType asciiLower "unknown" = "unknown" ∧
    mapContentType asciiLower "" = "" := by
  decide
/-! ## Theorems: the popularity comparator -/

/-- C30 (counterexample): with the popularity comparator, video A (10 views, score 5)
sorts before text record T (score 3) and T sorts before video B (20 views,
score 1), but A does not sort before B: the comparator is not transitive on
records that mix the two kinds. -/
theorem c30_popularity_not_transitive :
    mixedVideoA.Kind = "video" ∧ mixedText.Kind = "text" ∧ mixedVideoB.Kind = "video" ∧
    less "popularity" mixedVideoA mixedText = true ∧
    less "popularity" mixedText mixedVideoB = true ∧
    less "popularity" mixedVideoA mixedVideoB = false ∧
    ¬ StrictWeakOn (less "popularity") mixedContents := by
  have h1 : less "popularity" mixedVideoA mixedText = true := by decide!
  have h2 : less "popularity" mixedText mixedVideoB = true := by decide!
  have h3 : less "popularity" mixedVideoA mixedVideoB = false := by decide!
  refine ⟨rfl, rfl, rfl, h1, h2, h3, ?_⟩
  intro hs
  have := hs.2.1 mixedVideoA (by simp [mixedContents]) mixedText (by simp [mixedContents])
    mixedVideoB (by simp [mixedContents]) h1 h2
  rw [h3] at this
  exact absurd this (by decide)

/-- C30 (amended): the popularity comparator (views for two videos, reactions for
two text records, score otherwise) is irreflexive on every record, and on
records of one kind it is a strict weak ordering: for all records a, b, c of the
same kind, if a sorts before b and b sorts before c then a sorts before c, and
if a does not sort before b and b does not sort before c then a does not sort
before c. -/
theorem c30_popularity_strict_weak_one_kind (a b c : Content)
    (hab : a.Kind = b.Kind) (hbc : b.Kind = c.Kind) :
    (∀ r : Content, less "popularity" r r = false) ∧
    (less "popularity" a b = true → less "popularity" b c = true →
      less "popularity" a c = true) ∧
    (less "popularity" a b = false → less "popularity" b c = false →
      less "popularity" a c = false) := by
  have hirr : ∀ r : Content, less "popularity" r r = false := by
    intro r
    unfold less
    rw [if_pos rfl]
    split
    · simp
    · split <;> simp
  have hmem : ∀ r ∈ [a, b, c], r.Kind = a.Kind := by
    intro r hr
    simp only [List.mem_cons, List.mem_singleton, List.not_mem_nil, or_false] at hr
    rcases hr with h | h | h
    · rw [h]
    · rw [h, hab]
    · rw [h, hab, hbc]
  have hsw : StrictWeakOn (less "popularity") [a, b, c] := by
    by_cases hv : a.Kind = "video"
    · exact less_popularity_video_strictWeak _ (fun r hr => by rw [hmem r hr, hv])
    · by_cases ht : a.Kind = "text"
      · exact less_popularity_text_strictWeak _ (fun r hr => by rw [hmem r hr, ht])
      · have hl : ∀ x ∈ [a, b, c], ∀ y ∈ [a, b, c],
            less "popularity" x y = decide (x.Score > y.Score) := by
          intro x hx y hy
          unfold less
          rw [if_pos rfl, if_neg (by rw [hmem x hx]; exact fun h => hv h.1),
            if_neg (by rw [hmem x hx]; exact fun h => ht h.1)]
        refine ⟨?_, ?_, ?_⟩
        · intro x _
          exact hirr x
        · intro x hx y hy z hz h1 h2
          rw [hl x hx y hy] at h1
          rw [hl y hy z hz] at h2
          rw [hl x hx z hz]
          simp only [decide_eq_true_eq] at h1 h2 ⊢
          exact lt_trans h2 h1
        · intro x hx y hy z hz h1 h2
          rw [hl x hx y hy] at h1
          rw [hl y hy z hz] at h2
          rw [hl x hx z hz]
          simp only [decide_eq_false_iff_not, not_lt] at h1 h2 ⊢
          exact le_trans h1 h2
  refine ⟨hirr, ?_, ?_⟩
  · exact hsw.2.1 a (by simp) b (by simp) c (by simp)
  · exact hsw.2.2 a (by simp) b (by simp) c (by simp)

theorem c30_popularity_strict_weak_one_kind_witness :
    (∀ r : Content, less "popularity" r r = false) ∧
    (less "popularity" mixedVideoB mixedVideoA = true →
      less "popularity" mixedVideoA { mixedVideoA with Views := 5 } = true →
      less "popularity" mixedVideoB { mixedVideoA with Views := 5 } = true) ∧
    (less "popularity" mixedVideoB mixedVideoA = false →
      less "popularity" mixedVideoA { mixedVideoA with Views := 5 } = false →
      less "popularity" mixedVideoB { mixedVideoA with Views := 5 } = false) :=
  c30_popularity_strict_weak_one_kind mixedVideoB mixedVideoA
    { mixedVideoA with Views := 5 } rfl rfl

/-! ## Theorems: the closed state and consecutive failures -/

theorem ExecuteAll_append {W : Type} (cb : CircuitBreaker) (w : W) (cs : List (Call W))
    (c : Call W) :
    ExecuteAll cb w (cs ++ [c]) =
      ((Execute (ExecuteAll cb w cs).1 c.tCheck c.tRecord c.fn (ExecuteAll cb w cs).2).1,
       (Execute (ExecuteAll cb w cs).1 c.tCheck c.tRecord c.fn (ExecuteAll cb w cs).2).2.2) := by
  induction cs generalizing cb w with
  | nil => rfl
  | cons d ds ih =>
    show ExecuteAll _ _ (ds ++ [c]) = _
    rw [ih]
    rfl

theorem ExecuteResults_append {W : Type} (cb : CircuitBreaker) (w : W) (cs : List (Call W))
    (c : Call W) :
    ExecuteResults cb w (cs ++ [c]) =
      ExecuteResults cb w cs ++
        [callResult (ExecuteAll cb w cs).1 c (ExecuteAll cb w cs).2] := by
  induction cs generalizing cb w with
  | nil => rfl
  | cons d ds ih =>
    show callResult cb d w :: ExecuteResults _ _ (ds ++ [c]) = _
    rw [ih]
    rfl

theorem trailingFailures_append (rs : List CallResult) (r : CallResult) :
    trailingFailures (rs ++ [r]) =
      if r = CallResult.failed then trailingFailures rs + 1 else 0 := by
  unfold trailingFailures
  rw [List.reverse_append, List.reverse_singleton, List.singleton_append, List.takeWhile_cons]
  by_cases h : r = CallResult.failed
  · simp [h]
  · simp [h]

/-- The invariant of a breaker driven by sequential `Execute` calls only: it is
never left half-open, its threshold is the configured one, and while it is
closed its failure count is the number of trailing failures of the history and
is below the threshold. -/
theorem Execute_history_step {W : Type} (n : Int) (hn1 : 1 ≤ n) (hn : inInt64 n)
    (cb : CircuitBreaker) (rs : List CallResult) (c : Call W) (w : W)
    (h1 : cb.state ≠ StateHalfOpen) (h2 : cb.threshold = n)
    (h3 : cb.state = StateClosed →
      cb.failureCount = (trailingFailures rs : Int) ∧ cb.failureCount < n) :
    (Execute cb c.tCheck c.tRecord c.fn w).1.state ≠ StateHalfOpen ∧
    (Execute cb c.tCheck c.tRecord c.fn w).1.threshold = n ∧
    ((Execute cb c.tCheck c.tRecord c.fn w).1.state = StateClosed →
      (Execute cb c.tCheck c.tRecord c.fn w).1.failureCount =
        (trailingFailures (rs ++ [callResult cb c w]) : Int) ∧
      (Execute cb c.tCheck c.tRecord c.fn w).1.failureCount < n) ∧
    (cb.state = StateClosed →
      (Execute cb c.tCheck c.tRecord c.fn w).1.state ≠ StateClosed →
      callResult cb c w = CallResult.failed ∧
      (Execute cb c.tCheck c.tRecord c.fn w).1.state = StateOpen ∧
      (trailingFailures (rs ++ [callResult cb c w]) : Int) = n) := by
  rw [trailingFailures_append]
  obtain ⟨st, fc, sc, lft, th, tmo⟩ := cb
  simp only at h1 h2 h3
  subst h2
  cases st with
  | StateHalfOpen => exact absurd rfl h1
  | StateClosed =>
    obtain ⟨h3a, h3b⟩ := h3 rfl
    have hfc0 : 0 ≤ fc := by rw [h3a]; exact Int.natCast_nonneg _
    have hw : wrap64 (fc + 1) = fc + 1 := by
      apply wrap64_of_inInt64
      unfold inInt64 at hn ⊢
      unfold minInt64 maxInt64 at *
      omega
    rcases hf : c.fn w with ⟨e, w1⟩
    cases e with
    | none =>
      simp [Execute, callResult, canExecute, hf, recordSuccess]
      omega
    | some err =>
      by_cases hge : fc + 1 ≥ th
      · simp [Execute, callResult, canExecute, hf, recordFailure, hw, hge]
        omega
      · simp [Execute, callResult, canExecute, hf, recordFailure, hw, hge]
        omega
  | StateOpen =>
    by_cases hel : timeSince c.tCheck lft > tmo
    · rcases hf : c.fn w with ⟨e, w1⟩
      cases e with
      | none =>
        have hw1 : wrap64 1 = 1 := by decide
        simp [Execute, callResult, canExecute, hf, recordSuccess, hel, hw1]
        omega
      | some err =>
        simp [Execute, callResult, canExecute, hf, recordFailure, hel]
    · simp [Execute, callResult, canExecute, hel]

theorem ExecuteAll_history_inv {W : Type} (n : Int) (cooldown : Duration) (hn1 : 1 ≤ n)
    (hn : inInt64 n) (w : W) (calls : List (Call W)) :
    (ExecuteAll (NewCircuitBreaker n cooldown) w calls).1.state ≠ StateHalfOpen ∧
    (ExecuteAll (NewCircuitBreaker n cooldown) w calls).1.threshold = n ∧
    ((ExecuteAll (NewCircuitBreaker n cooldown) w calls).1.state = StateClosed →
      (ExecuteAll (NewCircuitBreaker n cooldown) w calls).1.failureCount =
        (trailingFailures (ExecuteResults (NewCircuitBreaker n cooldown) w calls) : Int) ∧
      (ExecuteAll (NewCircuitBreaker n cooldown) w calls).1.failureCount < n) := by
  induction calls using List.reverseRecOn with
  | nil =>
    refine ⟨?_, rfl, fun _ => ⟨rfl, ?_⟩⟩
    · show StateClosed ≠ StateHalfOpen
      decide
    show (0 : Int) < n
    omega
  | append_singleton cs c ih =>
    obtain ⟨i1, i2, i3⟩ := ih
    have hs := Execute_history_step n hn1 hn _ _ c (ExecuteAll (NewCircuitBreaker n cooldown) w cs).2
      i1 i2 i3
    rw [ExecuteAll_append, ExecuteResults_append]
    exact ⟨hs.1, hs.2.1, hs.2.2.1⟩

/-- C29: in every breaker state reached from `NewCircuitBreaker n cooldown` with
`n >= 1` by a sequence of sequential `Execute` calls (at any clock readings,
non-decreasing ones included), if the state is closed then the failure count is
at least 0 and strictly less than `n`; and whenever one more `Execute` call
takes the breaker out of the closed state, that call invoked its operation, the
operation failed, the breaker is open, and the history ends in exactly `n`
consecutive failed operations with no success or rejection in between. -/
theorem c29_closed_below_threshold {W : Type} (n : Int) (cooldown : Duration)
    (hn1 : 1 ≤ n) (hn : inInt64 n) (w : W) (calls : List (Call W)) :
    ((ExecuteAll (NewCircuitBreaker n cooldown) w calls).1.state = StateClosed →
      0 ≤ (ExecuteAll (NewCircuitBreaker n cooldown) w calls).1.failureCount ∧
      (ExecuteAll (NewCircuitBreaker n cooldown) w calls).1.failureCount < n) ∧
    (∀ c : Call W,
      (ExecuteAll (NewCircuitBreaker n cooldown) w calls).1.state = StateClosed →
      (ExecuteAll (NewCircuitBreaker n cooldown) w (calls ++ [c])).1.state ≠ StateClosed →
      callResult (ExecuteAll (NewCircuitBreaker n cooldown) w calls).1 c
          (ExecuteAll (NewCircuitBreaker n cooldown) w calls).2 = CallResult.failed ∧
        (ExecuteAll (NewCircuitBreaker n cooldown) w (calls ++ [c])).1.state = StateOpen ∧
        (trailingFailures (ExecuteResults (NewCircuitBreaker n cooldown) w (calls ++ [c])) : Int)
          = n) := by
  obtain ⟨i1, i2, i3⟩ := ExecuteAll_history_inv n cooldown hn1 hn w calls
  constructor
  · intro hc
    obtain ⟨a, b⟩ := i3 hc
    refine ⟨?_, b⟩
    rw [a]
    exact Int.natCast_nonneg _
  · intro c hc hnc
    have hs := Execute_history_step n hn1 hn _ _ c
      (ExecuteAll (NewCircuitBreaker n cooldown) w calls).2 i1 i2 i3
    rw [ExecuteAll_append] at hnc ⊢
    rw [ExecuteResults_append]
    exact hs.2.2.2 hc hnc

theorem c29_closed_below_threshold_witness :
    ((ExecuteAll (NewCircuitBreaker 2 5) (0 : Nat) [⟨1, 1, failingOp⟩]).1.state = StateClosed →
      0 ≤ (ExecuteAll (NewCircuitBreaker 2 5) (0 : Nat) [⟨1, 1, failingOp⟩]).1.failureCount ∧
      (ExecuteAll (NewCircuitBreaker 2 5) (0 : Nat) [⟨1, 1, failingOp⟩]).1.failureCount < 2) ∧
    (∀ c : Call Nat,
      (ExecuteAll (NewCircuitBreaker 2 5) (0 : Nat) [⟨1, 1, failingOp⟩]).1.state = StateClosed →
      (ExecuteAll (NewCircuitBreaker 2 5) (0 : Nat) ([⟨1, 1, failingOp⟩] ++ [c])).1.state ≠
        StateClosed →
      callResult (ExecuteAll (NewCircuitBreaker 2 5) (0 : Nat) [⟨1, 1, failingOp⟩]).1 c
          (ExecuteAll (NewCircuitBreaker 2 5) (0 : Nat) [⟨1, 1, failingOp⟩]).2 =
          CallResult.failed ∧
        (ExecuteAll (NewCircuitBreaker 2 5) (0 : Nat) ([⟨1, 1, failingOp⟩] ++ [c])).1.state =
          StateOpen ∧
        (trailingFailures
          (ExecuteResults (NewCircuitBreaker 2 5) (0 : Nat) ([⟨1, 1, failingOp⟩] ++ [c])) : Int)
          = 2) :=
  c29_closed_below_threshold 2 5 (by decide) (by decide) 0 [⟨1, 1, failingOp⟩]

/-- The history behind C29 on a threshold of 2: after one failure the breaker is
closed with count 1, and the second consecutive failure opens it. -/
theorem closed_then_open_example :
    (ExecuteAll (NewCircuitBreaker 2 5) (0 : Nat) [⟨1, 1, failingOp⟩]).1.state = StateClosed ∧
    (ExecuteAll (NewCircuitBreaker 2 5) (0 : Nat) [⟨1, 1, failingOp⟩]).1.failureCount = 1 ∧
    (ExecuteAll (NewCircuitBreaker 2 5) (0 : Nat)
      [⟨1, 1, failingOp⟩, ⟨2, 2, failingOp⟩]).1.state = StateOpen ∧
    ExecuteResults (NewCircuitBreaker 2 5) (0 : Nat) [⟨1, 1, failingOp⟩, ⟨2, 2, failingOp⟩] =
      [CallResult.failed, CallResult.failed] := by
  decide

/-! ## Theorems: health checks -/

theorem healthCheckLoop_providers {W : Type} (ps : List (CircuitBreakerProvider W))
    (m : List (String × Option GoError)) (w : W) : (healthCheckLoop ps m w).1 = ps := by
  induction ps generalizing m w with
  | nil => rfl
  | cons p ps ih =>
    show (p.HealthCheck w).1 :: (healthCheckLoop ps _ _).1 = p :: ps
    rw [ih]
    congr 1
    unfold CircuitBreakerProvider.HealthCheck
    split <;> rfl

/-- C27: a health check never mutates a circuit breaker. For a breaker in any
state (closed, open whatever the time since the last failure, half-open),
`CircuitBreakerProvider.HealthCheck` leaves the breaker (its state, failure
count, success count and last-failure time) unchanged; when the state is open
it returns `ErrCircuitOpen` and the world is untouched (the adapter's health
check is not called); otherwise it returns what the adapter's health check
returns. `Manager.HealthCheckAll` leaves every registered provider, hence every
breaker, unchanged. -/
theorem c27_health_check_frame {W : Type} (p : CircuitBreakerProvider W) (w : W)
    (ps : List (CircuitBreakerProvider W)) :
    (p.HealthCheck w).1.breaker = p.breaker ∧
    (p.HealthCheck w).1.breaker.state = p.breaker.state ∧
    (p.HealthCheck w).1.breaker.failureCount = p.breaker.failureCount ∧
    (p.HealthCheck w).1.breaker.successCount = p.breaker.successCount ∧
    (p.HealthCheck w).1.breaker.lastFailureTime = p.breaker.lastFailureTime ∧
    (p.breaker.state = StateOpen →
      (p.HealthCheck w).2 = (some GoError.ErrCircuitOpen, w)) ∧
    (p.breaker.state ≠ StateOpen → (p.HealthCheck w).2 = p.providerHealthCheck w) ∧
    (Manager.HealthCheckAll ps w).1 = ps ∧
    (Manager.HealthCheckAll ps w).1.map (fun q => q.breaker) = ps.map (fun q => q.breaker) := by
  have h1 : (p.HealthCheck w).1 = p := by
    unfold CircuitBreakerProvider.HealthCheck
    split <;> rfl
  have h2 : (Manager.HealthCheckAll ps w).1 = ps := healthCheckLoop_providers ps [] w
  refine ⟨by rw [h1], by rw [h1], by rw [h1], by rw [h1], by rw [h1], ?_, ?_, h2, by rw [h2]⟩
  · intro ho
    unfold CircuitBreakerProvider.HealthCheck CircuitBreaker.State
    rw [if_pos ho]
  · intro hno
    unfold CircuitBreakerProvider.HealthCheck CircuitBreaker.State
    rw [if_neg hno]

theorem c27_health_check_frame_witness :
    ((sampleProvider "p1" openBreaker).HealthCheck 0).1.breaker = openBreaker ∧
    ((sampleProvider "p1" openBreaker).HealthCheck 0).2 = (some GoError.ErrCircuitOpen, 0) ∧
    (Manager.HealthCheckAll
      [sampleProvider "p1" openBreaker, sampleProvider "p2" halfOpenBreaker] 0).1.map
        (fun q => q.breaker) = [openBreaker, halfOpenBreaker] :=
  have h := c27_health_check_frame (sampleProvider "p1" openBreaker) 0
    [sampleProvider "p1" openBreaker, sampleProvider "p2" halfOpenBreaker]
  ⟨h.1, h.2.2.2.2.2.1 rfl, h.2.2.2.2.2.2.2.2⟩

/-- The health checks of an open, a half-open and a fresh closed breaker, run in
sequence: only the adapters behind the half-open and the closed breaker are
called (the world counts two calls), the map holds one entry per name and no
breaker changes. -/
theorem HealthCheckAll_example :
    (Manager.HealthCheckAll
      [sampleProvider "p1" openBreaker, sampleProvider "p2" halfOpenBreaker,
       sampleProvider "p3" (NewCircuitBreaker 3 500)] 0).2 =
      ([("p1", some GoError.ErrCircuitOpen), ("p2", none), ("p3", none)], 2) := by
  decide

/-! ## Theorems: provider fan-out -/

theorem takeOut_perm {α : Type} (j : Nat) (xs : List α) (y : α) (ys : List α)
    (h : takeOut j xs = some (y, ys)) : xs.Perm (y :: ys) := by
  induction xs generalizing j y ys with
  | nil => simp [takeOut] at h
  | cons x xs ih =>
    cases j with
    | zero =>
      simp only [takeOut, Option.some.injEq, Prod.mk.injEq] at h
      rw [← h.1, ← h.2]
    | succ j =>
      simp only [takeOut] at h
      rcases ht : takeOut j xs with _ | ⟨z, zs⟩
      · rw [ht] at h
        simp at h
      · rw [ht] at h
        simp only [Option.some.injEq, Prod.mk.injEq] at h
        rw [← h.1, ← h.2]
        exact ((ih j z zs ht).cons x).trans (List.Perm.swap z x zs)

theorem takeOut_zero_cons {α : Type} (x : α) (xs : List α) :
    takeOut 0 (x :: xs) = some (x, xs) := rfl

theorem FanOut.step_send_some (s : FanOut) (j : Nat) (r : ProviderResult)
    (rest : List ProviderResult) (h : takeOut j s.pending = some (r, rest)) :
    s.step (Event.send j) = { s with pending := rest, results := s.results ++ [r] } := by
  show (match takeOut j s.pending with
    | some (r, rest) => { s with pending := rest, results := s.results ++ [r] }
    | none => s) = _
  rw [h]

theorem FanOut.step_send_none (s : FanOut) (j : Nat) (h : takeOut j s.pending = none) :
    s.step (Event.send j) = s := by
  show (match takeOut j s.pending with
    | some (r, rest) => { s with pending := rest, results := s.results ++ [r] }
    | none => s) = _
  rw [h]

theorem FanOut.step_receive_cons (s : FanOut) (r : ProviderResult)
    (rest : List ProviderResult) (h : s.results = r :: rest) :
    s.step Event.receive = { s with results := rest, collected := s.collected ++ [r] } := by
  show (match s.results with
    | r :: rest => { s with results := rest, collected := s.collected ++ [r] }
    | [] => s) = _
  rw [h]

theorem FanOut.step_receive_nil (s : FanOut) (h : s.results = []) :
    s.step Event.receive = s := by
  show (match s.results with
    | r :: rest => { s with results := rest, collected := s.collected ++ [r] }
    | [] => s) = _
  rw [h]

/-- Every step of the fan-out moves results between the goroutines, the channel
and the collected slice without losing, duplicating or inventing one. -/
theorem FanOut.step_perm (s : FanOut) (ev : Event) :
    ((s.step ev).pending ++ (s.step ev).results ++ (s.step ev).collected).Perm
      (s.pending ++ s.results ++ s.collected) := by
  cases ev with
  | send j =>
    rcases ht : takeOut j s.pending with _ | ⟨r, rest⟩
    · rw [FanOut.step_send_none s j ht]
    · have hp := takeOut_perm j s.pending r rest ht
      rw [FanOut.step_send_some s j r rest ht]
      show (rest ++ (s.results ++ [r]) ++ s.collected).Perm _
      have h1 : (rest ++ (s.results ++ [r])).Perm (s.pending ++ s.results) := by
        have : (rest ++ (s.results ++ [r])).Perm ((r :: rest) ++ s.results) := by
          rw [← List.append_assoc]
          refine (List.perm_append_comm).trans ?_
          simp
        exact this.trans (hp.symm.append_right _)
      exact h1.append_right _
  | receive =>
    rcases hr : s.results with _ | ⟨r, rest⟩
    · rw [FanOut.step_receive_nil s hr, hr]
    · rw [FanOut.step_receive_cons s r rest hr]
      show (s.pending ++ rest ++ (s.collected ++ [r])).Perm (s.pending ++ (r :: rest) ++ s.collected)
      rw [List.append_assoc, List.append_assoc]
      apply List.Perm.append_left
      have : (rest ++ (s.collected ++ [r])).Perm ([r] ++ (rest ++ s.collected)) := by
        rw [← List.append_assoc]
        exact List.perm_append_comm
      simpa using this
  | cancel => exact List.Perm.refl _
  | ctxDone => exact List.Perm.refl _

theorem collectLoop_subperm (n : Nat) (s : FanOut) (evs : List Event)
    (out : List ProviderResult) (h : collectLoop n s evs = some out) :
    out.Subperm (s.pending ++ s.results ++ s.collected) := by
  induction evs generalizing s with
  | nil =>
    unfold collectLoop at h
    split at h
    · simp only [Option.some.injEq] at h
      rw [← h]
      exact (List.sublist_append_right _ _).subperm
    · simp at h
  | cons ev rest ih =>
    unfold collectLoop at h
    split at h
    · simp only [Option.some.injEq] at h
      rw [← h]
      exact (List.sublist_append_right _ _).subperm
    · split at h
      · simp only [Option.some.injEq] at h
        rw [← h]
        exact (List.sublist_append_right _ _).subperm
      · exact (ih _ h).trans (FanOut.step_perm s ev).subperm

theorem collectLoop_full (n : Nat) (s : FanOut) (evs : List Event)
    (out : List ProviderResult) (hc : s.cancelled = false) (hno : Event.cancel ∉ evs)
    (h : collectLoop n s evs = some out) : n ≤ out.length := by
  induction evs generalizing s with
  | nil =>
    unfold collectLoop at h
    split at h
    · simp only [Option.some.injEq] at h
      rw [← h]; assumption
    · simp at h
  | cons ev rest ih =>
    unfold collectLoop at h
    split at h
    · simp only [Option.some.injEq] at h
      rw [← h]; assumption
    · split at h
      · rename_i hd
        rw [hc] at hd
        exact absurd hd.2 (by decide)
      · have hev : ev ≠ Event.cancel := fun e => hno (by rw [e]; simp)
        have hrest : Event.cancel ∉ rest := fun m => hno (List.mem_cons_of_mem _ m)
        have hc2 : (s.step ev).cancelled = false := by
          cases ev with
          | send j =>
            rcases ht : takeOut j s.pending with _ | ⟨r, rest2⟩
            · rw [FanOut.step_send_none s j ht]; exact hc
            · rw [FanOut.step_send_some s j r rest2 ht]; exact hc
          | receive =>
            rcases hr : s.results with _ | ⟨r, rest2⟩
            · rw [FanOut.step_receive_nil s hr]; exact hc
            · rw [FanOut.step_receive_cons s r rest2 hr]; exact hc
          | cancel => exact absurd rfl hev
          | ctxDone => exact hc
        exact ih _ hc2 hrest h

theorem collectLoop_short (n : Nat) (s : FanOut) (evs : List Event)
    (out : List ProviderResult) (hc : s.cancelled = false)
    (h : collectLoop n s evs = some out) (hlt : out.length < n) : Event.cancel ∈ evs := by
  by_contra hno
  have := collectLoop_full n s evs out hc hno h
  omega
theorem FanOut.after_cons (s : FanOut) (ev : Event) (evs : List Event) :
    s.after (ev :: evs) = (s.step ev).after evs := rfl

theorem FanOut.after_append (s : FanOut) (evs1 evs2 : List Event) :
    s.after (evs1 ++ evs2) = (s.after evs1).after evs2 := by
  unfold FanOut.after
  rw [List.foldl_append]

theorem FanOut.after_perm (s : FanOut) (evs : List Event) :
    ((s.after evs).pending ++ (s.after evs).results ++ (s.after evs).collected).Perm
      (s.pending ++ s.results ++ s.collected) := by
  induction evs generalizing s with
  | nil => exact List.Perm.refl _
  | cons ev rest ih =>
    rw [FanOut.after_cons]
    exact (ih _).trans (FanOut.step_perm s ev)

/-- A schedule in two parts: the loop returns during the first part, or it runs
the second part from the state the first part leaves. -/
theorem collectLoop_append (n : Nat) (s : FanOut) (evs1 evs2 : List Event) :
    collectLoop n s (evs1 ++ evs2) =
      match collectLoop n s evs1 with
      | some out => some out
      | none => collectLoop n (s.after evs1) evs2 := by
  induction evs1 generalizing s with
  | nil =>
    show collectLoop n s evs2 = _
    by_cases hfin : n ≤ s.collected.length
    · have h1 : collectLoop n s [] = some s.collected := by
        unfold collectLoop; rw [if_pos hfin]
      have h2 : collectLoop n s evs2 = some s.collected := by
        cases evs2 with
        | nil => exact h1
        | cons e es => unfold collectLoop; rw [if_pos hfin]
      rw [h1, h2]
    · have h1 : collectLoop n s [] = none := by
        unfold collectLoop; rw [if_neg hfin]
      rw [h1]
      rfl
  | cons ev rest ih =>
    show collectLoop n s (ev :: (rest ++ evs2)) = _
    by_cases hfin : n ≤ s.collected.length
    · have h1 : ∀ es, collectLoop n s (ev :: es) = some s.collected := by
        intro es; unfold collectLoop; rw [if_pos hfin]
      rw [h1, h1]
    · by_cases hd : ev = Event.ctxDone ∧ s.cancelled = true
      · have h1 : ∀ es, collectLoop n s (ev :: es) = some s.collected := by
          intro es; unfold collectLoop; rw [if_neg hfin, if_pos hd]
        rw [h1, h1]
      · have h1 : ∀ es, collectLoop n s (ev :: es) = collectLoop n (s.step ev) es := by
          intro es
          conv_lhs => unfold collectLoop
          rw [if_neg hfin, if_neg hd]
        rw [h1, h1, ih, FanOut.after_cons]

theorem after_sends (m : Nat) (s : FanOut) (hm : s.pending.length ≤ m) :
    (s.after (List.replicate m (Event.send 0))).pending = [] ∧
    (s.after (List.replicate m (Event.send 0))).results = s.results ++ s.pending ∧
    (s.after (List.replicate m (Event.send 0))).collected = s.collected := by
  induction m generalizing s with
  | zero =>
    have : s.pending = [] := List.length_eq_zero.mp (Nat.le_zero.mp hm)
    refine ⟨this, ?_, rfl⟩
    rw [this, List.append_nil]
    rfl
  | succ m ih =>
    rw [List.replicate_succ, FanOut.after_cons]
    rcases hp : s.pending with _ | ⟨r, rest⟩
    · have hs : s.step (Event.send 0) = s := FanOut.step_send_none s 0 (by rw [hp]; rfl)
      rw [hs]
      have := ih s (by rw [hp]; exact Nat.zero_le _)
      rw [hp] at this
      exact this
    · have hs := FanOut.step_send_some s 0 r rest (by rw [hp]; rfl)
      rw [hs]
      have := ih { s with pending := rest, results := s.results ++ [r] }
        (by rw [hp] at hm; simp only [List.length_cons] at hm ⊢; omega)
      simp only at this
      refine ⟨this.1, ?_, this.2.2⟩
      rw [this.2.1, List.append_assoc]
      rfl

theorem collectLoop_receives (n m : Nat) (s : FanOut) (hp : s.pending = [])
    (hlen : s.results.length + s.collected.length = n) (hm : s.results.length ≤ m) :
    collectLoop n s (List.replicate m Event.receive) = some (s.collected ++ s.results) := by
  induction m generalizing s with
  | zero =>
    have hr : s.results = [] := List.length_eq_zero.mp (Nat.le_zero.mp hm)
    rw [hr] at hlen ⊢
    show collectLoop n s [] = _
    unfold collectLoop
    rw [if_pos (by simp only [List.length_nil] at hlen; omega), List.append_nil]
  | succ m ih =>
    rw [List.replicate_succ]
    rcases hr : s.results with _ | ⟨r, rest⟩
    · rw [hr] at hlen
      unfold collectLoop
      rw [if_pos (by simp only [List.length_nil] at hlen; omega), List.append_nil]
    · rw [hr] at hlen hm
      simp only [List.length_cons] at hlen hm
      unfold collectLoop
      rw [if_neg (by omega), if_neg (by intro h; exact absurd h.1 (by decide)),
        FanOut.step_receive_cons s r rest hr]
      have hi := ih { s with results := rest, collected := s.collected ++ [r] } hp
        (by simp only [List.length_append, List.length_singleton]; omega)
        (by show rest.length ≤ m; omega)
      rw [hi]
      simp

/-- From every state of a fan-out for `n` providers holding `n` results, the loop
returns once every goroutine has sent and the collector has received. -/
theorem collectLoop_flush (n : Nat) (s : FanOut)
    (hlen : (s.pending ++ s.results ++ s.collected).length = n) :
    (collectLoop n s (flushSchedule n)).isSome = true := by
  unfold flushSchedule
  rw [collectLoop_append]
  rcases collectLoop n s (List.replicate n (Event.send 0)) with _ | out
  · have hs := after_sends n s (by
      simp only [List.length_append] at hlen; omega)
    have hl := (FanOut.after_perm s (List.replicate n (Event.send 0))).length_eq
    rw [hlen, hs.1] at hl
    simp only [List.nil_append, List.length_append] at hl
    show (collectLoop n _ _).isSome = true
    rw [collectLoop_receives n n _ hs.1 hl (by omega)]
    rfl
  · rfl

theorem collectLoop_cancel (n : Nat) (s : FanOut) (evs : List Event)
    (h : collectLoop n s evs = none) :
    collectLoop n s (evs ++ [Event.cancel, Event.ctxDone]) = some (s.after evs).collected := by
  rw [collectLoop_append, h]
  have hnf : ¬ n ≤ (s.after evs).collected.length := by
    intro hfin
    have h2 := collectLoop_append n s evs []
    rw [List.append_nil, h] at h2
    have h3 : collectLoop n (s.after evs) [] = none := h2.symm
    unfold collectLoop at h3
    rw [if_pos hfin] at h3
    simp at h3
  show collectLoop n (s.after evs) [Event.cancel, Event.ctxDone] = _
  unfold collectLoop
  rw [if_neg hnf, if_neg (by intro h; exact absurd h.1 (by decide))]
  unfold collectLoop
  have hc : ((s.after evs).step Event.cancel).collected = (s.after evs).collected := rfl
  rw [hc, if_neg hnf, if_pos ⟨rfl, rfl⟩]
theorem fanOutStart_length (providers : List (ContentProvider × Time × Time))
    (query : String) (page perPage : Int) :
    ((fanOutStart providers query page perPage).pending ++
      (fanOutStart providers query page perPage).results ++
      (fanOutStart providers query page perPage).collected).length = providers.length := by
  simp [fanOutStart, fanOutUnits]

theorem fanOutStart_all (providers : List (ContentProvider × Time × Time))
    (query : String) (page perPage : Int) :
    (fanOutStart providers query page perPage).pending ++
      (fanOutStart providers query page perPage).results ++
      (fanOutStart providers query page perPage).collected =
      fanOutUnits providers query page perPage := by
  simp [fanOutStart]

/-- Under a schedule without cancellation, what `SearchAllWithPagination` returns
is a permutation of the results of the goroutines. -/
theorem SearchAllWithPagination_perm (providers : List (ContentProvider × Time × Time))
    (query : String) (page perPage : Int) (schedule : List Event)
    (out : List ProviderResult) (hno : Event.cancel ∉ schedule)
    (h : Manager.SearchAllWithPagination providers query page perPage schedule = some out) :
    out.Perm (fanOutUnits providers query page perPage) := by
  unfold Manager.SearchAllWithPagination at h
  have hsub := collectLoop_subperm _ _ _ _ h
  rw [fanOutStart_all] at hsub
  have hfull := collectLoop_full _ _ _ _ rfl hno h
  apply hsub.perm_of_length_le
  have : (fanOutUnits providers query page perPage).length = providers.length := by
    simp [fanOutUnits]
  omega

/-- C28: under every schedule of the goroutines, the collector and the caller,
`SearchAllWithPagination` returns once every goroutine has sent and the collector
has received. When the caller's context is not cancelled, what it returns is a
permutation of the results of the goroutines: its length is the number of
registered adapters and each adapter's name appears once per registration. In
every case what it returns consists of results of distinct goroutines, and it is
shorter than the number of adapters only if the context was cancelled. When the
context is cancelled while the loop is blocked and the collector sees it, the
loop returns the outcomes collected up to that moment. -/
theorem c28_fan_out_collects (providers : List (ContentProvider × Time × Time))
    (query : String) (page perPage : Int) (schedule : List Event) :
    (Manager.SearchAllWithPagination providers query page perPage
      (schedule ++ flushSchedule providers.length)).isSome = true ∧
    (Event.cancel ∉ schedule →
      ∀ out, Manager.SearchAllWithPagination providers query page perPage schedule = some out →
        out.Perm (fanOutUnits providers query page perPage) ∧
        out.length = providers.length ∧
        (out.map (fun r => r.Provider)).Perm (providers.map (fun p => p.1.Name))) ∧
    (∀ out, Manager.SearchAllWithPagination providers query page perPage schedule = some out →
      out.Subperm (fanOutUnits providers query page perPage) ∧
      (out.length < providers.length → Event.cancel ∈ schedule)) ∧
    (Manager.SearchAllWithPagination providers query page perPage schedule = none →
      Manager.SearchAllWithPagination providers query page perPage
          (schedule ++ [Event.cancel, Event.ctxDone]) =
        some ((fanOutStart providers query page perPage).after schedule).collected) := by
  refine ⟨?_, ?_, ?_, ?_⟩
  · unfold Manager.SearchAllWithPagination
    rw [collectLoop_append]
    rcases collectLoop providers.length (fanOutStart providers query page perPage) schedule
      with _ | out
    · show (collectLoop _ _ _).isSome = true
      apply collectLoop_flush
      rw [(FanOut.after_perm _ schedule).length_eq]
      exact fanOutStart_length providers query page perPage
    · rfl
  · intro hno out h
    have hp := SearchAllWithPagination_perm providers query page perPage schedule out hno h
    refine ⟨hp, ?_, ?_⟩
    · rw [hp.length_eq]
      simp [fanOutUnits]
    · have := hp.map (fun r => r.Provider)
      refine this.trans ?_
      unfold fanOutUnits
      rw [List.map_map]
      exact List.Perm.refl _
  · intro out h
    unfold Manager.SearchAllWithPagination at h
    constructor
    · have hsub := collectLoop_subperm _ _ _ _ h
      rw [fanOutStart_all] at hsub
      exact hsub
    · intro hlt
      exact collectLoop_short _ _ _ _ rfl h hlt
  · intro h
    exact collectLoop_cancel _ _ _ h

theorem c28_fan_out_collects_witness :
    (Event.cancel ∉ [Event.send 1, Event.receive, Event.send 0, Event.receive] →
      ∀ out, Manager.SearchAllWithPagination twoProviders "go" 1 20
          [Event.send 1, Event.receive, Event.send 0, Event.receive] = some out →
        out.Perm (fanOutUnits twoProviders "go" 1 20) ∧
        out.length = twoProviders.length ∧
        (out.map (fun r => r.Provider)).Perm (twoProviders.map (fun p => p.1.Name))) :=
  (c28_fan_out_collects twoProviders "go" 1 20
    [Event.send 1, Event.receive, Event.send 0, Event.receive]).2.1

/-- Two runs of one fan-out over two adapters: when the second adapter answers
first the outcomes come back in that order, and when the context is cancelled
after the first outcome was collected only that outcome comes back. -/
theorem SearchAllWithPagination_example :
    Manager.SearchAllWithPagination twoProviders "go" 1 20
        [Event.send 1, Event.receive, Event.send 0, Event.receive] =
      some [fanOutUnit downProvider "go" 1 20 0 7, fanOutUnit plainProvider "go" 1 20 0 5] ∧
    Manager.SearchAllWithPagination twoProviders "go" 1 20
        [Event.send 1, Event.receive, Event.cancel, Event.ctxDone] =
      some [fanOutUnit downProvider "go" 1 20 0 7] ∧
    Manager.SearchAllWithPagination twoProviders "go" 1 20
        [Event.send 1, Event.receive] = none := by
  decide

/-! ## Theorems: plain searches in the fan-out -/

/-- C23 (counterexample): an adapter without paginated search whose plain search
returns three records, asked for page 2 with page size 1: the outcome
`SearchAllWithPagination` returns for it carries all three records, not the
page slice (the second record alone). -/
theorem c23_plain_search_not_sliced :
    plainProvider.SearchWithPagination.isNone = true ∧
    plainProvider.Search "go" = ([sampleVideo 0, sampleVideo 1, sampleVideo 2], none) ∧
    specPageSlice [sampleVideo 0, sampleVideo 1, sampleVideo 2] 2 1 = [sampleVideo 1] ∧
    Manager.SearchAllWithPagination [(plainProvider, 0, 5)] "go" 2 1
        [Event.send 0, Event.receive] =
      some [{ Provider := "plain"
              Contents := [sampleVideo 0, sampleVideo 1, sampleVideo 2]
              Error := none
              Duration := 5 }] ∧
    (fanOutUnit plainProvider "go" 2 1 0 5).Contents ≠
      specPageSlice [sampleVideo 0, sampleVideo 1, sampleVideo 2] 2 1 := by
  refine ⟨rfl, rfl, by decide, by decide, by decide⟩

/-- C23 (amended): for every registered adapter that does not implement paginated
search and whose plain `Search` returns a list `xs` without error, the
`ProviderResult` its goroutine produces carries the adapter's name, no error
and the whole of `xs` as contents, whatever `page` and `per_page` are; and when
the context is not cancelled the result of `SearchAllWithPagination` contains
that outcome. -/
theorem c23_plain_search_whole_list (providers : List (ContentProvider × Time × Time))
    (query : String) (page perPage : Int) (schedule : List Event)
    (p : ContentProvider) (start finish : Time) (xs : List ProviderContent)
    (hreg : (p, start, finish) ∈ providers)
    (hplain : p.SearchWithPagination.isNone = true)
    (hxs : p.Search query = (xs, none)) :
    (fanOutUnit p query page perPage start finish).Provider = p.Name ∧
    (fanOutUnit p query page perPage start finish).Contents = xs ∧
    (fanOutUnit p query page perPage start finish).Error = none ∧
    (Event.cancel ∉ schedule →
      ∀ out, Manager.SearchAllWithPagination providers query page perPage schedule = some out →
        ∃ r ∈ out, r.Provider = p.Name ∧ r.Contents = xs ∧ r.Error = none) := by
  have hnone : p.SearchWithPagination = none := by
    cases h : p.SearchWithPagination with
    | none => rfl
    | some f => rw [h] at hplain; simp at hplain
  have h1 : (fanOutUnit p query page perPage start finish).Contents = xs := by
    unfold fanOutUnit
    simp only [hnone, hxs]
  have h2 : (fanOutUnit p query page perPage start finish).Error = none := by
    unfold fanOutUnit
    simp only [hnone, hxs]
  refine ⟨rfl, h1, h2, ?_⟩
  intro hno out h
  have hp := SearchAllWithPagination_perm providers query page perPage schedule out hno h
  refine ⟨fanOutUnit p query page perPage start finish, ?_, rfl, h1, h2⟩
  rw [hp.mem_iff]
  unfold fanOutUnits
  exact List.mem_map.mpr ⟨(p, start, finish), hreg, rfl⟩

theorem c23_plain_search_whole_list_witness :
    (fanOutUnit plainProvider "go" 2 1 0 5).Provider = plainProvider.Name ∧
    (fanOutUnit plainProvider "go" 2 1 0 5).Contents =
      [sampleVideo 0, sampleVideo 1, sampleVideo 2] ∧
    (fanOutUnit plainProvider "go" 2 1 0 5).Error = none ∧
    (Event.cancel ∉ [Event.send 0, Event.receive, Event.send 0, Event.receive] →
      ∀ out, Manager.SearchAllWithPagination twoProviders "go" 2 1
          [Event.send 0, Event.receive, Event.send 0, Event.receive] = some out →
        ∃ r ∈ out, r.Provider = plainProvider.Name ∧
          r.Contents = [sampleVideo 0, sampleVideo 1, sampleVideo 2] ∧ r.Error = none) :=
  c23_plain_search_whole_list twoProviders "go" 2 1
    [Event.send 0, Event.receive, Event.send 0, Event.receive] plainProvider 0 5
    [sampleVideo 0, sampleVideo 1, sampleVideo 2] (by simp [twoProviders]) rfl rfl

/-! ## Theorems: validation -/

theorem string_length_pos_iff (s : String) : (1 : Int) ≤ (s.length : Int) ↔ s ≠ "" := by
  constructor
  · intro h hs
    rw [hs] at h
    exact absurd h (by decide)
  · intro h
    have : s.length ≠ 0 := by
      intro h0
      apply h
      have : s.data = [] := List.length_eq_zero.mp h0
      exact String.ext this
    omega

/-- The errors of `validate.Struct` field by field: none is reported exactly when
every field passes all of its tags. -/
theorem validateStruct_eq_nil_iff (c : ProviderContent) :
    validateStruct c = [] ↔
      (c.ExternalID ≠ "" ∧ c.Title ≠ "" ∧ c.Title.length ≤ 500 ∧
        (c.Kind = "video" ∨ c.Kind = "text") ∧ c.PublishedAt ≠ zeroTime ∧
        0 ≤ c.Views ∧ 0 ≤ c.Likes ∧ 0 ≤ c.ReadingTime ∧ 0 ≤ c.Reactions) := by
  unfold validateStruct
  rw [List.filterMap_eq_nil_iff]
  simp only [providerContentRules, List.mem_cons, List.mem_singleton, List.not_mem_nil,
    or_false, forall_eq_or_imp, forall_eq, Option.map_eq_none', List.find?_eq_none,
    tagHolds, Bool.not_eq_true', decide_eq_false_iff_not, not_not, Bool.not_eq_true]
  have hk : (¬ c.Kind = "" ∧ ¬ ["video", "text"].contains c.Kind = false) ↔
      (c.Kind = "video" ∨ c.Kind = "text") := by
    rw [Bool.not_eq_false, contains_eq_true_iff]
    simp only [List.mem_cons, List.mem_singleton, List.not_mem_nil, or_false]
    constructor
    · exact fun h => h.2
    · intro h
      refine ⟨?_, h⟩
      rcases h with h | h <;> rw [h] <;> decide
  rw [hk]
  have h1 := string_length_pos_iff c.ExternalID
  have h2 := string_length_pos_iff c.Title
  constructor
  · rintro ⟨⟨a, _⟩, ⟨b, _, b3⟩, k, rest⟩
    exact ⟨a, b, by exact_mod_cast b3, k, rest⟩
  · rintro ⟨a, b, b3, k, rest⟩
    exact ⟨⟨a, h1.mpr a⟩, ⟨b, h2.mpr b, by exact_mod_cast b3⟩, k, rest⟩

/-- The five cases of `TestValidateProviderContent`, with the clock at 1000:
the valid record passes, and a missing external id, a missing title, an
unknown type and negative views are reported, each with its message. -/
theorem ValidateProviderContent_test_table :
    ValidateProviderContent (validTestContent 1000) = none ∧
    ValidateProviderContent { validTestContent 1000 with ExternalID := "" } =
      some (GoError.other
        "validation failed: ExternalID failed required validation (field is required)") ∧
    ValidateProviderContent { validTestContent 1000 with Title := "" } =
      some (GoError.other
        "validation failed: Title failed required validation (field is required)") ∧
    ValidateProviderContent { validTestContent 1000 with Kind := "invalid" } =
      some (GoError.other
        "validation failed: Type failed oneof validation (must be one of: video text)") ∧
    ValidateProviderContent { validTestContent 1000 with Views := -10 } =
      some (GoError.other
        "validation failed: Views failed gte validation (must be >= 0)") := by
  refine ⟨by decide, by decide, by decide, by decide, by decide⟩

/-! ## Theorems: validity of the records in a search result -/

/-- A provider content that passes `ValidateProviderContent` is normalized to a
record with a valid content kind and non-negative metrics. -/
theorem normalize_valid (env : Env) (provider : String) (k : Nat) (pc : ProviderContent)
    (h : ValidateProviderContent pc = none) :
    ContentType.IsValid (normalize env provider k pc).Kind = true ∧
    0 ≤ (normalize env provider k pc).Views ∧ 0 ≤ (normalize env provider k pc).Likes ∧
    0 ≤ (normalize env provider k pc).Reactions ∧
    0 ≤ (normalize env provider k pc).ReadingTime := by
  have hs : validateStruct pc = [] := by
    unfold ValidateProviderContent at h
    cases hv : validateStruct pc with
    | nil => rfl
    | cons e es => rw [hv] at h; simp at h
  obtain ⟨_, _, _, hk, _, hv, hl, hr, hx⟩ := (validateStruct_eq_nil_iff pc).mp hs
  refine ⟨?_, hv, hl, hx, hr⟩
  show ContentType.IsValid pc.Kind = true
  unfold ContentType.IsValid
  rcases hk with hk | hk <;> rw [hk] <;> decide

/-- C26 (failing input): an HTTP adapter behind a closed breaker whose upstream
answers with one item of type `Podcast` and `-5` views. `parseJSONResponse`
turns it into a provider content that `ValidateProviderContent` rejects, no
validation runs on this path, and `Search` returns the record: its content kind
is `podcast`, for which `ContentType.IsValid` is false, and its views are
negative. -/
theorem c26_unvalidated_record_in_result :
    parseJSONResponse sampleParseEnv podcastResponse.Body = ([podcastContent], none) ∧
    ValidateProviderContent podcastContent ≠ none ∧
    feedEnv.SearchAllWithPagination "go" 1 20 =
      [{ Provider := "feed", Contents := [podcastContent], Error := none, Duration := 15 }] ∧
    (Search feedEnv sampleParams).2 =
      Outcome.ret
        { Items := [{ ID := 0, ExternalID := "p-1", Provider := "feed", Title := "Episode 1",
                      Kind := "podcast", PublishedAt := 0, RawData := [], Views := -5,
                      Likes := 2, Reactions := 0, ReadingTime := 0, Tags := ["go"],
                      Score := 5, CreatedAt := 86400000000001,
                      UpdatedAt := 86400000000002 }],
          Total := 1, Page := 1, PerPage := 20, TotalPages := 1 }
        none ∧
    ContentType.IsValid "podcast" = false := by
  refine ⟨by decide, by decide, by decide, by decide!, by decide⟩

end SearchEngine
